import Mathlib

/-!
# VirtualC64: flash ROM state machine and CPU interrupt gating

A shallow embedding of `src/C64/FlashRom.cpp` (the Am29F040-like flash chip of
the EasyFlash cartridge), of the interrupt, error-state and snapshot helpers of
`src/C64/CPU.cpp`, of the buffer codec and the FNV-1a checksums of
`src/Emulator/Foundation/basic.h` and `basic.cpp`, of the ROM fingerprints of
`src/Emulator/Memory/C64Memory.h`, and of the first VIC-II cycles of
`src/C64/VIC_cycles.cpp`.

Conventions of the embedding:

* `uint8_t` and `uint32_t` values are natural numbers; a byte is a natural
  number below 256.  `&` is `&&&` on `Nat`; the bitwise AND of two bytes is a
  byte again, so no reduction modulo 256 is needed after `rom[addr] &= value`.
* The heap array `rom` is a function from offsets to bytes; only the offsets
  below `size` belong to the array.
* `assert(c)` is a check: a function whose assertion fails yields `none`;
  so does a call of `panic`, which aborts.
* A 64-bit, 32-bit or 16-bit result is reduced modulo `2^64`, `2^32` or `2^16`
  where the C arithmetic can wrap.
-/

namespace VirtualC64

/-! ## Flash ROM: data model -/

/-- States of the flash ROM command automaton, as enumerated by
`FlashRom::getStateAsString`. -/
inductive FlashRomState where
  | FLASH_READ
  | FLASH_MAGIC_1
  | FLASH_MAGIC_2
  | FLASH_AUTOSELECT
  | FLASH_BYTE_PROGRAM
  | FLASH_BYTE_PROGRAM_ERROR
  | FLASH_ERASE_MAGIC_1
  | FLASH_ERASE_MAGIC_2
  | FLASH_ERASE_SELECT
  | FLASH_CHIP_ERASE
  | FLASH_SECTOR_ERASE
  | FLASH_SECTOR_ERASE_TIMEOUT
  | FLASH_SECTOR_ERASE_SUSPEND
  deriving DecidableEq, Repr

open FlashRomState

/-- C library `memset(mem + start, val, n)` on a memory modelled as a function. -/
def memset (mem : Nat → Nat) (start val n : Nat) : Nat → Nat :=
  fun i => if start ≤ i ∧ i < start + n then val else mem i

/-- C library `memcpy(mem + start, data, n)` on a memory modelled as a function. -/
def memcpy (mem : Nat → Nat) (start : Nat) (data : Nat → Nat) (n : Nat) : Nat → Nat :=
  fun i => if start ≤ i ∧ i < start + n then data (i - start) else mem i

/-- Member variables of class `FlashRom`. -/
structure FlashRom where
  state : FlashRomState
  baseState : FlashRomState
  numSectors : Nat
  sectorSize : Nat
  size : Nat
  rom : Nat → Nat

namespace FlashRom

/-- The constructor `FlashRom::FlashRom()`: 8 sectors of 64 KB, all bytes `$FF`. -/
def create : FlashRom :=
  { state := FLASH_READ
    baseState := FLASH_READ
    numSectors := 8
    sectorSize := 0x10000
    size := 0x80000
    rom := memset (fun _ => 0) 0 0xFF 0x80000 }

/-- `FlashRom::loadBank(bank, data)`; `bank` is an `unsigned`, so the offset
`bank * 0x2000` is computed modulo `2^32`. -/
def loadBank (f : FlashRom) (bank : Nat) (data : Nat → Nat) : FlashRom :=
  { f with rom := memcpy f.rom (bank * 0x2000 % 2 ^ 32) data 0x2000 }

/-- `FlashRom::reset()`. -/
def reset (f : FlashRom) : FlashRom :=
  { f with state := FLASH_READ, baseState := FLASH_READ }

/-- `FlashRom::peek(addr)`: every branch of the switch reads the array. -/
def peek (f : FlashRom) (addr : Nat) : Option Nat :=
  if addr < f.size then
    match f.state with
    | FLASH_AUTOSELECT => some (f.rom addr)
    | FLASH_BYTE_PROGRAM_ERROR => some (f.rom addr)
    | FLASH_SECTOR_ERASE_SUSPEND => some (f.rom addr)
    | FLASH_CHIP_ERASE => some (f.rom addr)
    | FLASH_SECTOR_ERASE => some (f.rom addr)
    | FLASH_SECTOR_ERASE_TIMEOUT => some (f.rom addr)
    | _ => some (f.rom addr)
  else none

/-- `FlashRom::doByteProgram(addr, value)`: `rom[addr] &= value`, and the
result tells whether the cell now holds `value`. -/
def doByteProgram (f : FlashRom) (addr value : Nat) : Option (FlashRom × Bool) :=
  if addr < f.size then
    let rom1 : Nat → Nat := fun i => if i = addr then f.rom addr &&& value else f.rom i
    some ({ f with rom := rom1 }, rom1 addr == value)
  else none

/-- `FlashRom::doChipErase()`. -/
def doChipErase (f : FlashRom) : FlashRom :=
  { f with rom := memset f.rom 0 0xFF f.size }

/-- `FlashRom::doSectorErase(addr)`; the start offset is `addr & 0x0000`, as in
the source. -/
def doSectorErase (f : FlashRom) (addr : Nat) : Option FlashRom :=
  if addr < f.size then
    some { f with rom := memset f.rom (addr &&& 0x0000) 0xFF f.sectorSize }
  else none

/-- `FlashRom::poke(addr, value)`: one step of the command automaton. -/
def poke (f : FlashRom) (addr value : Nat) : Option FlashRom :=
  if addr < f.size then
    match f.state with
    | FLASH_READ =>
      if addr = 0x5555 ∧ value = 0xAA then some { f with state := FLASH_MAGIC_1 }
      else some f
    | FLASH_MAGIC_1 =>
      if addr = 0x2AAA ∧ value = 0x55 then some { f with state := FLASH_MAGIC_2 }
      else some { f with state := f.baseState }
    | FLASH_MAGIC_2 =>
      if addr = 0x5555 ∧ value = 0xF0 then
        some { f with state := FLASH_READ, baseState := FLASH_READ }
      else if addr = 0x5555 ∧ value = 0x90 then
        some { f with state := FLASH_AUTOSELECT, baseState := FLASH_AUTOSELECT }
      else if addr = 0x5555 ∧ value = 0xA0 then
        some { f with state := FLASH_BYTE_PROGRAM }
      else if addr = 0x5555 ∧ value = 0x80 then
        some { f with state := FLASH_ERASE_MAGIC_1 }
      else some { f with state := f.baseState }
    | FLASH_BYTE_PROGRAM =>
      match f.doByteProgram addr value with
      | none => none
      | some (g, ok) =>
        if !ok then some { g with state := FLASH_BYTE_PROGRAM_ERROR }
        else some { g with state := g.baseState }
    | FLASH_ERASE_MAGIC_1 => some f
    | FLASH_ERASE_MAGIC_2 => some f
    | FLASH_ERASE_SELECT => some f
    | FLASH_SECTOR_ERASE_TIMEOUT => some f
    | FLASH_SECTOR_ERASE => some f
    | FLASH_SECTOR_ERASE_SUSPEND => some f
    | FLASH_BYTE_PROGRAM_ERROR | FLASH_AUTOSELECT =>
      if addr = 0x5555 ∧ value = 0xAA then some { f with state := FLASH_MAGIC_1 }
      else if value = 0xF0 then
        some { f with state := FLASH_READ, baseState := FLASH_READ }
      else some f
    | FLASH_CHIP_ERASE => some f
  else none

/-- A sequence of `poke` calls, given as (address, value) pairs, run in order;
the run stops with `none` at the first failed assertion. -/
def pokeSeq (f : FlashRom) : List (Nat × Nat) → Option FlashRom
  | [] => some f
  | p :: ps => (f.poke p.1 p.2).bind (fun g => pokeSeq g ps)

/-- States that the code of `src/C64/FlashRom.cpp` can produce: a constructed
chip, changed by any of the member functions. -/
inductive Reachable : FlashRom → Prop where
  | create : Reachable create
  | reset (f : FlashRom) : Reachable f → Reachable f.reset
  | loadBank (f : FlashRom) (bank : Nat) (data : Nat → Nat) :
      Reachable f → Reachable (f.loadBank bank data)
  | doChipErase (f : FlashRom) : Reachable f → Reachable f.doChipErase
  | doSectorErase (f g : FlashRom) (addr : Nat) :
      Reachable f → f.doSectorErase addr = some g → Reachable g
  | doByteProgram (f g : FlashRom) (addr value : Nat) (b : Bool) :
      Reachable f → f.doByteProgram addr value = some (g, b) → Reachable g
  | poke (f g : FlashRom) (addr value : Nat) :
      Reachable f → f.poke addr value = some g → Reachable g

end FlashRom

/-! ## Buffer codec (`basic.h`) -/

/-- A byte buffer together with the write or read pointer `*ptr` into it. -/
structure Buffer where
  mem : Nat → Nat
  ptr : Nat

/-- `write8(ptr, value)`: `*((*ptr)++) = value`. -/
def write8 (b : Buffer) (value : Nat) : Buffer :=
  { mem := fun a => if a = b.ptr then value else b.mem a, ptr := b.ptr + 1 }

/-- `write16(ptr, value)`: the bytes `(u8)(value >> 8)` and `(u8)value`. -/
def write16 (b : Buffer) (value : Nat) : Buffer :=
  write8 (write8 b ((value >>> 8) % 256)) (value % 256)

/-- `write32(ptr, value)`: the words `(u16)(value >> 16)` and `(u16)value`. -/
def write32 (b : Buffer) (value : Nat) : Buffer :=
  write16 (write16 b ((value >>> 16) % 65536)) (value % 65536)

/-- `write64(ptr, value)`: the double words `(u32)(value >> 32)` and
`(u32)value`. -/
def write64 (b : Buffer) (value : Nat) : Buffer :=
  write32 (write32 b ((value >>> 32) % 2 ^ 32)) (value % 2 ^ 32)

/-- `read8(ptr)`: `*((*ptr)++)`. -/
def read8 (b : Buffer) : Nat × Buffer :=
  (b.mem b.ptr, { b with ptr := b.ptr + 1 })

/-- `read16(ptr)`: `((u16)read8(ptr) << 8) | (u16)read8(ptr)`, the left operand
read first (the documented big endian format), the result a `u16`. -/
def read16 (b : Buffer) : Nat × Buffer :=
  let hi := read8 b
  let lo := read8 hi.2
  (((hi.1 <<< 8) ||| lo.1) % 2 ^ 16, lo.2)

/-- `read32(ptr)`: `((u32)read16(ptr) << 16) | (u32)read16(ptr)`, the left
operand read first; the shift is a 32-bit shift. -/
def read32 (b : Buffer) : Nat × Buffer :=
  let hi := read16 b
  let lo := read16 hi.2
  (((hi.1 <<< 16) % 2 ^ 32) ||| lo.1, lo.2)

/-- `read64(ptr)`: `((u64)read32(ptr) << 32) | (u64)read32(ptr)`, the left
operand read first; the shift is a 64-bit shift. -/
def read64 (b : Buffer) : Nat × Buffer :=
  let hi := read32 b
  let lo := read32 hi.2
  (((hi.1 <<< 32) % 2 ^ 64) ||| lo.1, lo.2)

/-! ## FNV-1a checksums (`basic.h`, `basic.cpp`) -/

/-- `fnv_1a_init32()`. -/
def fnv_1a_init32 : Nat := 0x811c9dc5

/-- `fnv_1a_init64()`. -/
def fnv_1a_init64 : Nat := 0xcbf29ce484222325

/-- `fnv_1a_it32(prev, value)`: `(prev ^ value) * 0x1000193` as a `u32`. -/
def fnv_1a_it32 (prev value : Nat) : Nat :=
  ((prev ^^^ value) * 0x1000193) % 2 ^ 32

/-- `fnv_1a_it64(prev, value)`: `(prev ^ value) * 0x100000001b3` as a `u64`. -/
def fnv_1a_it64 (prev value : Nat) : Nat :=
  ((prev ^^^ value) * 0x100000001b3) % 2 ^ 64

/-- The loop `for (i = ...; i < size; i++) hash = fnv_1a_it32(hash, addr[i])`
of `fnv_1a_32`, with `n` iterations left, at index `i`. -/
def fnv_1a_32_loop (addr : Nat → Nat) : Nat → Nat → Nat → Nat
  | 0, _, hash => hash
  | n + 1, i, hash => fnv_1a_32_loop addr n (i + 1) (fnv_1a_it32 hash (addr i))

/-- The loop `for (i = ...; i < size; i++) hash = fnv_1a_it64(hash, addr[i])`
of `fnv_1a_64`, with `n` iterations left, at index `i`. -/
def fnv_1a_64_loop (addr : Nat → Nat) : Nat → Nat → Nat → Nat
  | 0, _, hash => hash
  | n + 1, i, hash => fnv_1a_64_loop addr n (i + 1) (fnv_1a_it64 hash (addr i))

/-- `fnv_1a_32(addr, size)`; `none` is the `NULL` pointer. -/
def fnv_1a_32 (addr : Option (Nat → Nat)) (size : Nat) : Nat :=
  match addr with
  | none => 0
  | some buf => if size = 0 then 0 else fnv_1a_32_loop buf size 0 fnv_1a_init32

/-- `fnv_1a_64(addr, size)`; `none` is the `NULL` pointer. -/
def fnv_1a_64 (addr : Option (Nat → Nat)) (size : Nat) : Nat :=
  match addr with
  | none => 0
  | some buf => if size = 0 then 0 else fnv_1a_64_loop buf size 0 fnv_1a_init64

/-- The 32-bit FNV-1a hash of a byte sequence, in the words of the
specification: start from `0x811c9dc5` and, for each byte `b` in order, let
`h := ((h XOR b) * 0x1000193) mod 2^32`. -/
def fnv1a32Spec (bytes : List Nat) : Nat :=
  bytes.foldl (fun h b => ((h ^^^ b) * 0x1000193) % 2 ^ 32) 0x811c9dc5

/-- The 64-bit FNV-1a hash of a byte sequence, in the words of the
specification: start from `0xcbf29ce484222325` and, for each byte `b` in order,
let `h := ((h XOR b) * 0x100000001b3) mod 2^64`. -/
def fnv1a64Spec (bytes : List Nat) : Nat :=
  bytes.foldl (fun h b => ((h ^^^ b) * 0x100000001b3) % 2 ^ 64) 0xcbf29ce484222325

/-- The bytes `mem[start]`, ..., `mem[start + n - 1]` of a memory, in order. -/
def region (mem : Nat → Nat) (start n : Nat) : List Nat :=
  (List.range n).map (fun i => mem (start + i))

/-! ## CPU: data model -/

/-- Values of `ErrorState` (`CPUTypes.h`). -/
inductive ErrorState where
  | CPU_OK
  | CPU_SOFT_BREAKPOINT_REACHED
  | CPU_HARD_BREAKPOINT_REACHED
  | CPU_ILLEGAL_INSTRUCTION
  deriving DecidableEq, Repr

/-- The message kinds that `CPU::setErrorState` passes to `putMessage`. -/
inductive MessageType where
  | MSG_CPU_OK
  | MSG_CPU_SOFT_BREAKPOINT_REACHED
  | MSG_CPU_HARD_BREAKPOINT_REACHED
  | MSG_CPU_ILLEGAL_INSTRUCTION
  deriving DecidableEq, Repr

open ErrorState MessageType

/-- Modelled from the spec: the class declaration of `CPU` (`CPU.h`) is not
among the sources, so the types of the members come from the data model of the
specification: the status flags are separate booleans, `oldI` holds the value
of `I` before the current instruction, and `opcode` is the current opcode
byte.  `irqLine` and `nmiLine` are byte bitmasks of asserting sources,
`nmiEdge` is a boolean, the two cycle stamps are 64-bit counters, and `next`
is the pointer to the next micro-step (a number, 0 being `NULL`).  Only the
members read or written by the functions below are listed. -/
structure CPU where
  opcode : Nat
  I : Bool
  oldI : Bool
  irqLine : Nat
  nmiLine : Nat
  nmiEdge : Bool
  nextPossibleIrqCycle : Nat
  nextPossibleNmiCycle : Nat
  errorState : ErrorState
  next : Nat

namespace CPU

/-- The state in which every member registered as `CLEAR_ON_RESET` is zero. -/
def cleared : CPU :=
  { opcode := 0, I := false, oldI := false, irqLine := 0, nmiLine := 0, nmiEdge := false,
    nextPossibleIrqCycle := 0, nextPossibleNmiCycle := 0, errorState := CPU_OK, next := 0 }

/-- `CPU::stateSize()`, given `VirtualComponent::stateSize()`. -/
def stateSize (baseStateSize : Nat) : Nat :=
  baseStateSize + 2

/-- `CPU::loadFromBuffer(buffer)`.  The table `callbacks` and the loader of the
base class are not among the sources and are parameters. -/
def loadFromBuffer (callbacks : Nat → Nat) (baseLoad : CPU → Buffer → CPU × Buffer)
    (c : CPU) (buffer : Buffer) : CPU × Buffer :=
  let base := baseLoad c buffer
  let idx := read16 base.2
  ({ base.1 with next := callbacks idx.1 }, idx.2)

/-- The loop `for (uint16_t i = ...;; i++)` of `CPU::saveToBuffer`: the index of
the first entry equal to `next`, or `none` when a `NULL` entry comes first
(`panic`).  The index is a `uint16_t` and wraps to 0 after 65535; a loop that
has run 65536 times without leaving repeats itself for ever, which is `none`
as well, so 65536 is all the fuel the loop can use. -/
def saveToBufferLoop (callbacks : Nat → Nat) (next : Nat) : Nat → Nat → Option Nat
  | 0, _ => none
  | fuel + 1, i =>
    if callbacks i = 0 then none
    else if callbacks i = next then some i
    else saveToBufferLoop callbacks next fuel ((i + 1) % 2 ^ 16)

/-- `CPU::saveToBuffer(buffer)`.  The table `callbacks` and the writer of the
base class are not among the sources and are parameters. -/
def saveToBuffer (callbacks : Nat → Nat) (baseSave : Buffer → Buffer)
    (c : CPU) (buffer : Buffer) : Option Buffer :=
  let base := baseSave buffer
  match saveToBufferLoop callbacks c.next 65536 0 with
  | none => none
  | some i => some (write16 base i)

/-- `CPU::pullDownIrqLine(source)`; `cycles` is `c64->getCycles()`. -/
def pullDownIrqLine (c : CPU) (cycles source : Nat) : Option CPU :=
  if source ≠ 0 then
    let c1 := if c.irqLine = 0 then { c with nextPossibleIrqCycle := (cycles + 2) % 2 ^ 64 }
      else c
    some { c1 with irqLine := c1.irqLine ||| source }
  else none

/-- `CPU::IRQLineRaisedLongEnough()`; `cycles` is `c64->getCycles()`. -/
def IRQLineRaisedLongEnough (c : CPU) (cycles : Nat) : Bool :=
  decide (cycles ≥ c.nextPossibleIrqCycle)

/-- `CPU::IRQsAreBlocked()`: the result, and the state with `oldI = I`. -/
def IRQsAreBlocked (c : CPU) : Bool × CPU :=
  let result := if c.opcode = 0x78 ∨ c.opcode = 0x58 then c.oldI else c.I
  (result, { c with oldI := c.I })

/-- `CPU::setNMILine(bit)`; `cycles` is `c64->getCycles()`. -/
def setNMILine (c : CPU) (cycles bit : Nat) : Option CPU :=
  if bit ≠ 0 then
    let c1 := if c.nmiLine = 0 then
        { c with nmiEdge := true, nextPossibleNmiCycle := (cycles + 2) % 2 ^ 64 }
      else c
    some { c1 with nmiLine := c1.nmiLine ||| bit }
  else none

/-- `CPU::NMILineRaisedLongEnough()`; `cycles` is `c64->getCycles()`. -/
def NMILineRaisedLongEnough (c : CPU) (cycles : Nat) : Bool :=
  decide (cycles ≥ c.nextPossibleNmiCycle)

/-- `CPU::setErrorState(state)`: the new state and the messages passed to
`c64->putMessage`, in order.  The `default` branch of the switch is
`assert(false)`; the four values of `ErrorState` never reach it. -/
def setErrorState (c : CPU) (state : ErrorState) : CPU × List MessageType :=
  if c.errorState = state then (c, [])
  else
    let c1 := { c with errorState := state }
    match c1.errorState with
    | CPU_OK => (c1, [MSG_CPU_OK])
    | CPU_SOFT_BREAKPOINT_REACHED => (c1, [MSG_CPU_SOFT_BREAKPOINT_REACHED])
    | CPU_HARD_BREAKPOINT_REACHED => (c1, [MSG_CPU_HARD_BREAKPOINT_REACHED])
    | CPU_ILLEGAL_INSTRUCTION => (c1, [MSG_CPU_ILLEGAL_INSTRUCTION])

/-- The message kind that corresponds to an error state. -/
def messageOf : ErrorState → MessageType
  | CPU_OK => MSG_CPU_OK
  | CPU_SOFT_BREAKPOINT_REACHED => MSG_CPU_SOFT_BREAKPOINT_REACHED
  | CPU_HARD_BREAKPOINT_REACHED => MSG_CPU_HARD_BREAKPOINT_REACHED
  | CPU_ILLEGAL_INSTRUCTION => MSG_CPU_ILLEGAL_INSTRUCTION

end CPU

/-! ## C64 memory: ROM fingerprints (`C64Memory.h`) -/

/-- The arrays `ram[65536]`, `colorRam[1024]` and `rom[65536]` of class
`C64Memory`. -/
structure C64Memory where
  ram : Nat → Nat
  colorRam : Nat → Nat
  rom : Nat → Nat

namespace C64Memory

/-- `C64Memory::basicRomIsLoaded()`. -/
def basicRomIsLoaded (m : C64Memory) : Bool :=
  (m.rom 0xA000 ||| m.rom 0xA001) != 0x00

/-- `C64Memory::deleteBasicRom()`. -/
def deleteBasicRom (m : C64Memory) : C64Memory :=
  { m with rom := memset m.rom 0xA000 0 0x2000 }

/-- `C64Memory::characterRomIsLoaded()`. -/
def characterRomIsLoaded (m : C64Memory) : Bool :=
  (m.rom 0xD000 ||| m.rom 0xD001) != 0x00

/-- `C64Memory::deleteCharacterRom()`. -/
def deleteCharacterRom (m : C64Memory) : C64Memory :=
  { m with rom := memset m.rom 0xD000 0 0x1000 }

/-- `C64Memory::kernalRomIsLoaded()`. -/
def kernalRomIsLoaded (m : C64Memory) : Bool :=
  (m.rom 0xE000 ||| m.rom 0xE001) != 0x00

/-- `C64Memory::deleteKernalRom()`. -/
def deleteKernalRom (m : C64Memory) : C64Memory :=
  { m with rom := memset m.rom 0xE000 0 0x2000 }

/-- `C64Memory::basicRomFingerprint()`; `rom + 0xA000` is the array from offset
`$A000` on. -/
def basicRomFingerprint (m : C64Memory) : Nat :=
  if m.basicRomIsLoaded then fnv_1a_64 (some (fun i => m.rom (0xA000 + i))) 0x2000 else 0

/-- `C64Memory::characterRomFingerprint()`. -/
def characterRomFingerprint (m : C64Memory) : Nat :=
  if m.characterRomIsLoaded then fnv_1a_64 (some (fun i => m.rom (0xD000 + i))) 0x1000 else 0

/-- `C64Memory::kernalRomFingerprint()`. -/
def kernalRomFingerprint (m : C64Memory) : Nat :=
  if m.kernalRomIsLoaded then fnv_1a_64 (some (fun i => m.rom (0xE000 + i))) 0x2000 else 0

end C64Memory

/-! ## VIC-II cycles (`VIC_cycles.cpp`) -/

/-- Sprite bit `SPR0`. -/
def SPR0 : Nat := 0x01

/-- Sprite bit `SPR1`. -/
def SPR1 : Nat := 0x02

/-- Sprite bit `SPR2`. -/
def SPR2 : Nat := 0x04

/-- Sprite bit `SPR3`. -/
def SPR3 : Nat := 0x08

/-- Sprite bit `SPR4`. -/
def SPR4 : Nat := 0x10

/-- Sprite bit `SPR5`. -/
def SPR5 : Nat := 0x20

/-- Sprite bit `SPR6`. -/
def SPR6 : Nat := 0x40

/-- Sprite bit `SPR7`. -/
def SPR7 : Nat := 0x80

/-- Calls that a cycle function makes to member functions whose bodies are not
in `VIC_cycles.cpp`, with their arguments. -/
inductive VICCall where
  | checkVerticalFrameFF
  | sFinalize (sprite : Nat)
  | loadShiftRegister (sprite : Nat)
  | pAccess (sprite : Nat)
  | sFirstAccess (sprite : Nat)
  | sSecondAccess (sprite : Nat)
  | sThirdAccess (sprite : Nat)
  | triggerIRQ (source : Nat)
  | setBAlow (mask : Nat)
  | updateDisplayState
  | countX
  deriving DecidableEq, Repr

/-- Values that a cycle function obtains from code outside `VIC_cycles.cpp`:
`c64->getRasterline()`, `rasterInterruptLine()`, `yCounterOverflow()`, and
the member `verticalFrameFFsetCond` as `checkVerticalFrameFF()` leaves it. -/
structure VICInputs where
  rasterline : Nat
  rasterInterruptLine : Nat
  yCounterOverflow : Bool
  verticalFrameFFsetCond : Bool

/-- Modelled from the spec: the class declaration of `VIC` is not among the
sources.  These are the members that the cycle functions read or write
themselves (`verticalFrameFF` is `p.verticalFrameFF`), and `calls` is the trace
of the calls made so far, the latest last.  The called functions are taken not
to write `yCounter`, `yCounterEqualsIrqRasterline` or `spriteDmaOnOff`. -/
structure VIC where
  yCounter : Nat
  yCounterEqualsIrqRasterline : Bool
  verticalFrameFF : Bool
  spriteDmaOnOff : Nat
  calls : List VICCall

namespace VIC

/-- Record a call in the trace. -/
def call (v : VIC) (c : VICCall) : VIC :=
  { v with calls := v.calls ++ [c] }

/-- `VIC::cycle1pal()`; the tracing aid `debug_cycle` is left out. -/
def cycle1pal (inp : VICInputs) (v : VIC) : VIC :=
  -- Phi1.1 Frame logic
  let v := v.call .checkVerticalFrameFF
  let v := if inp.verticalFrameFFsetCond then { v with verticalFrameFF := true } else v
  -- Phi1.3 Fetch
  let v := v.call (.sFinalize 2)
  let v := v.call (.loadShiftRegister 2)
  let v := v.call (.pAccess 3)
  -- Phi2.1 Rasterline interrupt (edge triggered)
  let edgeOnYCounter := inp.rasterline != 0
  let edgeOnIrqCond := v.yCounter == inp.rasterInterruptLine && !v.yCounterEqualsIrqRasterline
  let v := if edgeOnYCounter && edgeOnIrqCond then v.call (.triggerIRQ 1) else v
  let v := { v with yCounterEqualsIrqRasterline := v.yCounter == inp.rasterInterruptLine }
  -- Phi2.4 BA logic
  let v := v.call (.setBAlow (v.spriteDmaOnOff &&& (SPR3 ||| SPR4)))
  -- Phi2.5 Fetch
  let v := v.call (.sFirstAccess 3)
  -- Finalize
  let v := v.call .updateDisplayState
  v.call .countX

/-- `VIC::cycle2pal()`; the tracing aid `debug_cycle` is left out. -/
def cycle2pal (inp : VICInputs) (v : VIC) : VIC :=
  -- Check for yCounter overflows
  let v := if inp.yCounterOverflow then { v with yCounter := 0 } else v
  -- Phi1.1 Frame logic
  let v := v.call .checkVerticalFrameFF
  -- Phi1.3 Fetch
  let v := v.call (.sSecondAccess 3)
  -- Phi2.1 Rasterline interrupt (edge triggered)
  let edgeOnYCounter := v.yCounter == 0
  let edgeOnIrqCond := v.yCounter == inp.rasterInterruptLine && !v.yCounterEqualsIrqRasterline
  let v := if edgeOnYCounter && edgeOnIrqCond then v.call (.triggerIRQ 1) else v
  -- Phi2.4 BA logic
  let v := v.call (.setBAlow (v.spriteDmaOnOff &&& (SPR3 ||| SPR4 ||| SPR5)))
  -- Phi2.5 Fetch
  let v := v.call (.sThirdAccess 3)
  -- Finalize
  let v := v.call .updateDisplayState
  v.call .countX

/-- `VIC::cycle1ntsc()`; the tracing aid `debug_cycle` is left out. -/
def cycle1ntsc (inp : VICInputs) (v : VIC) : VIC :=
  -- Phi1.1 Frame logic
  let v := v.call .checkVerticalFrameFF
  let v := if inp.verticalFrameFFsetCond then { v with verticalFrameFF := true } else v
  -- Phi1.3 Fetch
  let v := v.call (.sSecondAccess 3)
  -- Phi2.1 Rasterline interrupt (edge triggered)
  let edgeOnYCounter := inp.rasterline != 0
  let edgeOnIrqCond := v.yCounter == inp.rasterInterruptLine && !v.yCounterEqualsIrqRasterline
  let v := if edgeOnYCounter && edgeOnIrqCond then v.call (.triggerIRQ 1) else v
  let v := { v with yCounterEqualsIrqRasterline := v.yCounter == inp.rasterInterruptLine }
  -- Phi2.4 BA logic
  let v := v.call (.setBAlow (v.spriteDmaOnOff &&& (SPR3 ||| SPR4 ||| SPR5)))
  -- Phi2.5 Fetch
  let v := v.call (.sThirdAccess 3)
  -- Finalize
  let v := v.call .updateDisplayState
  v.call .countX

/-- `VIC::cycle2ntsc()`; the tracing aid `debug_cycle` is left out. -/
def cycle2ntsc (inp : VICInputs) (v : VIC) : VIC :=
  -- Check for yCounter overflows
  let v := if inp.yCounterOverflow then { v with yCounter := 0 } else v
  -- Phi1.1 Frame logic
  let v := v.call .checkVerticalFrameFF
  -- Phi1.3 Fetch
  let v := v.call (.sFinalize 3)
  let v := v.call (.loadShiftRegister 3)
  let v := v.call (.pAccess 4)
  -- Phi2.1 Rasterline interrupt (edge triggered)
  let edgeOnYCounter := v.yCounter == 0
  let edgeOnIrqCond := v.yCounter == inp.rasterInterruptLine && !v.yCounterEqualsIrqRasterline
  let v := if edgeOnYCounter && edgeOnIrqCond then v.call (.triggerIRQ 1) else v
  -- Phi2.4 BA logic
  let v := v.call (.setBAlow (v.spriteDmaOnOff &&& (SPR4 ||| SPR5)))
  -- Phi2.5 Fetch
  let v := v.call (.sFirstAccess 4)
  -- Finalize
  let v := v.call .updateDisplayState
  v.call .countX

/-- `VIC::cycle3pal()`; the tracing aid `debug_cycle` is left out. -/
def cycle3pal (v : VIC) : VIC :=
  -- Phi1.1 Frame logic
  let v := v.call .checkVerticalFrameFF
  -- Phi1.3 Fetch
  let v := v.call (.sFinalize 3)
  let v := v.call (.loadShiftRegister 3)
  let v := v.call (.pAccess 4)
  -- Phi2.4 BA logic
  let v := v.call (.setBAlow (v.spriteDmaOnOff &&& (SPR4 ||| SPR5)))
  -- Phi2.5 Fetch
  let v := v.call (.sFirstAccess 4)
  -- Finalize
  let v := v.call .updateDisplayState
  v.call .countX

/-- `VIC::cycle3ntsc()`; the tracing aid `debug_cycle` is left out. -/
def cycle3ntsc (v : VIC) : VIC :=
  -- Phi1.1 Frame logic
  let v := v.call .checkVerticalFrameFF
  -- Phi1.3 Fetch
  let v := v.call (.sSecondAccess 4)
  -- Phi2.4 BA logic
  let v := v.call (.setBAlow (v.spriteDmaOnOff &&& (SPR4 ||| SPR5 ||| SPR6)))
  -- Phi2.5 Fetch
  let v := v.call (.sThirdAccess 4)
  -- Finalize
  let v := v.call .updateDisplayState
  v.call .countX

/-- `VIC::cycle4pal()`; the tracing aid `debug_cycle` is left out. -/
def cycle4pal (v : VIC) : VIC :=
  -- Phi1.1 Frame logic
  let v := v.call .checkVerticalFrameFF
  -- Phi1.3 Fetch
  let v := v.call (.sSecondAccess 4)
  -- Phi2.4 BA logic
  let v := v.call (.setBAlow (v.spriteDmaOnOff &&& (SPR4 ||| SPR5 ||| SPR6)))
  -- Phi2.5 Fetch
  let v := v.call (.sThirdAccess 4)
  -- Finalize
  let v := v.call .updateDisplayState
  v.call .countX

/-- `VIC::cycle4ntsc()`; the tracing aid `debug_cycle` is left out. -/
def cycle4ntsc (v : VIC) : VIC :=
  -- Phi1.1 Frame logic
  let v := v.call .checkVerticalFrameFF
  -- Phi1.3 Fetch
  let v := v.call (.sFinalize 4)
  let v := v.call (.loadShiftRegister 4)
  let v := v.call (.pAccess 5)
  -- Phi2.4 BA logic
  let v := v.call (.setBAlow (v.spriteDmaOnOff &&& (SPR5 ||| SPR6)))
  -- Phi2.5 Fetch
  let v := v.call (.sFirstAccess 5)
  -- Finalize
  let v := v.call .updateDisplayState
  v.call .countX

/-- The cycle function that runs in cycle `c` of a PAL rasterline, for the
cycles 1 to 4 that `VIC_cycles.cpp` defines. -/
def palCycle (c : Nat) (inp : VICInputs) (v : VIC) : Option VIC :=
  match c with
  | 1 => some (cycle1pal inp v)
  | 2 => some (cycle2pal inp v)
  | 3 => some (cycle3pal v)
  | 4 => some (cycle4pal v)
  | _ => none

/-- The arguments of the calls `setBAlow` in a trace, in order. -/
def baRequests : List VICCall → List Nat
  | [] => []
  | .setBAlow mask :: cs => mask :: baRequests cs
  | _ :: cs => baRequests cs

/-- The cycle of the pointer fetch (p-access) of sprite `n` in a PAL line, in
the words of the specification: `P(n) = 2n - 5`. -/
def pAccessCycle (n : Nat) : Int :=
  2 * (n : Int) - 5

/-- The sprites whose BA window contains cycle `c`, in the words of the
specification: the sprites `n` (of the eight) with
`P(n) - 3 <= c <= P(n) + 1`. -/
def baSprites (c : Nat) : List Nat :=
  (List.range 8).filter
    (fun n => decide (pAccessCycle n - 3 ≤ (c : Int) ∧ (c : Int) ≤ pAccessCycle n + 1))

/-- The bit mask of a set of sprites: bit `n` for sprite `n`. -/
def spriteMask (sprites : List Nat) : Nat :=
  sprites.foldl (fun m n => m ||| (1 <<< n)) 0

/-- The number of calls `triggerIRQ(1)` (the raster interrupt) in the trace. -/
def rasterIrqCount (v : VIC) : Nat :=
  v.calls.count (.triggerIRQ 1)

/-- Modelled from the spec: the code that drives the cycle functions through a
frame is not among the sources.  One rasterline of a PAL frame, as far as the
raster interrupt goes: at the start of every line but line 0 `yCounter`
advances by one; then the line runs `cycle1pal` and `cycle2pal`, during which
`getRasterline()` is the line number, `rasterInterruptLine()` is the fixed
compare value, and `yCounterOverflow()` holds in line 0, where cycle 2 resets
`yCounter` to 0.  `setCond` is `verticalFrameFFsetCond` in that line. -/
def palLine (compare : Nat) (setCond : Bool) (line : Nat) (v : VIC) : VIC :=
  let v1 := if line = 0 then v else { v with yCounter := v.yCounter + 1 }
  let inp : VICInputs :=
    { rasterline := line, rasterInterruptLine := compare,
      yCounterOverflow := decide (line = 0), verticalFrameFFsetCond := setCond }
  cycle2pal inp (cycle1pal inp v1)

/-- Modelled from the spec: the rasterlines `0`, ..., `n - 1` of a PAL frame,
in order. -/
def palLines (compare : Nat) (setCond : Nat → Bool) : Nat → VIC → VIC
  | 0, v => v
  | n + 1, v => palLine compare (setCond n) n (palLines compare setCond n v)

/-- Modelled from the spec: a PAL frame has the 312 rasterlines 0 to 311. -/
def palFrame (compare : Nat) (setCond : Nat → Bool) (v : VIC) : VIC :=
  palLines compare setCond 312 v

end VIC

/-! ## Cartridges (`ActionReplay.h`, `ActionReplay.cpp`, `FinalIII.cpp`) -/

namespace CPU

/-- Modelled from the spec: `CPU::releaseNmiLine(source)` is not among the
sources; `nmiLine` is a bitmask of asserting sources, and releasing a source
clears its bits. -/
def releaseNmiLine (c : CPU) (source : Nat) : CPU :=
  { c with nmiLine := c.nmiLine &&& (0xFF ^^^ source) }

/-- Modelled from the spec: `CPU::releaseIrqLine(source)` is not among the
sources; `irqLine` is a bitmask of asserting sources, and releasing a source
clears its bits. -/
def releaseIrqLine (c : CPU) (source : Nat) : CPU :=
  { c with irqLine := c.irqLine &&& (0xFF ^^^ source) }

end CPU

/-- Calls that reach the expansion port. -/
inductive ExpansionPortCall where
  | setGameAndExrom (game exrom : Bool)
  | setGameLine (game : Bool)
  | setExromLine (exrom : Bool)
  deriving DecidableEq, Repr

/-- Modelled from the spec: the expansion port as the cartridges see it.  It
holds the GAME and EXROM lines that the cartridge supplies; `calls` is the
trace of the calls that set them, the latest last. -/
structure ExpansionPort where
  gameLine : Bool
  exromLine : Bool
  calls : List ExpansionPortCall

namespace ExpansionPort

/-- `ExpansionPort::setGameAndExrom(game, exrom)`. -/
def setGameAndExrom (p : ExpansionPort) (game exrom : Bool) : ExpansionPort :=
  { gameLine := game, exromLine := exrom, calls := p.calls ++ [.setGameAndExrom game exrom] }

/-- `ExpansionPort::setGameLine(game)`. -/
def setGameLine (p : ExpansionPort) (game : Bool) : ExpansionPort :=
  { p with gameLine := game, calls := p.calls ++ [.setGameLine game] }

/-- `ExpansionPort::setExromLine(exrom)`. -/
def setExromLine (p : ExpansionPort) (exrom : Bool) : ExpansionPort :=
  { p with exromLine := exrom, calls := p.calls ++ [.setExromLine exrom] }

/-- The values passed to `setGameLine` in a trace, in order. -/
def gameLineUpdates : List ExpansionPortCall → List Bool
  | [] => []
  | .setGameLine g :: cs => g :: gameLineUpdates cs
  | _ :: cs => gameLineUpdates cs

end ExpansionPort

/-- The parts of the top-level object `c64` that a cartridge reaches: the CPU,
the cycle counter that `c64->getCycles()` returns, and the expansion port.
The calls `c64->suspend()` and `c64->resume()`, which synchronise with the
emulator thread, and the `debug` output are left out. -/
structure C64 where
  cpu : CPU
  cycles : Nat
  expansionport : ExpansionPort

namespace C64

/-- `c64->cpu.pullDownNmiLine(source)`, which `CPU.cpp` still defines under
the name `setNMILine`. -/
def pullDownNmiLine (c64 : C64) (source : Nat) : Option C64 :=
  (c64.cpu.setNMILine c64.cycles source).map (fun cpu => { c64 with cpu := cpu })

/-- `c64->cpu.pullDownIrqLine(source)`. -/
def pullDownIrqLine (c64 : C64) (source : Nat) : Option C64 :=
  (c64.cpu.pullDownIrqLine c64.cycles source).map (fun cpu => { c64 with cpu := cpu })

/-- `c64->cpu.releaseNmiLine(source)`. -/
def releaseNmiLine (c64 : C64) (source : Nat) : C64 :=
  { c64 with cpu := c64.cpu.releaseNmiLine source }

/-- `c64->cpu.releaseIrqLine(source)`. -/
def releaseIrqLine (c64 : C64) (source : Nat) : C64 :=
  { c64 with cpu := c64.cpu.releaseIrqLine source }

end C64

/-- Calls that a cartridge makes to functions of its base class `Cartridge`,
whose bodies are not among the sources. -/
inductive CartridgeCall where
  | bankIn (nr : Nat)
  | bankInROML (nr size offset : Nat)
  | bankInROMH (nr size offset : Nat)
  | resetWithoutDeletingRam
  | reset
  deriving DecidableEq, Repr

/-- A cartridge of class `CartridgeWithRegister`: the control register, and
the trace of the calls to the base class, the latest last. -/
structure CartridgeWithRegister where
  control : Nat
  calls : List CartridgeCall

/-- The number of buttons, `numButtons()`, of the cartridges below. -/
def numButtons : Nat := 2

namespace ActionReplay3

/-- `ActionReplay3::bank()`. -/
def bank (control : Nat) : Nat := control &&& 0x01

/-- `ActionReplay3::game()`. -/
def game (control : Nat) : Bool := (control &&& 0x02) != 0

/-- `ActionReplay3::exrom()`. -/
def exrom (control : Nat) : Bool := (control &&& 0x08) == 0

/-- `ActionReplay3::disabled()`. -/
def disabled (control : Nat) : Bool := (control &&& 0x04) != 0

/-- `ActionReplay3::setControlReg(value)`. -/
def setControlReg (k : CartridgeWithRegister) (c64 : C64) (value : Nat) :
    CartridgeWithRegister × C64 :=
  let k := { k with control := value }
  (k, { c64 with
    expansionport := c64.expansionport.setGameAndExrom (game k.control) (exrom k.control) })

/-- `ActionReplay3::pokeIO1(addr, value)`. -/
def pokeIO1 (k : CartridgeWithRegister) (c64 : C64) (_addr value : Nat) :
    CartridgeWithRegister × C64 :=
  if !disabled k.control then setControlReg k c64 value else (k, c64)

/-- `ActionReplay3::pressButton(nr)`; `intsrc` is `CPU::INTSRC_EXPANSION`. -/
def pressButton (intsrc : Nat) (k : CartridgeWithRegister) (c64 : C64) (nr : Nat) :
    Option (CartridgeWithRegister × C64) :=
  if nr ≤ numButtons then
    match nr with
    | 1 =>
      -- Freeze
      match c64.pullDownNmiLine intsrc with
      | none => none
      | some c1 =>
        match c1.pullDownIrqLine intsrc with
        | none => none
        | some c2 => some (setControlReg k c2 0)
    | 2 =>
      -- Reset
      some ({ k with calls := k.calls ++ [CartridgeCall.resetWithoutDeletingRam] }, c64)
    | _ => some (k, c64)
  else none

/-- `ActionReplay3::releaseButton(nr)`; `intsrc` is `CPU::INTSRC_EXPANSION`. -/
def releaseButton (intsrc : Nat) (k : CartridgeWithRegister) (c64 : C64) (nr : Nat) :
    Option (CartridgeWithRegister × C64) :=
  if nr ≤ numButtons then
    match nr with
    | 1 => some (k, (c64.releaseNmiLine intsrc).releaseIrqLine intsrc)
    | _ => some (k, c64)
  else none

end ActionReplay3

/-- The classes that share the code of `ActionReplay` and differ in the virtual
functions `game()`, `exrom()` and `ramIsEnabled()`. -/
inductive ActionReplayClass where
  | actionReplay
  | atomicPower
  deriving DecidableEq, Repr

namespace ActionReplay

/-- `ActionReplay::bank()`. -/
def bank (control : Nat) : Nat := (control >>> 3) &&& 0x03

/-- `ActionReplay::game()`. -/
def game (control : Nat) : Bool := (control &&& 0x01) == 0

/-- `ActionReplay::exrom()`. -/
def exrom (control : Nat) : Bool := (control &&& 0x02) != 0

/-- `ActionReplay::disabled()`. -/
def disabled (control : Nat) : Bool := (control &&& 0x04) != 0

/-- `ActionReplay::resetFreezeMode()`. -/
def resetFreezeMode (control : Nat) : Bool := (control &&& 0x40) != 0

/-- `ActionReplay::ramIsEnabled(addr)`. -/
def ramIsEnabled (control addr : Nat) : Bool :=
  if (control &&& 0x20) ≠ 0 then
    if addr ≥ 0xDF00 ∧ addr ≤ 0xDFFF then true
    else decide (addr ≥ 0x8000 ∧ addr ≤ 0x9FFF)
  else false

end ActionReplay

namespace AtomicPower

/-- `AtomicPower::specialMapping()`. -/
def specialMapping (control : Nat) : Bool := (control &&& 0b11100111) == 0b00100010

/-- `AtomicPower::game()`. -/
def game (control : Nat) : Bool :=
  if specialMapping control then false else ActionReplay.game control

/-- `AtomicPower::exrom()`. -/
def exrom (control : Nat) : Bool :=
  if specialMapping control then false else ActionReplay.exrom control

/-- `AtomicPower::ramIsEnabled(addr)`. -/
def ramIsEnabled (control addr : Nat) : Bool :=
  if (control &&& 0x20) ≠ 0 then
    if addr ≥ 0xDF00 ∧ addr ≤ 0xDFFF then true
    else if specialMapping control then decide (addr ≥ 0xA000 ∧ addr ≤ 0xBFFF)
    else decide (addr ≥ 0x8000 ∧ addr ≤ 0x9FFF)
  else false

end AtomicPower

namespace ActionReplay

/-- The virtual function `game()` of an object of the given class. -/
def vgame : ActionReplayClass → Nat → Bool
  | .actionReplay => ActionReplay.game
  | .atomicPower => AtomicPower.game

/-- The virtual function `exrom()` of an object of the given class. -/
def vexrom : ActionReplayClass → Nat → Bool
  | .actionReplay => ActionReplay.exrom
  | .atomicPower => AtomicPower.exrom

/-- The virtual function `ramIsEnabled()` of an object of the given class. -/
def vramIsEnabled : ActionReplayClass → Nat → Nat → Bool
  | .actionReplay => ActionReplay.ramIsEnabled
  | .atomicPower => AtomicPower.ramIsEnabled

/-- `ActionReplay::setControlReg(value)`; `intsrc` is `CPU::INTSRC_EXPANSION`.
The register is written before `assert((value & 0x80) == 0)` is checked. -/
def setControlReg (cls : ActionReplayClass) (intsrc : Nat) (k : CartridgeWithRegister)
    (c64 : C64) (value : Nat) : Option (CartridgeWithRegister × C64) :=
  let k := { k with control := value }
  if (value &&& 0x80) = 0 then
    let c64 := { c64 with
      expansionport :=
        c64.expansionport.setGameAndExrom (vgame cls k.control) (vexrom cls k.control) }
    let k := { k with calls := k.calls ++ [CartridgeCall.bankInROML (bank k.control) 0x2000 0] }
    let k := { k with calls := k.calls ++ [CartridgeCall.bankInROMH (bank k.control) 0x2000 0] }
    if resetFreezeMode k.control || disabled k.control then
      some (k, (c64.releaseNmiLine intsrc).releaseIrqLine intsrc)
    else some (k, c64)
  else none

/-- `ActionReplay::pokeIO1(addr, value)`. -/
def pokeIO1 (cls : ActionReplayClass) (intsrc : Nat) (k : CartridgeWithRegister)
    (c64 : C64) (_addr value : Nat) : Option (CartridgeWithRegister × C64) :=
  if !disabled k.control then setControlReg cls intsrc k c64 value else some (k, c64)

/-- `ActionReplay::pressButton(nr)`; `intsrc` is `CPU::INTSRC_EXPANSION`. -/
def pressButton (cls : ActionReplayClass) (intsrc : Nat) (k : CartridgeWithRegister)
    (c64 : C64) (nr : Nat) : Option (CartridgeWithRegister × C64) :=
  if nr ≤ numButtons then
    match nr with
    | 1 =>
      -- Freeze: turn Ultimax mode on, then pull down the NMI and the IRQ line
      match setControlReg cls intsrc k c64 0x23 with
      | none => none
      | some (k1, c1) =>
        match c1.pullDownNmiLine intsrc with
        | none => none
        | some c2 =>
          match c2.pullDownIrqLine intsrc with
          | none => none
          | some c3 => some (k1, c3)
    | 2 =>
      -- Reset
      some ({ k with calls := k.calls ++ [CartridgeCall.resetWithoutDeletingRam] }, c64)
    | _ => some (k, c64)
  else none

/-- `ActionReplay::releaseButton(nr)`; `intsrc` is `CPU::INTSRC_EXPANSION`. -/
def releaseButton (intsrc : Nat) (k : CartridgeWithRegister) (c64 : C64) (nr : Nat) :
    Option (CartridgeWithRegister × C64) :=
  if nr ≤ numButtons then
    match nr with
    | 1 => some (k, (c64.releaseNmiLine intsrc).releaseIrqLine intsrc)
    | _ => some (k, c64)
  else none

end ActionReplay

/-- The bits of the control register of the Final Cartridge III that
`FinalIII.h`, which is not among the sources, decodes: `hidden()`, `nmi()`,
`game()` and `exrom()`, as functions of the register. -/
structure FinalIIIBits where
  hidden : Nat → Bool
  nmi : Nat → Bool
  game : Nat → Bool
  exrom : Nat → Bool

/-- A cartridge of class `FinalIII`: the control register, the state of the
freeze button, the flip-flop output `qD`, and the trace of the calls to the
base class `Cartridge`, the latest last. -/
structure FinalIII where
  control : Nat
  freeezeButtonIsPressed : Bool
  qD : Bool
  calls : List CartridgeCall

namespace FinalIII

/-- `FinalIII::writeEnabled()`. -/
def writeEnabled (bits : FinalIIIBits) (f : FinalIII) : Bool :=
  !bits.hidden f.control || f.freeezeButtonIsPressed

/-- `FinalIII::updateNMI()`; `intsrc` is `CPU::INTSRC_EXPANSION`. -/
def updateNMI (bits : FinalIIIBits) (intsrc : Nat) (f : FinalIII) (c64 : C64) : Option C64 :=
  if bits.nmi f.control && !f.freeezeButtonIsPressed then some (c64.releaseNmiLine intsrc)
  else c64.pullDownNmiLine intsrc

/-- `FinalIII::updateGame()`. -/
def updateGame (bits : FinalIIIBits) (f : FinalIII) (c64 : C64) : C64 :=
  { c64 with expansionport := c64.expansionport.setGameLine (bits.game f.control && f.qD) }

/-- `FinalIII::setControlReg(value)`. -/
def setControlReg (bits : FinalIIIBits) (intsrc : Nat) (f : FinalIII) (c64 : C64)
    (value : Nat) : Option (FinalIII × C64) :=
  let f := { f with control := value }
  -- Update external lines
  match updateNMI bits intsrc f c64 with
  | none => none
  | some c1 =>
    let c2 := updateGame bits f c1
    let c3 := { c2 with expansionport := c2.expansionport.setExromLine (bits.exrom f.control) }
    -- Switch memory bank
    some ({ f with calls := f.calls ++ [CartridgeCall.bankIn (f.control &&& 0x03)] }, c3)

/-- `FinalIII::pokeIO2(addr, value)`. -/
def pokeIO2 (bits : FinalIIIBits) (intsrc : Nat) (f : FinalIII) (c64 : C64)
    (addr value : Nat) : Option (FinalIII × C64) :=
  if addr = 0xDFFF ∧ writeEnabled bits f = true then setControlReg bits intsrc f c64 value
  else some (f, c64)

/-- `FinalIII::nmiDidTrigger()`. -/
def nmiDidTrigger (bits : FinalIIIBits) (f : FinalIII) (c64 : C64) : FinalIII × C64 :=
  if f.freeezeButtonIsPressed then
    let f := { f with qD := false }
    (f, updateGame bits f c64)
  else (f, c64)

/-- `FinalIII::pressButton(nr)`. -/
def pressButton (bits : FinalIIIBits) (intsrc : Nat) (f : FinalIII) (c64 : C64) (nr : Nat) :
    Option (FinalIII × C64) :=
  if nr ≤ numButtons then
    match nr with
    | 1 =>
      -- Freeze
      let f := { f with freeezeButtonIsPressed := true }
      (updateNMI bits intsrc f c64).map (fun c1 => (f, c1))
    | 2 =>
      -- Reset
      some ({ f with calls := f.calls ++ [CartridgeCall.resetWithoutDeletingRam] }, c64)
    | _ => some (f, c64)
  else none

/-- `FinalIII::releaseButton(nr)`. -/
def releaseButton (bits : FinalIIIBits) (intsrc : Nat) (f : FinalIII) (c64 : C64) (nr : Nat) :
    Option (FinalIII × C64) :=
  if nr ≤ numButtons then
    match nr with
    | 1 =>
      -- Freeze
      let f := { f with freeezeButtonIsPressed := false }
      let f := { f with qD := true }
      (updateNMI bits intsrc f c64).map (fun c1 => (f, updateGame bits f c1))
    | _ => some (f, c64)
  else none

end FinalIII

/-- The calls that can reach a Final Cartridge III while the freeze button is
held: an acknowledged NMI, a write of the control register, a write to I/O
space 2. -/
inductive FinalIIIOp where
  | nmiDidTrigger
  | setControlReg (value : Nat)
  | pokeIO2 (addr value : Nat)
  deriving DecidableEq, Repr

namespace FinalIII

/-- One call on the cartridge. -/
def step (bits : FinalIIIBits) (intsrc : Nat) (f : FinalIII) (c64 : C64) :
    FinalIIIOp → Option (FinalIII × C64)
  | .nmiDidTrigger => some (nmiDidTrigger bits f c64)
  | .setControlReg value => setControlReg bits intsrc f c64 value
  | .pokeIO2 addr value => pokeIO2 bits intsrc f c64 addr value

/-- A sequence of calls on the cartridge, run in order; the run stops with
`none` at the first failed assertion. -/
def run (bits : FinalIIIBits) (intsrc : Nat) (f : FinalIII) (c64 : C64) :
    List FinalIIIOp → Option (FinalIII × C64)
  | [] => some (f, c64)
  | op :: ops =>
    match step bits intsrc f c64 op with
    | none => none
    | some r => run bits intsrc r.1 r.2 ops

end FinalIII

/-! ## T64 archives (`T64File.cpp`, `basic.h`, `basic.cpp`) -/

/-- `LO_BYTE(x)`: `(u8)((x) & 0xFF)`. -/
def LO_BYTE (x : Nat) : Nat := (x &&& 0xFF) % 256

/-- `HI_BYTE(x)`: `(u8)((x) >> 8)`. -/
def HI_BYTE (x : Nat) : Nat := (x >>> 8) % 256

/-- `LO_HI(x, y)`: `(u16)((y) << 8 | (x))`. -/
def LO_HI (x y : Nat) : Nat := ((y <<< 8) ||| x) % 2 ^ 16

/-- `LO_LO_HI_HI(x, y, z, w)`: `(u32)((w) << 24 | (z) << 16 | (y) << 8 | (x))`. -/
def LO_LO_HI_HI (x y z w : Nat) : Nat :=
  ((w <<< 24) ||| (z <<< 16) ||| (y <<< 8) ||| x) % 2 ^ 32

/-- The value of a `long` converted to `size_t` (64 bits). -/
def toU64 (x : Int) : Nat := (x % 2 ^ 64).toNat

/-- The value of a `size_t` converted to `long` (64 bits, two's complement). -/
def toI64 (n : Nat) : Int :=
  if n % 2 ^ 64 < 2 ^ 63 then ((n % 2 ^ 64 : Nat) : Int) else ((n % 2 ^ 64 : Nat) : Int) - 2 ^ 64

/-- The loop of `matchingBufferHeader`, with `n` bytes left, at index `i`. -/
def matchingBufferHeaderLoop (buffer header : Nat → Nat) : Nat → Nat → Bool
  | 0, _ => true
  | n + 1, i =>
    if header i ≠ buffer i then false else matchingBufferHeaderLoop buffer header n (i + 1)

/-- `matchingBufferHeader(buffer, header, length)`; `none` is the `NULL`
pointer, on which the assertions fail. -/
def matchingBufferHeader (buffer header : Option (Nat → Nat)) (length : Nat) : Option Bool :=
  match buffer, header with
  | some b, some h => some (matchingBufferHeaderLoop b h length 0)
  | _, _ => none

/-- The C string held in a sequence of bytes: the bytes before the first
`NUL`. -/
def cString (bytes : List Nat) : List Nat :=
  bytes.takeWhile (fun b => b != 0)

/-- Modelled from the spec: the class declaration (`T64File.h`, `AnyC64File.h`)
is not among the sources.  `data` and `size` are the file contents and their
length (a `size_t`); `selectedItem`, `iFp` and `iEof` are signed 64-bit
integers (`long`), `-1` standing for no selection and for an invalid file
pointer. -/
structure T64File where
  data : Nat → Nat
  size : Nat
  selectedItem : Int
  iFp : Int
  iEof : Int

namespace T64File

/-- `T64File::magicBytes`, the three bytes of `C64`. -/
def magicBytes : Nat → Nat :=
  fun i => [0x43, 0x36, 0x34].getD i 0

/-- `T64File::isT64Buffer(buffer, length)`.  `TAPFile::isTAPBuffer` is not among
the sources and is a parameter. -/
def isT64Buffer (isTAPBuffer : Option (Nat → Nat) → Nat → Bool)
    (buffer : Option (Nat → Nat)) (length : Nat) : Option Bool :=
  if length < 0x40 then some false
  else if isTAPBuffer buffer length then some false
  else matchingBufferHeader buffer (some magicBytes) 3

/-- `T64File::numberOfItems()`. -/
def numberOfItems (t : T64File) : Nat :=
  LO_HI (t.data 0x24) (t.data 0x25)

/-- `T64File::getSizeOfItem()`: the difference of two `u16` values, an `int`,
converted to `size_t`. -/
def getSizeOfItem (t : T64File) : Nat :=
  if t.selectedItem < 0 then 0
  else
    -- Compute start and end of the selected item in memory
    let offset := 0x42 + t.selectedItem.toNat * 0x20
    let startAddrInMemory := LO_HI (t.data offset) (t.data (offset + 1))
    let endAddrInMemory := LO_HI (t.data (offset + 2)) (t.data (offset + 3))
    toU64 ((endAddrInMemory : Int) - (startAddrInMemory : Int))

/-- `T64File::selectItem(item)`; `none` when `assert(false)` is reached.  The
comparisons of the `long` values `iFp` and `iEof` with the `size_t` value
`size` are unsigned comparisons. -/
def selectItem (t : T64File) (item : Nat) : Option T64File :=
  -- Invalidate the file pointer if a non-existing item is requested.
  if item ≥ t.numberOfItems then some { t with iFp := -1 }
  else
    -- Remember the selection
    let t := { t with selectedItem := (item : Int) }
    -- Set file pointer and end of file index
    let i := (0x48 + item * 0x20) % 2 ^ 32
    let t := { t with
      iFp := (LO_LO_HI_HI (t.data i) (t.data (i + 1)) (t.data (i + 2)) (t.data (i + 3)) : Nat) }
    let t := { t with iEof := toI64 ((toU64 t.iFp + t.getSizeOfItem) % 2 ^ 64) }
    -- Check for inconsistent values.
    if toU64 t.iFp > t.size ∨ toU64 t.iEof > t.size then none else some t

/-- `T64File::getNameOfItem()`: the C string left in `name`; `none` when the
assertion on `selectedItem` fails. -/
def getNameOfItem (t : T64File) : Option (List Nat) :=
  if t.selectedItem ≠ -1 then
    let first := 0x50 + t.selectedItem * 0x20
    let last := 0x60 + t.selectedItem * 0x20
    if t.size < toU64 last then some []
    else some (cString ((List.range 16).map (fun (j : Nat) =>
      let b := t.data (first + (j : Int)).toNat
      if b = 0x20 then 0x20 else b)))
  else none

/-- `T64File::getDestinationAddrOfItem()`. -/
def getDestinationAddrOfItem (t : T64File) : Nat :=
  let i := 0x42 + t.selectedItem * 0x20
  LO_HI (t.data i.toNat) (t.data (i + 1).toNat)

/-- `T64File::directoryItemIsPresent(item)`. -/
def directoryItemIsPresent (t : T64File) (item : Nat) : Bool :=
  let first := 0x40 + item * 0x20
  let last := 0x60 + item * 0x20
  -- check for zeros...
  if last < t.size then (List.range 0x20).any (fun k => t.data (first + k) != 0)
  else false

/-- The loop `while (directoryItemIsPresent(noOfItems)) noOfItems++` of
`repair`.  The counter is a `u16` and wraps to 0 after 65535, and the loop
does not write; a loop that has run 65536 times without leaving repeats
itself for ever, which is `none`, so 65536 is all the fuel the loop can use. -/
def repairCount (t : T64File) : Nat → Nat → Option Nat
  | 0, _ => none
  | fuel + 1, noOfItems =>
    if t.directoryItemIsPresent noOfItems then repairCount t fuel ((noOfItems + 1) % 2 ^ 16)
    else some noOfItems

/-- The loop `for (i = ...; i < noOfItems; i++)` of `repair`, with `n`
iterations left, at index `i`: the data, and `false` when the loop leaves
through `return false`. -/
def repairItems (size : Nat) : Nat → Nat → (Nat → Nat) → (Nat → Nat) × Bool
  | 0, _, data => (data, true)
  | n + 1, i, data =>
    -- Compute start address in file
    let k := (0x48 + i * 0x20) % 2 ^ 32
    let startAddrInContainer :=
      LO_LO_HI_HI (data k) (data (k + 1)) (data (k + 2)) (data (k + 3)) % 2 ^ 16
    if startAddrInContainer ≥ size then (data, false)
    else
      -- Compute start address in memory
      let k := (0x42 + i * 0x20) % 2 ^ 32
      let startAddrInMemory := LO_HI (data k) (data (k + 1))
      -- Compute end address in memory
      let k := (0x44 + i * 0x20) % 2 ^ 32
      let endAddrInMemory := LO_HI (data k) (data (k + 1))
      if endAddrInMemory = 0xC3C6 then
        let fixedEndAddrInMemory :=
          (startAddrInMemory + (size - startAddrInContainer)) % 2 ^ 16
        let data1 : Nat → Nat := fun a => if a = k then LO_BYTE fixedEndAddrInMemory else data a
        let data2 : Nat → Nat :=
          fun a => if a = k + 1 then HI_BYTE fixedEndAddrInMemory else data1 a
        repairItems size n (i + 1) data2
      else repairItems size n (i + 1) data

/-- `T64File::repair()`: the archive and the result; `none` when the first
loop does not end or the assertion fails. -/
def repair (t : T64File) : Option (T64File × Bool) :=
  let noOfItems := t.numberOfItems % 2 ^ 16
  -- 1. Repair number of items, if this value is zero
  let counted : Option (T64File × Nat) :=
    if noOfItems = 0 then
      match t.repairCount 65536 noOfItems with
      | none => none
      | some n =>
        let noOfItemsStatedInHeader := t.numberOfItems % 2 ^ 16
        let t1 :=
          if n ≠ noOfItemsStatedInHeader then
            let data1 : Nat → Nat := fun a => if a = 0x24 then LO_BYTE n else t.data a
            { t with data := fun a => if a = 0x25 then HI_BYTE n else data1 a }
          else t
        if n = t1.numberOfItems then some (t1, n) else none
    else some (t, noOfItems)
  match counted with
  | none => none
  | some (t1, n) =>
    let r := repairItems t1.size n 0 t1.data
    some ({ t1 with data := r.1 }, r.2)

/-- Modelled from the spec: `AnyC64File::readFromBuffer(buffer, length)` is not
among the sources; it copies the `length` bytes of the buffer into `data`,
sets `size`, and succeeds. -/
def readFromBufferBase (t : T64File) (buffer : Nat → Nat) (length : Nat) : T64File × Bool :=
  ({ t with data := memcpy (fun _ => 0) 0 buffer length, size := length }, true)

/-- `T64File::readFromBuffer(buffer, length)`: the result of `repair()` is
discarded. -/
def readFromBuffer (t : T64File) (buffer : Nat → Nat) (length : Nat) :
    Option (T64File × Bool) :=
  let base := readFromBufferBase t buffer length
  if !base.2 then some (base.1, false)
  else
    -- Some T64 archives contain incosistencies. We fix them asap
    match base.1.repair with
    | none => none
    | some r => some (r.1, true)

/-- The constructor `T64File::T64File()`: nothing loaded, nothing selected. -/
def create : T64File :=
  { data := fun _ => 0, size := 0, selectedItem := -1, iFp := -1, iEof := -1 }

end T64File

/-- An archive of `$58` bytes whose header announces one item and whose file
name field starts with the byte `$41`; the last 8 bytes of the name field lie
behind the end of the file. -/
def t64ShortDirectory : T64File :=
  { data := fun a => if a = 0x24 then 1 else if a = 0x50 then 0x41 else 0
    size := 0x58, selectedItem := -1, iFp := -1, iEof := -1 }

/-- A file of `$60` bytes: the magic bytes `C64`, one directory entry with
memory range `$0801-$1801` whose data starts at offset `$40`; the `$1000`
bytes of data are cut off after `$20` bytes. -/
def t64Truncated : Nat → Nat :=
  fun a =>
    if a = 0 then 0x43 else if a = 1 then 0x36 else if a = 2 then 0x34
    else if a = 0x24 then 1
    else if a = 0x42 then 0x01 else if a = 0x43 then 0x08
    else if a = 0x44 then 0x01 else if a = 0x45 then 0x18
    else if a = 0x48 then 0x40 else 0

/-- A file of `$60` bytes: the magic bytes `C64`, one directory entry whose
data is said to start at offset `$1000`, behind the end of the file. -/
def t64BadOffset : Nat → Nat :=
  fun a =>
    if a = 0 then 0x43 else if a = 1 then 0x36 else if a = 2 then 0x34
    else if a = 0x24 then 1
    else if a = 0x49 then 0x10 else 0


/-! ## Character conversion (`basic.cpp`) -/

/-- C library `toupper` in the C locale, on a byte. -/
def toupper (c : Nat) : Nat :=
  if 0x61 ≤ c ∧ c ≤ 0x7A then c - 0x20 else c

/-- `ascii2pet(asciichar)`; the parameter and the result are bytes. -/
def ascii2pet (asciichar : Nat) : Nat :=
  if asciichar = 0x00 then 0x00
  else
    let asciichar := toupper asciichar % 256
    if asciichar ≥ 0x20 ∧ asciichar ≤ 0x5D then asciichar
    else 0x20

/-! ## VIC-II cycles: the sprite schedule -/

/-- The calls of a trace that belong to the sprite schedule: the fetch actions
of Phi1.3 and Phi2.5 and the BA request of Phi2.4. -/
def spriteSchedule : List VICCall → List VICCall
  | [] => []
  | .sFinalize n :: cs => .sFinalize n :: spriteSchedule cs
  | .loadShiftRegister n :: cs => .loadShiftRegister n :: spriteSchedule cs
  | .pAccess n :: cs => .pAccess n :: spriteSchedule cs
  | .sFirstAccess n :: cs => .sFirstAccess n :: spriteSchedule cs
  | .sSecondAccess n :: cs => .sSecondAccess n :: spriteSchedule cs
  | .sThirdAccess n :: cs => .sThirdAccess n :: spriteSchedule cs
  | .setBAlow m :: cs => .setBAlow m :: spriteSchedule cs
  | _ :: cs => spriteSchedule cs

/-! ## Action Replay: on-board RAM (`ActionReplay.cpp`) -/

namespace ActionReplay

/-- Modelled from the spec: `Cartridge::peekRAM(addr)` is not among the
sources; the on-board RAM is an array of bytes, here `externalRam`, which is
passed next to the cartridge. -/
def peekRAM (externalRam : Nat → Nat) (addr : Nat) : Nat :=
  externalRam addr

/-- Modelled from the spec: `Cartridge::pokeRAM(addr, value)` is not among the
sources; it stores the byte in the on-board RAM. -/
def pokeRAM (externalRam : Nat → Nat) (addr value : Nat) : Nat → Nat :=
  fun a => if a = addr then value else externalRam a

/-- `ActionReplay::reset()`; `Cartridge::reset()` is recorded as a call. -/
def reset (cls : ActionReplayClass) (intsrc : Nat) (k : CartridgeWithRegister) (c64 : C64) :
    Option (CartridgeWithRegister × C64) :=
  setControlReg cls intsrc { k with calls := k.calls ++ [CartridgeCall.reset] } c64 0

/-- `ActionReplay::peek(addr)`; `cartridgePeek` is `Cartridge::peek`. -/
def peek (cls : ActionReplayClass) (cartridgePeek : Nat → Nat) (k : CartridgeWithRegister)
    (externalRam : Nat → Nat) (addr : Nat) : Nat :=
  if vramIsEnabled cls k.control addr then peekRAM externalRam (addr &&& 0x1FFF)
  else cartridgePeek addr

/-- `ActionReplay::poke(addr, value)`: the cartridge and its RAM afterwards. -/
def poke (cls : ActionReplayClass) (k : CartridgeWithRegister) (externalRam : Nat → Nat)
    (addr value : Nat) : CartridgeWithRegister × (Nat → Nat) :=
  if vramIsEnabled cls k.control addr then (k, pokeRAM externalRam (addr &&& 0x1FFF) value)
  else (k, externalRam)

/-- `ActionReplay::peekIO2(addr)`; `chipLPeek` is `packet[chipL]->peek`. -/
def peekIO2 (cls : ActionReplayClass) (chipLPeek : Nat → Nat) (k : CartridgeWithRegister)
    (externalRam : Nat → Nat) (addr : Nat) : Option Nat :=
  if addr ≥ 0xDF00 ∧ addr ≤ 0xDFFF then
    let offset := addr &&& 0xFF
    -- I/O space 2 mirrors $1F00 to $1FFF from the selected ROM bank or RAM.
    if vramIsEnabled cls k.control addr then some (peekRAM externalRam (0x1F00 + offset))
    else some (chipLPeek (0x1F00 + offset))
  else none

/-- `ActionReplay::pokeIO2(addr, value)`: the cartridge and its RAM
afterwards. -/
def pokeIO2 (cls : ActionReplayClass) (k : CartridgeWithRegister) (externalRam : Nat → Nat)
    (addr value : Nat) : Option (CartridgeWithRegister × (Nat → Nat)) :=
  if addr ≥ 0xDF00 ∧ addr ≤ 0xDFFF then
    let offset := addr &&& 0xFF
    if vramIsEnabled cls k.control addr then
      some (k, pokeRAM externalRam (0x1F00 + offset) value)
    else some (k, externalRam)
  else none

end ActionReplay

/-! ## T64 archives: creation from another archive (`T64File.cpp`) -/

/-- C library `strncpy(dst, src, n)`: the `n` bytes that are stored, which are
the bytes of the C string `src`, cut after `n` bytes or filled up with
zeros. -/
def strncpy (src : List Nat) (n : Nat) : List Nat :=
  (cString src ++ List.replicate n 0).take n

/-- The stores `*ptr++ = b` for the bytes of a list, from offset `ptr` on, as
(offset, byte) pairs. -/
def storeAt : Nat → List Nat → List (Nat × Nat)
  | _, [] => []
  | ptr, b :: bs => (ptr, b) :: storeAt (ptr + 1) bs

/-- Modelled from the spec: the class `AnyArchive` is not among the sources.
An archive supplies its items through the iterators `selectItem(n)`,
`getNameOfItem`, `getSizeOfItem`, `readItem → byte|EOF` and
`getDestinationAddrOfItem`.  `selected` is the item selected last, and
`itemData n` are the bytes that `readItem` yields for item `n` before `EOF`;
their number is the size of the item. -/
structure AnyArchive where
  numberOfItems : Nat
  selected : Nat
  name : List Nat
  itemName : Nat → List Nat
  itemDestinationAddr : Nat → Nat
  itemData : Nat → List Nat

namespace AnyArchive

/-- Modelled from the spec: `selectItem(n)` of the other archive. -/
def selectItem (a : AnyArchive) (n : Nat) : AnyArchive :=
  { a with selected := n }

/-- Modelled from the spec: `getSizeOfItem()` of the other archive. -/
def getSizeOfItem (a : AnyArchive) : Nat :=
  (a.itemData a.selected).length

/-- Modelled from the spec: `getDestinationAddrOfItem()` of the other
archive. -/
def getDestinationAddrOfItem (a : AnyArchive) : Nat :=
  a.itemDestinationAddr a.selected

/-- Modelled from the spec: `getNameOfItem()` of the other archive. -/
def getNameOfItem (a : AnyArchive) : List Nat :=
  a.itemName a.selected

/-- Modelled from the spec: `getName()` of the other archive. -/
def getName (a : AnyArchive) : List Nat :=
  a.name

end AnyArchive

/-- What `makeT64ArchiveWithAnyArchive` does to the memory of the new archive:
`size` is `archive->size`, the number of bytes allocated for `archive->data`,
and `writes` are the stores made through `ptr`, as (offset, byte) pairs in
the order they are made. -/
structure T64Image where
  size : Nat
  writes : List (Nat × Nat)

namespace T64File

/-- The bytes of the string `C64 tape image file`. -/
def tapeImageMagic : List Nat :=
  [0x43, 0x36, 0x34, 0x20, 0x74, 0x61, 0x70, 0x65, 0x20, 0x69, 0x6D, 0x61, 0x67, 0x65, 0x20,
    0x66, 0x69, 0x6C, 0x65]

/-- `archive->selectItem(i)` on the archive that `makeT64ArchiveWithAnyArchive`
builds.  The member `data` of that archive is assigned only by
`archive->data = new u8[archive->size]`, after the size loop; `allocated`
tells whether that has happened.  Before it, `numberOfItems()`, the first
thing that `selectItem` calls, reads `data[0x24]` through a pointer to no
allocation, and the run stops there, which is `none`. -/
def selectItemOfNew (allocated : Bool) (archive : T64File) (item : Nat) : Option T64File :=
  if allocated then archive.selectItem item else none

/-- The loop of `makeT64ArchiveWithAnyArchive` that determines the file size,
with `n` iterations left, at index `i`: the new archive with its `size`, or
`none` when the run stops.  The loop calls `selectItem(i)` on the new archive,
not on `otherArchive`, before `data` is allocated. -/
def makeT64SizeLoop (otherArchive : AnyArchive) : Nat → Nat → T64File → Option T64File
  | 0, _, archive => some archive
  | n + 1, i, archive =>
    match selectItemOfNew false archive i with
    | none => none
    | some archive =>
      makeT64SizeLoop otherArchive n (i + 1)
        { archive with size := (archive.size + otherArchive.getSizeOfItem) % 2 ^ 64 }

/-- The loop of `makeT64ArchiveWithAnyArchive` over the tape entries, with `r`
iterations left, at entry `n`: the stores it makes. -/
def makeT64TapeEntries (otherArchive : AnyArchive) (currentFiles : Nat) :
    Nat → Nat → Nat → Nat → List (Nat × Nat)
  | 0, _, _, _ => []
  | r + 1, n, ptr, tapePosition =>
    if n ≥ currentFiles then
      -- Empty tape slot
      makeT64TapeEntries otherArchive currentFiles r (n + 1) (ptr + 32) tapePosition
    else
      let other := otherArchive.selectItem n
      let startAddr := other.getDestinationAddrOfItem % 2 ^ 16
      let endAddr := (startAddr + other.getSizeOfItem) % 2 ^ 16
      let name := strncpy other.getNameOfItem 16
      [ -- Entry used (1 byte)
        (ptr, 0x01),
        -- File type (1 byte)
        (ptr + 1, 0x82),
        -- Start address (2 bytes)
        (ptr + 2, LO_BYTE startAddr), (ptr + 3, HI_BYTE startAddr),
        -- Start address (2 bytes)
        (ptr + 4, LO_BYTE endAddr), (ptr + 5, HI_BYTE endAddr),
        -- Tape position (4 bytes)
        (ptr + 8, LO_BYTE tapePosition), (ptr + 9, LO_BYTE (tapePosition >>> 8)),
        (ptr + 10, LO_BYTE (tapePosition >>> 16)), (ptr + 11, LO_BYTE (tapePosition >>> 24)) ]
      -- File name (16 bytes)
      ++ storeAt (ptr + 16) name ++ storeAt (ptr + 16) (name.map ascii2pet)
      ++ makeT64TapeEntries otherArchive currentFiles r (n + 1) (ptr + 32)
          ((tapePosition + other.getSizeOfItem) % 2 ^ 32)

/-- The loop of `makeT64ArchiveWithAnyArchive` over the file data, with `r`
iterations left, at item `n`: the stores it makes. -/
def makeT64FileData (otherArchive : AnyArchive) : Nat → Nat → Nat → List (Nat × Nat)
  | 0, _, _ => []
  | r + 1, n, ptr =>
    let bytes := (otherArchive.itemData n).map (fun byte => byte % 256)
    storeAt ptr bytes ++ makeT64FileData otherArchive r (n + 1) (ptr + bytes.length)

/-- `T64File::makeT64ArchiveWithAnyArchive(otherArchive)`.  The result `none`
is a run that stops before the function returns; `some none` is the result
`NULL`, for the archive `NULL`; `some (some image)` is a new archive.  The
calls to `dumpDirectory` and `debug` are left out. -/
def makeT64ArchiveWithAnyArchive (otherArchive : Option AnyArchive) :
    Option (Option T64Image) :=
  match otherArchive with
  | none => some none
  | some otherArchive =>
    -- Determine file size and allocate memory
    let currentFiles := otherArchive.numberOfItems % 2 ^ 32
    let maxFiles := if currentFiles < 30 then 30 else currentFiles
    let archive := { create with size := (64 + maxFiles * 32) % 2 ^ 32 }
    match makeT64SizeLoop otherArchive currentFiles 0 archive with
    | none => none
    | some archive =>
      -- Magic bytes (32 bytes)
      let magic := storeAt 0 (strncpy tapeImageMagic 32)
      let header :=
        [ -- Version (2 bytes)
          (32, 0x00), (33, 0x01),
          -- Max files (2 bytes)
          (34, LO_BYTE maxFiles), (35, HI_BYTE maxFiles),
          -- Current files (2 bytes)
          (36, LO_BYTE currentFiles), (37, HI_BYTE currentFiles),
          -- Reserved (2 bytes)
          (38, 0x00), (39, 0x00) ]
      -- User description (24 bytes)
      let name := strncpy otherArchive.getName 24
      let description := storeAt 40 name ++ storeAt 40 (name.map ascii2pet)
      -- Tape entries
      let tapePosition := (64 + maxFiles * 32) % 2 ^ 32
      let cleared := storeAt 64 (List.replicate (32 * maxFiles % 2 ^ 32) 0)
      let entries := makeT64TapeEntries otherArchive currentFiles maxFiles 0 64 tapePosition
      -- File data
      let fileData := makeT64FileData otherArchive currentFiles 0 (64 + 32 * maxFiles)
      some (some { size := archive.size
                   writes := magic ++ header ++ description ++ cleared ++ entries ++ fileData })

end T64File

/-- An archive with two items, of 1 byte and of 3 bytes, in which item 0 is
selected. -/
def twoItemArchive : AnyArchive :=
  { numberOfItems := 2
    selected := 0
    name := [0x44, 0x45, 0x4D, 0x4F]
    itemName := fun n => if n = 0 then [0x41] else [0x42]
    itemDestinationAddr := fun _ => 0x0801
    itemData := fun n => if n = 0 then [0xAA] else [0x01, 0x02, 0x03] }

/-- An archive without items. -/
def emptyArchive : AnyArchive :=
  { numberOfItems := 0
    selected := 0
    name := [0x44, 0x45, 0x4D, 0x4F]
    itemName := fun _ => []
    itemDestinationAddr := fun _ => 0
    itemData := fun _ => [] }

/-! ## T64 archives: auxiliary definitions for `repair` -/

/-- An archive of `$200060` bytes that starts with `C64`, whose header states
zero items, and whose other bytes are all `$01`: each of the `2^16` directory
slots 0..65535 ends before the end of the file and holds non-zero bytes. -/
def t64AllSlots : T64File :=
  { data := fun a =>
      if a = 0 then 0x43 else if a = 1 then 0x36 else if a = 2 then 0x34
      else if a = 0x24 then 0 else if a = 0x25 then 0 else 1
    size := 0x200060, selectedItem := -1, iFp := -1, iEof := -1 }

/-- An archive of `$80` bytes as CONVC64 makes them: the header states zero
items, and the one directory entry has the memory range `$0801-$C3C6` and
its data at offset `$60`. -/
def t64Convc64 : T64File :=
  { data := fun a =>
      if a = 0 then 0x43 else if a = 1 then 0x36 else if a = 2 then 0x34
      else if a = 0x40 then 0x01 else if a = 0x41 then 0x82
      else if a = 0x42 then 0x01 else if a = 0x43 then 0x08
      else if a = 0x44 then 0xC6 else if a = 0x45 then 0xC3
      else if a = 0x48 then 0x60 else 0
    size := 0x80, selectedItem := -1, iFp := -1, iEof := -1 }

namespace T64File

/-- Slot `i` of the directory is present, in the words of the specification:
it ends strictly before the end of the file and holds a non-zero byte. -/
def slotPresent (t : T64File) (i : Nat) : Prop :=
  0x60 + 32 * i < t.size ∧ ∃ k, k < 32 ∧ t.data (0x40 + 32 * i + k) ≠ 0

/-- The value that `repair` reads as `startAddrInContainer` of item `i`. -/
def repairStartInContainer (data : Nat → Nat) (i : Nat) : Nat :=
  LO_LO_HI_HI (data (0x48 + i * 0x20)) (data (0x48 + i * 0x20 + 1))
    (data (0x48 + i * 0x20 + 2)) (data (0x48 + i * 0x20 + 3)) % 2 ^ 16

/-- The value that `repair` reads as `startAddrInMemory` of item `i`. -/
def repairStartInMemory (data : Nat → Nat) (i : Nat) : Nat :=
  LO_HI (data (0x42 + i * 0x20)) (data (0x42 + i * 0x20 + 1))

/-- The value that `repair` reads as `endAddrInMemory` of item `i`. -/
def repairEndInMemory (data : Nat → Nat) (i : Nat) : Nat :=
  LO_HI (data (0x44 + i * 0x20)) (data (0x44 + i * 0x20 + 1))

/-- The value that `repair` computes as `fixedEndAddrInMemory` of item `i`. -/
def repairFixedEnd (size : Nat) (data : Nat → Nat) (i : Nat) : Nat :=
  (repairStartInMemory data i + (size - repairStartInContainer data i)) % 2 ^ 16

/-- The data after `repair` has stored the fixed end address of item `i`. -/
def repairStoreEnd (size : Nat) (data : Nat → Nat) (i : Nat) : Nat → Nat :=
  fun a =>
    if a = 0x44 + i * 0x20 + 1 then HI_BYTE (repairFixedEnd size data i)
    else if a = 0x44 + i * 0x20 then LO_BYTE (repairFixedEnd size data i)
    else data a

/-- The data after `repair` has stored the number of items `c` that it
counted, if that is not the zero of the header. -/
def repairStoreCount (data : Nat → Nat) (c : Nat) : Nat → Nat :=
  if c = 0 then data
  else fun a => if a = 0x25 then HI_BYTE c else if a = 0x24 then LO_BYTE c else data a

end T64File

/-! ## Flash ROM: theorems -/

namespace FlashRom

/-! ### Auxiliary facts -/

/-- A value survives the AND with a cell exactly when each of its 1 bits is a
1 bit of the cell. -/
theorem land_eq_right_iff (x v : Nat) :
    x &&& v = v ↔ ∀ k, v.testBit k = true → x.testBit k = true := by
  constructor
  · intro h k hk
    have hbit : (x &&& v).testBit k = true := by rw [h]; exact hk
    rw [Nat.testBit_and] at hbit
    simp only [Bool.and_eq_true] at hbit
    exact hbit.1
  · intro h
    apply Nat.eq_of_testBit_eq
    intro k
    rw [Nat.testBit_and]
    cases hv : v.testBit k with
    | false => simp
    | true => simp [h k hv]

/-- The AND of a cell with any value has no 1 bit outside the cell. -/
theorem testBit_land_left (x v k : Nat) (h : (x &&& v).testBit k = true) :
    x.testBit k = true := by
  rw [Nat.testBit_and] at h
  simp only [Bool.and_eq_true] at h
  exact h.1

/-- For a byte `x`, a number all of whose 1 bits are 1 bits of `x` has an empty
AND with the 8-bit complement of `x`. -/
theorem land_complement_eq_zero (x y : Nat) (hx : x < 256)
    (h : ∀ k, y.testBit k = true → x.testBit k = true) : y &&& (x ^^^ 0xFF) = 0 := by
  apply Nat.eq_of_testBit_eq
  intro k
  rw [Nat.testBit_and, Nat.testBit_xor, Nat.zero_testBit]
  cases hy : y.testBit k with
  | false => simp
  | true =>
    have hxk := h k hy
    have hk : k < 8 := by
      by_contra hge
      have h8 : 8 ≤ k := Nat.le_of_not_lt hge
      have hlt : x < 2 ^ k := lt_of_lt_of_le hx (by
        calc 256 = 2 ^ 8 := by norm_num
          _ ≤ 2 ^ k := Nat.pow_le_pow_right (by norm_num) h8)
      rw [Nat.testBit_lt_two_pow hlt] at hxk
      exact Bool.false_ne_true hxk
    have h255 : (0xFF : Nat).testBit k = true := by
      interval_cases k <;> decide
    simp [hxk, h255]

/-- What `poke` does in state `FLASH_BYTE_PROGRAM`. -/
theorem poke_byteProgram (f : FlashRom) (a v : Nat) (ha : a < f.size)
    (hs : f.state = FLASH_BYTE_PROGRAM) :
    f.poke a v = some
      { f with
        rom := fun i => if i = a then f.rom a &&& v else f.rom i
        state := if f.rom a &&& v = v then f.baseState else FLASH_BYTE_PROGRAM_ERROR } := by
  simp only [poke, if_pos ha, hs, doByteProgram]
  by_cases h : f.rom a &&& v = v <;> simp [h]

/-- In every state but `FLASH_BYTE_PROGRAM`, `poke` does not touch the array. -/
theorem poke_rom_eq (f g : FlashRom) (a v : Nat) (hs : f.state ≠ FLASH_BYTE_PROGRAM)
    (h : f.poke a v = some g) : g.rom = f.rom := by
  by_cases ha : a < f.size
  · simp only [poke, if_pos ha] at h
    cases hst : f.state <;> rw [hst] at h hs <;> dsimp only at h <;>
      first
      | exact absurd rfl hs
      | (split_ifs at h <;> simp only [Option.some.injEq] at h <;> subst h <;> rfl)
      | (simp only [Option.some.injEq] at h; subst h; rfl)
  · simp [poke, if_neg ha] at h

/-- The check `assert(addr < size)` is the only way `poke` fails. -/
theorem poke_isSome (f : FlashRom) (a v : Nat) (ha : a < f.size) :
    ∃ g, f.poke a v = some g := by
  by_cases hs : f.state = FLASH_BYTE_PROGRAM
  · exact ⟨_, poke_byteProgram f a v ha hs⟩
  · simp only [poke, if_pos ha]
    cases hst : f.state <;> rw [hst] at hs <;> dsimp only <;>
      first
      | exact absurd rfl hs
      | (split_ifs <;> exact ⟨_, rfl⟩)
      | exact ⟨_, rfl⟩

/-- A call of `poke` does not change the geometry of the chip. -/
theorem poke_size (f g : FlashRom) (a v : Nat) (h : f.poke a v = some g) :
    g.size = f.size := by
  by_cases ha : a < f.size
  · by_cases hs : f.state = FLASH_BYTE_PROGRAM
    · rw [poke_byteProgram f a v ha hs] at h
      simp only [Option.some.injEq] at h
      subst h
      rfl
    · simp only [poke, if_pos ha] at h
      cases hst : f.state <;> rw [hst] at h hs <;> dsimp only at h <;>
        first
        | exact absurd rfl hs
        | (split_ifs at h <;> simp only [Option.some.injEq] at h <;> subst h <;> rfl)
        | (simp only [Option.some.injEq] at h; subst h; rfl)
  · simp [poke, if_neg ha] at h

/-- Running a sequence whose first `poke` returns `g` continues from `g`. -/
theorem pokeSeq_cons (f g : FlashRom) (a v : Nat) (ps : List (Nat × Nat))
    (h : f.poke a v = some g) : f.pokeSeq ((a, v) :: ps) = g.pokeSeq ps := by
  simp only [pokeSeq, h, Option.some_bind]

/-- The AND of `$FF` with a byte is that byte. -/
theorem ff_land (v : Nat) (hv : v < 256) : 0xFF &&& v = v := by
  have h := Nat.and_pow_two_sub_one_eq_mod v 8
  rw [Nat.land_comm]
  simpa [Nat.mod_eq_of_lt hv] using h

/-- One `poke` keeps `baseState` among `FLASH_READ` and `FLASH_AUTOSELECT`. -/
theorem poke_baseState (f g : FlashRom) (a v : Nat)
    (hb : f.baseState = FLASH_READ ∨ f.baseState = FLASH_AUTOSELECT)
    (h : f.poke a v = some g) :
    g.baseState = FLASH_READ ∨ g.baseState = FLASH_AUTOSELECT := by
  by_cases ha : a < f.size
  · by_cases hs : f.state = FLASH_BYTE_PROGRAM
    · rw [poke_byteProgram f a v ha hs] at h
      simp only [Option.some.injEq] at h
      subst h
      exact hb
    · simp only [poke, if_pos ha] at h
      cases hst : f.state <;> rw [hst] at h hs <;> dsimp only at h <;>
        first
        | exact absurd rfl hs
        | (split_ifs at h <;> simp only [Option.some.injEq] at h <;> subst h <;>
            first | exact hb | exact Or.inl rfl | exact Or.inr rfl)
        | (simp only [Option.some.injEq] at h; subst h; exact hb)
  · simp [poke, if_neg ha] at h

/-- In every state the code can produce, `baseState` is `FLASH_READ` or
`FLASH_AUTOSELECT`. -/
theorem baseState_of_reachable (f : FlashRom) (h : Reachable f) :
    f.baseState = FLASH_READ ∨ f.baseState = FLASH_AUTOSELECT := by
  induction h with
  | create => exact Or.inl rfl
  | reset f _ _ => exact Or.inl rfl
  | loadBank f bank data _ ih => exact ih
  | doChipErase f _ ih => exact ih
  | doSectorErase f g addr _ hg ih =>
    unfold FlashRom.doSectorErase at hg
    split_ifs at hg
    simp only [Option.some.injEq] at hg
    subst hg
    exact ih
  | doByteProgram f g addr value b _ hg ih =>
    unfold FlashRom.doByteProgram at hg
    split_ifs at hg
    simp only [Option.some.injEq, Prod.mk.injEq] at hg
    obtain ⟨hg, _⟩ := hg
    subst hg
    exact ih
  | poke f g addr value _ hg ih => exact poke_baseState f g addr value ih hg

/-- Running a sequence followed by one more `poke`. -/
theorem pokeSeq_append_singleton (f : FlashRom) (ps : List (Nat × Nat)) (p : Nat × Nat) :
    f.pokeSeq (ps ++ [p]) = (f.pokeSeq ps).bind (fun g => g.poke p.1 p.2) := by
  induction ps generalizing f with
  | nil =>
    simp only [List.nil_append, pokeSeq, Option.some_bind]
    cases f.poke p.1 p.2 <;> rfl
  | cons q qs ih =>
    simp only [List.cons_append, pokeSeq]
    cases hq : f.poke q.1 q.2 with
    | none => rfl
    | some g => exact ih g

/-- How the three unlock states are entered: `FLASH_MAGIC_1` only by the write
`($5555, $AA)`, `FLASH_MAGIC_2` only from `FLASH_MAGIC_1` by `($2AAA, $55)`,
and `FLASH_BYTE_PROGRAM` only from `FLASH_MAGIC_2` by `($5555, $A0)`. -/
theorem poke_state_cases (f g : FlashRom) (a v : Nat)
    (hb : f.baseState = FLASH_READ ∨ f.baseState = FLASH_AUTOSELECT)
    (h : f.poke a v = some g) :
    (g.state = FLASH_MAGIC_1 → a = 0x5555 ∧ v = 0xAA) ∧
    (g.state = FLASH_MAGIC_2 → f.state = FLASH_MAGIC_1 ∧ a = 0x2AAA ∧ v = 0x55) ∧
    (g.state = FLASH_BYTE_PROGRAM → f.state = FLASH_MAGIC_2 ∧ a = 0x5555 ∧ v = 0xA0) := by
  by_cases ha : a < f.size
  · by_cases hs : f.state = FLASH_BYTE_PROGRAM
    · rw [poke_byteProgram f a v ha hs] at h
      simp only [Option.some.injEq] at h
      subst h
      refine ⟨?_, ?_, ?_⟩ <;> intro hg <;> simp only at hg <;> split_ifs at hg <;>
        first
        | cases hg
        | (rcases hb with hb | hb <;> rw [hb] at hg <;> cases hg)
    · simp only [poke, if_pos ha] at h
      cases hst : f.state <;> rw [hst] at h hs <;> dsimp only at h
      all_goals first | exact absurd rfl hs | skip
      all_goals try split_ifs at h
      all_goals (simp only [Option.some.injEq] at h; subst h; refine ⟨?_, ?_, ?_⟩)
      all_goals intro hg
      all_goals try simp only at hg
      all_goals
        first
        | assumption
        | exact ⟨rfl, by assumption⟩
        | cases hg
        | (rw [hst] at hg; cases hg)
        | (rcases hb with hb | hb <;> rw [hb] at hg <;> cases hg)
  · simp [poke, if_neg ha] at h

/-- The write history that leads to each unlock state, for a run that starts
in `FLASH_READ`. -/
theorem pokeSeq_history (f0 : FlashRom) (hst : f0.state = FLASH_READ)
    (hb : f0.baseState = FLASH_READ ∨ f0.baseState = FLASH_AUTOSELECT)
    (pre : List (Nat × Nat)) (f1 : FlashRom) (h : f0.pokeSeq pre = some f1) :
    (f1.baseState = FLASH_READ ∨ f1.baseState = FLASH_AUTOSELECT) ∧
    (f1.state = FLASH_MAGIC_1 → ∃ l, pre = l ++ [(0x5555, 0xAA)]) ∧
    (f1.state = FLASH_MAGIC_2 → ∃ l, pre = l ++ [(0x5555, 0xAA), (0x2AAA, 0x55)]) ∧
    (f1.state = FLASH_BYTE_PROGRAM →
      ∃ l, pre = l ++ [(0x5555, 0xAA), (0x2AAA, 0x55), (0x5555, 0xA0)]) := by
  induction pre using List.reverseRecOn generalizing f1 with
  | nil =>
    simp only [pokeSeq, Option.some.injEq] at h
    subst h
    refine ⟨hb, ?_, ?_, ?_⟩ <;> intro hg <;> rw [hst] at hg <;> cases hg
  | append_singleton l p ih =>
    rw [pokeSeq_append_singleton] at h
    cases hl : f0.pokeSeq l with
    | none => rw [hl] at h; cases h
    | some fm =>
      rw [hl, Option.some_bind] at h
      obtain ⟨hbm, hm1, hm2, _⟩ := ih fm hl
      obtain ⟨c1, c2, c3⟩ := poke_state_cases fm f1 p.1 p.2 hbm h
      have hp : ∀ a v, p.1 = a ∧ p.2 = v → p = (a, v) := by
        rintro a v ⟨h1, h2⟩
        exact Prod.ext h1 h2
      refine ⟨poke_baseState fm f1 p.1 p.2 hbm h, ?_, ?_, ?_⟩
      · intro hg
        exact ⟨l, by rw [hp _ _ (c1 hg)]⟩
      · intro hg
        obtain ⟨hs, hav⟩ := c2 hg
        obtain ⟨l2, hl2⟩ := hm1 hs
        exact ⟨l2, by rw [hp _ _ hav, hl2, List.append_assoc]; rfl⟩
      · intro hg
        obtain ⟨hs, hav⟩ := c3 hg
        obtain ⟨l2, hl2⟩ := hm2 hs
        exact ⟨l2, by rw [hp _ _ hav, hl2, List.append_assoc]; rfl⟩

/-! ### Claims -/

/-- C1: `doByteProgram(a, v)` with `a < size` returns; afterwards `rom[a]` is
the old `rom[a]` AND `v`, every other byte is unchanged, and the result is
`true` exactly when (old `rom[a]` AND `v`) equals `v`. -/
theorem doByteProgram_spec (f : FlashRom) (a v : Nat) (ha : a < f.size) :
    ∃ g b, f.doByteProgram a v = some (g, b) ∧
      g.rom a = f.rom a &&& v ∧
      (∀ i, i ≠ a → g.rom i = f.rom i) ∧
      (b = true ↔ f.rom a &&& v = v) := by
  refine ⟨_, _, by simp only [doByteProgram, if_pos ha]; rfl, ?_, ?_, ?_⟩
  · simp
  · intro i hi
    simp [hi]
  · simp

/-- C1 witness: programming `$42` into the erased cell `$9000` of a new chip. -/
theorem doByteProgram_spec_witness :
    (0x9000 : Nat) < create.size ∧
    ∃ g b, create.doByteProgram 0x9000 0x42 = some (g, b) ∧
      g.rom 0x9000 = create.rom 0x9000 &&& 0x42 ∧
      (∀ i, i ≠ 0x9000 → g.rom i = create.rom i) ∧
      (b = true ↔ create.rom 0x9000 &&& 0x42 = 0x42) :=
  ⟨by decide, doByteProgram_spec create 0x9000 0x42 (by decide)⟩


/-- C2: `poke(a, v)` in state `FLASH_BYTE_PROGRAM` with `a < size` returns; the
new state is `FLASH_BYTE_PROGRAM_ERROR` when `v` has a 1 bit at a position
where the old `rom[a]` has a 0 bit, and `baseState` otherwise.  As `baseState`
is never `FLASH_BYTE_PROGRAM_ERROR` (see `baseState_of_reachable`), the new
state is the error state if and only if such a bit exists. -/
theorem poke_byteProgram_state (f : FlashRom) (a v : Nat) (ha : a < f.size)
    (hs : f.state = FLASH_BYTE_PROGRAM) :
    ∃ g, f.poke a v = some g ∧
      ((∃ k, v.testBit k = true ∧ (f.rom a).testBit k = false) →
        g.state = FLASH_BYTE_PROGRAM_ERROR) ∧
      ((¬ ∃ k, v.testBit k = true ∧ (f.rom a).testBit k = false) →
        g.state = f.baseState) ∧
      (f.baseState ≠ FLASH_BYTE_PROGRAM_ERROR →
        (g.state = FLASH_BYTE_PROGRAM_ERROR ↔
          ∃ k, v.testBit k = true ∧ (f.rom a).testBit k = false)) := by
  have hbad : (∃ k, v.testBit k = true ∧ (f.rom a).testBit k = false) ↔
      ¬ (f.rom a &&& v = v) := by
    rw [land_eq_right_iff]
    push_neg
    constructor
    · rintro ⟨k, hv, hx⟩
      exact ⟨k, hv, by simp [hx]⟩
    · rintro ⟨k, hv, hx⟩
      exact ⟨k, hv, by simpa using hx⟩
  refine ⟨_, poke_byteProgram f a v ha hs, ?_, ?_, ?_⟩
  · intro h
    simp only
    rw [if_neg (hbad.mp h)]
  · intro h
    simp only
    rw [if_pos (by_contra fun hne => h (hbad.mpr hne))]
  · intro hne
    simp only
    rw [hbad]
    by_cases hland : f.rom a &&& v = v
    · simp [hland, hne]
    · simp [hland]

/-- C2 witness: on a chip in state `FLASH_BYTE_PROGRAM` whose bank 0 was loaded
with `$0F` bytes, writing `$42` fails (bit 6 is 0 in the cell), with the
equivalence at that input, and writing `$05` leads to `baseState`. -/
theorem poke_byteProgram_state_witness :
    (0 : Nat) < ({ create.loadBank 0 (fun _ => 0x0F) with state := FLASH_BYTE_PROGRAM }).size ∧
    ({ create.loadBank 0 (fun _ => 0x0F) with state := FLASH_BYTE_PROGRAM }).state
      = FLASH_BYTE_PROGRAM ∧
    (∃ g, ({ create.loadBank 0 (fun _ => 0x0F) with state := FLASH_BYTE_PROGRAM }).poke 0 0x42
        = some g ∧ g.state = FLASH_BYTE_PROGRAM_ERROR ∧
        (g.state = FLASH_BYTE_PROGRAM_ERROR ↔ ∃ k, (0x42 : Nat).testBit k = true ∧
          (({ create.loadBank 0 (fun _ => 0x0F) with state := FLASH_BYTE_PROGRAM }).rom
            0).testBit k = false)) ∧
    (∃ g, ({ create.loadBank 0 (fun _ => 0x0F) with state := FLASH_BYTE_PROGRAM }).poke 0 0x05
        = some g ∧ g.state = FLASH_READ) := by
  refine ⟨by decide, rfl, ?_, ?_⟩
  · obtain ⟨g, hg, hbad, _, hiff⟩ := poke_byteProgram_state
      { create.loadBank 0 (fun _ => 0x0F) with state := FLASH_BYTE_PROGRAM } 0 0x42
      (by decide) rfl
    exact ⟨g, hg, hbad ⟨6, by decide, by decide⟩, hiff (by decide)⟩
  · obtain ⟨g, hg, _, hgood, _⟩ := poke_byteProgram_state
      { create.loadBank 0 (fun _ => 0x0F) with state := FLASH_BYTE_PROGRAM } 0 0x05
      (by decide) rfl
    refine ⟨g, hg, hgood ?_⟩
    rintro ⟨k, hk, hk2⟩
    have hlt : k < 3 := by
      by_contra hge
      have h3 : 3 ≤ k := Nat.le_of_not_lt hge
      have hlt : (0x05 : Nat) < 2 ^ k :=
        lt_of_lt_of_le (by norm_num) (Nat.pow_le_pow_right (by norm_num) h3)
      rw [Nat.testBit_lt_two_pow hlt] at hk
      exact Bool.false_ne_true hk
    interval_cases k
    · exact absurd hk2 (by decide)
    · exact absurd hk (by decide)
    · exact absurd hk2 (by decide)

/-- C3: the EasyFlash byte-program sequence.  On a chip in state `FLASH_READ`
with `baseState` `FLASH_READ` (and large enough to hold the command address
`$5555`, as the 512 KB chip is), for every erased cell `a < size` and every
byte `v`, the four pokes return, and afterwards `peek(a)` is `v` and the state
is `FLASH_READ` again. -/
theorem byteProgram_sequence (f : FlashRom) (a v : Nat) (hsz : 0x5555 < f.size)
    (hst : f.state = FLASH_READ) (hb : f.baseState = FLASH_READ) (ha : a < f.size)
    (he : f.rom a = 0xFF) (hv : v < 256) :
    ∃ g, f.pokeSeq [(0x5555, 0xAA), (0x2AAA, 0x55), (0x5555, 0xA0), (a, v)] = some g ∧
      g.peek a = some v ∧ g.state = FLASH_READ := by
  have hsz2 : 0x2AAA < f.size := lt_trans (by norm_num) hsz
  have h1 : f.poke 0x5555 0xAA = some { f with state := FLASH_MAGIC_1 } := by
    simp [poke, hsz, hst]
  have h2 : ({ f with state := FLASH_MAGIC_1 } : FlashRom).poke 0x2AAA 0x55
      = some { f with state := FLASH_MAGIC_2 } := by
    simp [poke, hsz2]
  have h3 : ({ f with state := FLASH_MAGIC_2 } : FlashRom).poke 0x5555 0xA0
      = some { f with state := FLASH_BYTE_PROGRAM } := by
    simp [poke, hsz]
  have h4 := poke_byteProgram { f with state := FLASH_BYTE_PROGRAM } a v ha rfl
  have hand : f.rom a &&& v = v := by rw [he]; exact ff_land v hv
  refine ⟨_, by rw [pokeSeq_cons _ _ _ _ _ h1, pokeSeq_cons _ _ _ _ _ h2,
    pokeSeq_cons _ _ _ _ _ h3, pokeSeq_cons _ _ _ _ _ h4]; rfl, ?_, ?_⟩
  · simp only [peek, if_pos ha, hand, if_true]
    rw [hb]
  · simp only [hand, if_true]
    exact hb

/-- C3 witness: `a = $9000`, `v = $42` on a newly constructed chip. -/
theorem byteProgram_sequence_witness :
    ∃ g, create.pokeSeq [(0x5555, 0xAA), (0x2AAA, 0x55), (0x5555, 0xA0), (0x9000, 0x42)]
        = some g ∧ g.peek 0x9000 = some 0x42 ∧ g.state = FLASH_READ :=
  byteProgram_sequence create 0x9000 0x42 (by decide) rfl rfl (by decide) (by decide)
    (by decide)

/-- C4: programming can only clear bits.  In every state, `poke(a, v)` with
`a < size` returns, and no byte of the array gains a 1 bit: each 1 bit of the
new `rom[i]` is a 1 bit of the old `rom[i]`, that is (for a byte) new `rom[i]`
AND NOT old `rom[i]` is 0. -/
theorem poke_only_clears_bits (f : FlashRom) (a v : Nat) (ha : a < f.size) :
    ∃ g, f.poke a v = some g ∧
      ∀ i, (∀ k, (g.rom i).testBit k = true → (f.rom i).testBit k = true) ∧
        (f.rom i < 256 → g.rom i &&& (f.rom i ^^^ 0xFF) = 0) := by
  have key : ∀ g, f.poke a v = some g →
      ∀ i k, (g.rom i).testBit k = true → (f.rom i).testBit k = true := by
    intro g hg i k hk
    by_cases hs : f.state = FLASH_BYTE_PROGRAM
    · rw [poke_byteProgram f a v ha hs] at hg
      simp only [Option.some.injEq] at hg
      subst hg
      simp only at hk
      by_cases hi : i = a
      · subst hi
        rw [if_pos rfl] at hk
        exact testBit_land_left _ _ _ hk
      · rw [if_neg hi] at hk
        exact hk
    · rw [poke_rom_eq f g a v hs hg] at hk
      exact hk
  obtain ⟨g, hg⟩ := poke_isSome f a v ha
  exact ⟨g, hg, fun i => ⟨key g hg i, fun hlt =>
    land_complement_eq_zero (f.rom i) (g.rom i) hlt (key g hg i)⟩⟩

/-- C4 witness: a write of `$42` in state `FLASH_BYTE_PROGRAM` to a new chip. -/
theorem poke_only_clears_bits_witness :
    (0x9000 : Nat) < ({ create with state := FLASH_BYTE_PROGRAM } : FlashRom).size ∧
    ∃ g, ({ create with state := FLASH_BYTE_PROGRAM } : FlashRom).poke 0x9000 0x42 = some g ∧
      ∀ i, (∀ k, (g.rom i).testBit k = true →
          (({ create with state := FLASH_BYTE_PROGRAM } : FlashRom).rom i).testBit k = true) ∧
        (({ create with state := FLASH_BYTE_PROGRAM } : FlashRom).rom i < 256 →
          g.rom i &&& (({ create with state := FLASH_BYTE_PROGRAM } : FlashRom).rom i ^^^ 0xFF)
            = 0) :=
  ⟨by decide, poke_only_clears_bits { create with state := FLASH_BYTE_PROGRAM } 0x9000 0x42
    (by decide)⟩

/-- C5: `doSectorErase($10000)` on a chip whose banks 0 and 8 (offsets `$0000`
and `$10000`) were loaded with zero bytes returns, but the start offset
`addr & 0x0000` is 0 for every `addr`: the cell at `$10000`, in the sector that
contains `addr`, still holds 0, and the cell at `$0000`, in another sector, was
set to `$FF`. -/
theorem doSectorErase_erases_sector_zero :
    (0x10000 : Nat) < ((create.loadBank 0 (fun _ => 0)).loadBank 8 (fun _ => 0)).size ∧
    ((create.loadBank 0 (fun _ => 0)).loadBank 8 (fun _ => 0)).sectorSize = 0x10000 ∧
    ((create.loadBank 0 (fun _ => 0)).loadBank 8 (fun _ => 0)).rom 0x10000 = 0 ∧
    ((create.loadBank 0 (fun _ => 0)).loadBank 8 (fun _ => 0)).rom 0 = 0 ∧
    ∃ g, ((create.loadBank 0 (fun _ => 0)).loadBank 8 (fun _ => 0)).doSectorErase 0x10000
        = some g ∧ g.rom 0x10000 = 0 ∧ g.rom 0 = 0xFF :=
  ⟨by decide, rfl, by decide, by decide, _, rfl, by decide, by decide⟩

/-- C6, as stated, fails: on a chip in state `FLASH_READ` whose bank 0 was
loaded with zero bytes, the six pokes of the chip-erase command return, and the
cell at offset 0 still holds 0, not `$FF`. -/
theorem chipErase_sequence_counterexample :
    (create.loadBank 0 (fun _ => 0)).state = FLASH_READ ∧
    ∃ g, (create.loadBank 0 (fun _ => 0)).pokeSeq
        [(0x5555, 0xAA), (0x2AAA, 0x55), (0x5555, 0x80),
         (0x5555, 0xAA), (0x2AAA, 0x55), (0x5555, 0x10)] = some g ∧
      0 < g.size ∧ g.rom 0 = 0 ∧ g.rom 0 ≠ 0xFF :=
  ⟨rfl, _, rfl, by decide, by decide, by decide⟩

/-- C6, amended: on a chip in state `FLASH_READ` (holding the command address
`$5555`), the six pokes of the chip-erase command return and leave the state
`FLASH_ERASE_MAGIC_1`, with `baseState` and the array unchanged (`poke` has no
code for the erase states); `doChipErase()` itself sets every byte of the array
to `$FF`. -/
theorem chipErase_sequence_amended (f : FlashRom) (hsz : 0x5555 < f.size)
    (hst : f.state = FLASH_READ) :
    (∃ g, f.pokeSeq [(0x5555, 0xAA), (0x2AAA, 0x55), (0x5555, 0x80),
                     (0x5555, 0xAA), (0x2AAA, 0x55), (0x5555, 0x10)] = some g ∧
      g.state = FLASH_ERASE_MAGIC_1 ∧ g.baseState = f.baseState ∧ g.rom = f.rom) ∧
    (∀ i, i < f.size → f.doChipErase.rom i = 0xFF) := by
  have hsz2 : 0x2AAA < f.size := lt_trans (by norm_num) hsz
  have h1 : f.poke 0x5555 0xAA = some { f with state := FLASH_MAGIC_1 } := by
    simp [poke, hsz, hst]
  have h2 : ({ f with state := FLASH_MAGIC_1 } : FlashRom).poke 0x2AAA 0x55
      = some { f with state := FLASH_MAGIC_2 } := by
    simp [poke, hsz2]
  have h3 : ({ f with state := FLASH_MAGIC_2 } : FlashRom).poke 0x5555 0x80
      = some { f with state := FLASH_ERASE_MAGIC_1 } := by
    simp [poke, hsz]
  have h4 : ∀ a v, a < f.size → ({ f with state := FLASH_ERASE_MAGIC_1 } : FlashRom).poke a v
      = some { f with state := FLASH_ERASE_MAGIC_1 } := by
    intro a v ha
    simp [poke, ha]
  constructor
  · refine ⟨{ f with state := FLASH_ERASE_MAGIC_1 }, ?_, rfl, rfl, rfl⟩
    rw [pokeSeq_cons _ _ _ _ _ h1, pokeSeq_cons _ _ _ _ _ h2, pokeSeq_cons _ _ _ _ _ h3,
      pokeSeq_cons _ _ _ _ _ (h4 _ _ hsz), pokeSeq_cons _ _ _ _ _ (h4 _ _ hsz2),
      pokeSeq_cons _ _ _ _ _ (h4 _ _ hsz)]
    rfl
  · intro i hi
    simp [doChipErase, memset, hi]

/-- C6 witness: the amended statement on a chip whose bank 0 holds zero bytes. -/
theorem chipErase_sequence_amended_witness :
    (∃ g, (create.loadBank 0 (fun _ => 0)).pokeSeq
        [(0x5555, 0xAA), (0x2AAA, 0x55), (0x5555, 0x80),
         (0x5555, 0xAA), (0x2AAA, 0x55), (0x5555, 0x10)] = some g ∧
      g.state = FLASH_ERASE_MAGIC_1 ∧
      g.baseState = (create.loadBank 0 (fun _ => 0)).baseState ∧
      g.rom = (create.loadBank 0 (fun _ => 0)).rom) ∧
    (∀ i, i < (create.loadBank 0 (fun _ => 0)).size →
      (create.loadBank 0 (fun _ => 0)).doChipErase.rom i = 0xFF) :=
  chipErase_sequence_amended (create.loadBank 0 (fun _ => 0)) (by decide) rfl

/-- C7: the array is write-protected by the unlock sequence.  For a run of
pokes that starts in `FLASH_READ` with `baseState` `FLASH_READ`: if the poke
that follows the pokes `pre` (the poke number `pre.length + 1`) changes a byte
of the array, then it is at least the fourth poke and the three pokes right
before it were `($5555, $AA)`, `($2AAA, $55)`, `($5555, $A0)`.  And a poke in
any state other than `FLASH_BYTE_PROGRAM` leaves the array unchanged. -/
theorem rom_write_protected (f0 : FlashRom) (hst : f0.state = FLASH_READ)
    (hb : f0.baseState = FLASH_READ) :
    (∀ (pre : List (Nat × Nat)) (a v : Nat) (f1 f2 : FlashRom),
      f0.pokeSeq pre = some f1 → f1.poke a v = some f2 → (∃ i, f2.rom i ≠ f1.rom i) →
        4 ≤ pre.length + 1 ∧
        ∃ l, pre = l ++ [(0x5555, 0xAA), (0x2AAA, 0x55), (0x5555, 0xA0)]) ∧
    (∀ (f g : FlashRom) (a v : Nat),
      f.state ≠ FLASH_BYTE_PROGRAM → f.poke a v = some g → g.rom = f.rom) := by
  refine ⟨?_, fun f g a v hs h => poke_rom_eq f g a v hs h⟩
  rintro pre a v f1 f2 h1 h2 ⟨i, hi⟩
  have hs : f1.state = FLASH_BYTE_PROGRAM := by
    by_contra hne
    exact hi (by rw [poke_rom_eq f1 f2 a v hne h2])
  obtain ⟨_, _, _, h3⟩ := pokeSeq_history f0 hst (Or.inl hb) pre f1 h1
  obtain ⟨l, hl⟩ := h3 hs
  refine ⟨?_, l, hl⟩
  rw [hl]
  simp only [List.length_append, List.length_cons, List.length_nil]
  omega

/-- C7 witness: on a new chip, the fourth poke of the byte-program sequence
changes the cell `$9000`. -/
theorem rom_write_protected_witness :
    ∃ f1 f2 : FlashRom,
      create.pokeSeq [(0x5555, 0xAA), (0x2AAA, 0x55), (0x5555, 0xA0)] = some f1 ∧
      f1.poke 0x9000 0x42 = some f2 ∧ f2.rom 0x9000 ≠ f1.rom 0x9000 ∧
      4 ≤ [((0x5555 : Nat), (0xAA : Nat)), (0x2AAA, 0x55), (0x5555, 0xA0)].length + 1 ∧
      ∃ l, [((0x5555 : Nat), (0xAA : Nat)), (0x2AAA, 0x55), (0x5555, 0xA0)]
        = l ++ [(0x5555, 0xAA), (0x2AAA, 0x55), (0x5555, 0xA0)] :=
  ⟨_, _, rfl, rfl, by decide,
    (rom_write_protected create rfl rfl).1
      [(0x5555, 0xAA), (0x2AAA, 0x55), (0x5555, 0xA0)] 0x9000 0x42 _ _ rfl rfl
      ⟨0x9000, by decide⟩⟩

/-- C8: the flash reset command.  From `FLASH_READ`, `FLASH_AUTOSELECT` or
`FLASH_BYTE_PROGRAM_ERROR`, with any `baseState` (on a chip holding the command
address `$5555`), the pokes `($5555, $AA)`, `($2AAA, $55)`, `($5555, $F0)`
return and end with state and `baseState` `FLASH_READ` and the array
unchanged. -/
theorem reset_sequence (f : FlashRom) (hsz : 0x5555 < f.size)
    (hst : f.state = FLASH_READ ∨ f.state = FLASH_AUTOSELECT ∨
      f.state = FLASH_BYTE_PROGRAM_ERROR) :
    ∃ g, f.pokeSeq [(0x5555, 0xAA), (0x2AAA, 0x55), (0x5555, 0xF0)] = some g ∧
      g.state = FLASH_READ ∧ g.baseState = FLASH_READ ∧ g.rom = f.rom := by
  have hsz2 : 0x2AAA < f.size := lt_trans (by norm_num) hsz
  have h1 : f.poke 0x5555 0xAA = some { f with state := FLASH_MAGIC_1 } := by
    rcases hst with h | h | h <;> simp [poke, hsz, h]
  have h2 : ({ f with state := FLASH_MAGIC_1 } : FlashRom).poke 0x2AAA 0x55
      = some { f with state := FLASH_MAGIC_2 } := by
    simp [poke, hsz2]
  have h3 : ({ f with state := FLASH_MAGIC_2 } : FlashRom).poke 0x5555 0xF0
      = some { f with state := FLASH_READ, baseState := FLASH_READ } := by
    simp [poke, hsz]
  refine ⟨{ f with state := FLASH_READ, baseState := FLASH_READ }, ?_, rfl, rfl, rfl⟩
  rw [pokeSeq_cons _ _ _ _ _ h1, pokeSeq_cons _ _ _ _ _ h2, pokeSeq_cons _ _ _ _ _ h3]
  rfl

/-- C8 witness: the reset command on a chip in `FLASH_BYTE_PROGRAM_ERROR` with
`baseState` `FLASH_AUTOSELECT`. -/
theorem reset_sequence_witness :
    ∃ g, ({ create with state := FLASH_BYTE_PROGRAM_ERROR,
                        baseState := FLASH_AUTOSELECT } : FlashRom).pokeSeq
        [(0x5555, 0xAA), (0x2AAA, 0x55), (0x5555, 0xF0)] = some g ∧
      g.state = FLASH_READ ∧ g.baseState = FLASH_READ ∧
      g.rom = ({ create with state := FLASH_BYTE_PROGRAM_ERROR,
                             baseState := FLASH_AUTOSELECT } : FlashRom).rom :=
  reset_sequence { create with state := FLASH_BYTE_PROGRAM_ERROR,
                               baseState := FLASH_AUTOSELECT } (by decide)
    (Or.inr (Or.inr rfl))

end FlashRom

/-! ## CPU: theorems -/

namespace CPU

/-- C9, as stated, fails for PLP: with opcode `$28`, `oldI = 0` and `I = 1`,
`IRQsAreBlocked` returns `true`, the current `I`, and not `oldI`. -/
theorem IRQsAreBlocked_PLP_counterexample :
    ({ cleared with opcode := 0x28, I := true, oldI := false } : CPU).IRQsAreBlocked.1 = true ∧
    ({ cleared with opcode := 0x28, I := true, oldI := false } : CPU).IRQsAreBlocked.1 ≠
      ({ cleared with opcode := 0x28, I := true, oldI := false } : CPU).oldI :=
  ⟨rfl, by decide⟩

/-- C9, amended: `IRQsAreBlocked` returns the value `oldI` had on entry
whenever the current opcode is SEI (`$78`) or CLI (`$58`); for PLP (`$28`) it
returns the current `I`. -/
theorem IRQsAreBlocked_SEI_CLI (c : CPU) :
    (c.opcode = 0x78 ∨ c.opcode = 0x58 → c.IRQsAreBlocked.1 = c.oldI) ∧
    (c.opcode = 0x28 → c.IRQsAreBlocked.1 = c.I) := by
  constructor
  · intro h
    simp [IRQsAreBlocked, h]
  · intro h
    simp [IRQsAreBlocked, h]

/-- C9 witness: SEI with `oldI = 0`, `I = 1` yields `oldI`; PLP yields `I`. -/
theorem IRQsAreBlocked_SEI_CLI_witness :
    ({ cleared with opcode := 0x78, I := true, oldI := false } : CPU).IRQsAreBlocked.1
      = ({ cleared with opcode := 0x78, I := true, oldI := false } : CPU).oldI ∧
    ({ cleared with opcode := 0x28, I := true, oldI := false } : CPU).IRQsAreBlocked.1
      = ({ cleared with opcode := 0x28, I := true, oldI := false } : CPU).I :=
  ⟨(IRQsAreBlocked_SEI_CLI { cleared with opcode := 0x78, I := true, oldI := false }).1
      (Or.inl rfl),
    (IRQsAreBlocked_SEI_CLI { cleared with opcode := 0x28, I := true, oldI := false }).2 rfl⟩

/-- C10: the I-delay of SEI.  If the opcode is SEI (`$78`), `oldI` is 0 and `I`
is 1, the call returns `false` and leaves `oldI = I = 1`, and a following call
in any state with that `oldI` and with `I` still 1 (whatever the opcode)
returns `true`.  In general the call returns `oldI` for the opcodes `$78` and
`$58` and `I` for every other opcode, leaves `I` as it was, and ends with
`oldI = I`. -/
theorem IRQsAreBlocked_delay (c : CPU) :
    (c.opcode = 0x78 → c.oldI = false → c.I = true →
      c.IRQsAreBlocked.1 = false ∧
      c.IRQsAreBlocked.2.oldI = true ∧ c.IRQsAreBlocked.2.I = true ∧
      ∀ c2 : CPU, c2.I = true → c2.oldI = c.IRQsAreBlocked.2.oldI →
        c2.IRQsAreBlocked.1 = true) ∧
    (c.IRQsAreBlocked.1 = if c.opcode = 0x78 ∨ c.opcode = 0x58 then c.oldI else c.I) ∧
    c.IRQsAreBlocked.2.I = c.I ∧
    c.IRQsAreBlocked.2.oldI = c.IRQsAreBlocked.2.I := by
  refine ⟨?_, rfl, rfl, rfl⟩
  intro hop hold hi
  refine ⟨by simp [IRQsAreBlocked, hop, hold], by simp [IRQsAreBlocked, hi], hi, ?_⟩
  intro c2 h2 hold2
  have hold3 : c2.oldI = true := by rw [hold2]; simp [IRQsAreBlocked, hi]
  simp [IRQsAreBlocked, h2, hold3]

/-- C10 witness: SEI with `oldI = 0` and `I = 1`, followed by a call with
opcode `$EA`. -/
theorem IRQsAreBlocked_delay_witness :
    ({ cleared with opcode := 0x78, I := true, oldI := false } : CPU).IRQsAreBlocked.1 = false ∧
    ({ ({ cleared with opcode := 0x78, I := true, oldI := false } : CPU).IRQsAreBlocked.2
        with opcode := 0xEA } : CPU).IRQsAreBlocked.1 = true := by
  obtain ⟨h1, _, _, h2⟩ :=
    (IRQsAreBlocked_delay { cleared with opcode := 0x78, I := true, oldI := false }).1
      rfl rfl rfl
  exact ⟨h1, h2 _ rfl rfl⟩

/-- The OR of a line with a non-zero bit mask is non-zero. -/
theorem lor_ne_zero_right (a b : Nat) (hb : b ≠ 0) : a ||| b ≠ 0 := by
  intro h
  apply hb
  apply Nat.eq_of_testBit_eq
  intro k
  have hk : (a ||| b).testBit k = false := by rw [h]; exact Nat.zero_testBit k
  rw [Nat.testBit_or] at hk
  simp only [Bool.or_eq_false_iff] at hk
  rw [hk.2, Nat.zero_testBit]

/-- What `setNMILine` computes, member by member. -/
theorem setNMILine_eq (c : CPU) (cycles bit : Nat) (hbit : bit ≠ 0) :
    c.setNMILine cycles bit = some
      { c with
        nmiLine := c.nmiLine ||| bit
        nmiEdge := if c.nmiLine = 0 then true else c.nmiEdge
        nextPossibleNmiCycle :=
          if c.nmiLine = 0 then (cycles + 2) % 2 ^ 64 else c.nextPossibleNmiCycle } := by
  simp only [setNMILine, if_pos hbit]
  by_cases h0 : c.nmiLine = 0 <;> simp [h0]

/-- What `pullDownIrqLine` computes, member by member. -/
theorem pullDownIrqLine_eq (c : CPU) (cycles source : Nat) (hs : source ≠ 0) :
    c.pullDownIrqLine cycles source = some
      { c with
        irqLine := c.irqLine ||| source
        nextPossibleIrqCycle :=
          if c.irqLine = 0 then (cycles + 2) % 2 ^ 64 else c.nextPossibleIrqCycle } := by
  simp only [pullDownIrqLine, if_pos hs]
  by_cases h0 : c.irqLine = 0 <;> simp [h0]

/-- C11: `setNMILine(bit)` with `bit != 0` returns.  If `nmiLine` was 0 then
`nmiEdge` becomes true and `nextPossibleNmiCycle` becomes the 64-bit sum
`cycles + 2` (which is `cycles + 2` itself unless the sum overflows); if
`nmiLine` was not 0 then `nmiEdge` and `nextPossibleNmiCycle` are unchanged;
in both cases `nmiLine` is the old `nmiLine` OR `bit` afterwards. -/
theorem setNMILine_spec (c : CPU) (cycles bit : Nat) (hbit : bit ≠ 0) :
    ∃ d, c.setNMILine cycles bit = some d ∧
      (c.nmiLine = 0 → d.nmiEdge = true ∧
        d.nextPossibleNmiCycle = (cycles + 2) % 2 ^ 64 ∧
        (cycles + 2 < 2 ^ 64 → d.nextPossibleNmiCycle = cycles + 2)) ∧
      (c.nmiLine ≠ 0 → d.nmiEdge = c.nmiEdge ∧
        d.nextPossibleNmiCycle = c.nextPossibleNmiCycle) ∧
      d.nmiLine = c.nmiLine ||| bit := by
  refine ⟨_, setNMILine_eq c cycles bit hbit, ?_, ?_, rfl⟩
  · intro h0
    simp only [h0, if_true]
    exact ⟨trivial, trivial, fun hlt => Nat.mod_eq_of_lt hlt⟩
  · intro hne
    simp only [hne, if_false]
    exact ⟨trivial, trivial⟩

/-- C11 witness: a first source (bit `$01` at cycle 100) on a released line, and
a second source (bit `$02` at cycle 200) on the line it left low. -/
theorem setNMILine_spec_witness :
    (∃ d, cleared.setNMILine 100 0x01 = some d ∧ d.nmiEdge = true ∧
      d.nextPossibleNmiCycle = 102 ∧ d.nmiLine = 0x01) ∧
    (∃ d, ({ cleared with nmiLine := 0x01, nextPossibleNmiCycle := 102 } : CPU).setNMILine
        200 0x02 = some d ∧ d.nmiEdge = false ∧ d.nextPossibleNmiCycle = 102 ∧
      d.nmiLine = 0x03) := by
  constructor
  · obtain ⟨d, hd, h0, _, hl⟩ := setNMILine_spec cleared 100 0x01 (by decide)
    obtain ⟨he, _, hc⟩ := h0 rfl
    exact ⟨d, hd, he, hc (by decide), hl⟩
  · obtain ⟨d, hd, _, h1, hl⟩ := setNMILine_spec
      { cleared with nmiLine := 0x01, nextPossibleNmiCycle := 102 } 200 0x02 (by decide)
    obtain ⟨he, hc⟩ := h1 (by decide)
    exact ⟨d, hd, he, hc, hl⟩

/-- C12: the NMI acknowledgement delay.  If `setNMILine` is called at cycle
`cycles` while `nmiLine` is 0, and `cycles + 2` does not overflow 64 bits, then
the call returns and `NMILineRaisedLongEnough` is false at the cycles `cycles`
and `cycles + 1` and true at every cycle from `cycles + 2` on. -/
theorem NMILineRaisedLongEnough_delay (c : CPU) (cycles bit : Nat) (hbit : bit ≠ 0)
    (h0 : c.nmiLine = 0) (hov : cycles + 2 < 2 ^ 64) :
    ∃ d, c.setNMILine cycles bit = some d ∧
      d.NMILineRaisedLongEnough cycles = false ∧
      d.NMILineRaisedLongEnough (cycles + 1) = false ∧
      ∀ t, cycles + 2 ≤ t → d.NMILineRaisedLongEnough t = true := by
  refine ⟨_, setNMILine_eq c cycles bit hbit, ?_, ?_, ?_⟩
  · simp only [NMILineRaisedLongEnough, h0, if_true, Nat.mod_eq_of_lt hov]
    simp
  · simp only [NMILineRaisedLongEnough, h0, if_true, Nat.mod_eq_of_lt hov]
    simp
  · intro t ht
    simp only [NMILineRaisedLongEnough, h0, if_true, Nat.mod_eq_of_lt hov]
    simpa using ht

/-- C12 witness: an NMI source asserted at cycle 100. -/
theorem NMILineRaisedLongEnough_delay_witness :
    ∃ d, cleared.setNMILine 100 0x01 = some d ∧
      d.NMILineRaisedLongEnough 100 = false ∧
      d.NMILineRaisedLongEnough (100 + 1) = false ∧
      ∀ t, 100 + 2 ≤ t → d.NMILineRaisedLongEnough t = true :=
  NMILineRaisedLongEnough_delay cleared 100 0x01 (by decide) rfl (by decide)

/-- C13: `pullDownIrqLine(source)` with `source != 0` returns; afterwards
`irqLine` is the old `irqLine` OR `source`, hence non-zero;
`nextPossibleIrqCycle` is the 64-bit sum `cycles + 2` if `irqLine` was 0 and
unchanged otherwise, so a second source on the line now low does not change
it; and `IRQLineRaisedLongEnough` is true exactly when the current cycle is at
least `nextPossibleIrqCycle`. -/
theorem pullDownIrqLine_spec (c : CPU) (cycles source : Nat) (hs : source ≠ 0) :
    ∃ d, c.pullDownIrqLine cycles source = some d ∧
      d.irqLine = c.irqLine ||| source ∧ d.irqLine ≠ 0 ∧
      (c.irqLine = 0 → d.nextPossibleIrqCycle = (cycles + 2) % 2 ^ 64 ∧
        (cycles + 2 < 2 ^ 64 → d.nextPossibleIrqCycle = cycles + 2)) ∧
      (c.irqLine ≠ 0 → d.nextPossibleIrqCycle = c.nextPossibleIrqCycle) ∧
      (∀ cycles2 source2, source2 ≠ 0 →
        ∃ e, d.pullDownIrqLine cycles2 source2 = some e ∧
          e.nextPossibleIrqCycle = d.nextPossibleIrqCycle) ∧
      (∀ (e : CPU) (t : Nat),
        e.IRQLineRaisedLongEnough t = true ↔ t ≥ e.nextPossibleIrqCycle) := by
  have hne : c.irqLine ||| source ≠ 0 := lor_ne_zero_right _ _ hs
  refine ⟨_, pullDownIrqLine_eq c cycles source hs, rfl, hne, ?_, ?_, ?_, ?_⟩
  · intro h0
    simp only [h0, if_true]
    exact ⟨trivial, fun hlt => Nat.mod_eq_of_lt hlt⟩
  · intro h1
    simp only [h1, if_false]
  · intro cycles2 source2 hs2
    refine ⟨_, pullDownIrqLine_eq _ cycles2 source2 hs2, ?_⟩
    simp only [if_neg hne]
  · intro e t
    simp [IRQLineRaisedLongEnough]

/-- C13 witness: a source (bit `$01`) pulls the released line down at cycle 100
and a second source (bit `$02`) follows at cycle 200. -/
theorem pullDownIrqLine_spec_witness :
    ∃ d, cleared.pullDownIrqLine 100 0x01 = some d ∧ d.irqLine = 0x01 ∧
      d.nextPossibleIrqCycle = 102 ∧
      ∃ e, d.pullDownIrqLine 200 0x02 = some e ∧ e.nextPossibleIrqCycle = 102 := by
  obtain ⟨d, hd, hl, _, h0, _, h2, _⟩ := pullDownIrqLine_spec cleared 100 0x01 (by decide)
  have hc : d.nextPossibleIrqCycle = 102 := (h0 rfl).2 (by decide)
  obtain ⟨e, he, hee⟩ := h2 200 0x02 (by decide)
  exact ⟨d, hd, hl, hc, e, he, hee.trans hc⟩

/-- C14: `setErrorState(s)`, for each of the four error states `s`.  If `s` is
the current `errorState`, nothing changes and no message is sent; otherwise
`errorState` becomes `s`, nothing else changes, and exactly one message is
sent, the message kind that corresponds to `s`. -/
theorem setErrorState_spec (c : CPU) (s : ErrorState) :
    (c.errorState = s → c.setErrorState s = (c, [])) ∧
    (c.errorState ≠ s →
      c.setErrorState s = ({ c with errorState := s }, [messageOf s]) ∧
      (c.setErrorState s).1.errorState = s ∧
      (c.setErrorState s).2.length = 1) := by
  constructor
  · intro h
    simp [setErrorState, h]
  · intro h
    have hset : c.setErrorState s = ({ c with errorState := s }, [messageOf s]) := by
      simp only [setErrorState, if_neg h]
      cases s <;> rfl
    rw [hset]
    exact ⟨rfl, rfl, rfl⟩

/-- C14 witness: an illegal instruction is reported once, and not again. -/
theorem setErrorState_spec_witness :
    cleared.setErrorState CPU_ILLEGAL_INSTRUCTION
      = ({ cleared with errorState := CPU_ILLEGAL_INSTRUCTION }, [MSG_CPU_ILLEGAL_INSTRUCTION]) ∧
    ({ cleared with errorState := CPU_ILLEGAL_INSTRUCTION } : CPU).setErrorState
        CPU_ILLEGAL_INSTRUCTION
      = ({ cleared with errorState := CPU_ILLEGAL_INSTRUCTION }, []) :=
  ⟨((setErrorState_spec cleared CPU_ILLEGAL_INSTRUCTION).2 (by decide)).1,
    (setErrorState_spec { cleared with errorState := CPU_ILLEGAL_INSTRUCTION }
      CPU_ILLEGAL_INSTRUCTION).1 rfl⟩

end CPU

/-! ## Buffer codec: theorems -/

/-- The AND with `$FF` is the remainder modulo 256. -/
theorem land_ff (x : Nat) : x &&& 0xFF = x % 256 :=
  Nat.and_pow_two_sub_one_eq_mod x 8

/-- A left shift ORed with a number that fits below the shift is a sum. -/
theorem shiftLeft_lor (a b k : Nat) (hb : b < 2 ^ k) : (a <<< k) ||| b = a * 2 ^ k + b := by
  rw [Nat.shiftLeft_eq, Nat.mul_comm, Nat.mul_add_lt_is_or hb]

/-- The pointer after `write16`. -/
theorem write16_ptr (b : Buffer) (v : Nat) : (write16 b v).ptr = b.ptr + 2 := rfl

/-- The pointer after `write32`. -/
theorem write32_ptr (b : Buffer) (v : Nat) : (write32 b v).ptr = b.ptr + 4 := rfl

/-- The pointer after `write64`. -/
theorem write64_ptr (b : Buffer) (v : Nat) : (write64 b v).ptr = b.ptr + 8 := rfl

/-- The memory after `write16`. -/
theorem write16_mem (b : Buffer) (v a : Nat) :
    (write16 b v).mem a =
      if a = b.ptr then (v >>> 8) % 256 else if a = b.ptr + 1 then v % 256 else b.mem a := by
  simp only [write16, write8]
  by_cases h0 : a = b.ptr
  · subst h0
    simp
  · simp [h0]

/-- The memory after `write32`, byte by byte. -/
theorem write32_mem (b : Buffer) (v a : Nat) :
    (write32 b v).mem a =
      if a = b.ptr then (v >>> 24) % 256
      else if a = b.ptr + 1 then (v >>> 16) % 256
      else if a = b.ptr + 2 then (v >>> 8) % 256
      else if a = b.ptr + 3 then v % 256
      else b.mem a := by
  simp only [write32, write16_mem, write16_ptr, Nat.shiftRight_eq_div_pow]
  split_ifs <;> omega

/-- The memory after `write64`, byte by byte. -/
theorem write64_mem (b : Buffer) (v a : Nat) :
    (write64 b v).mem a =
      if a = b.ptr then (v >>> 56) % 256
      else if a = b.ptr + 1 then (v >>> 48) % 256
      else if a = b.ptr + 2 then (v >>> 40) % 256
      else if a = b.ptr + 3 then (v >>> 32) % 256
      else if a = b.ptr + 4 then (v >>> 24) % 256
      else if a = b.ptr + 5 then (v >>> 16) % 256
      else if a = b.ptr + 6 then (v >>> 8) % 256
      else if a = b.ptr + 7 then v % 256
      else b.mem a := by
  simp only [write64, write32_mem, write32_ptr, Nat.shiftRight_eq_div_pow]
  split_ifs <;> omega

/-- What `read16` reads. -/
theorem read16_eq (m : Nat → Nat) (p : Nat) :
    read16 { mem := m, ptr := p }
      = (((m p <<< 8) ||| m (p + 1)) % 2 ^ 16, { mem := m, ptr := p + 2 }) := rfl

/-- Reading a word whose two bytes are in memory, high byte first. -/
theorem read16_of_bytes (m : Nat → Nat) (p w : Nat) (hw : w < 2 ^ 16)
    (h0 : m p = (w >>> 8) % 256) (h1 : m (p + 1) = w % 256) :
    read16 { mem := m, ptr := p } = (w, { mem := m, ptr := p + 2 }) := by
  have hor : (((w >>> 8) % 256) <<< 8) ||| (w % 256) = (w >>> 8) % 256 * 2 ^ 8 + w % 256 :=
    shiftLeft_lor _ _ 8 (Nat.mod_lt _ (by norm_num))
  have hval : ((w >>> 8) % 256 * 2 ^ 8 + w % 256) % 2 ^ 16 = w := by
    rw [Nat.shiftRight_eq_div_pow]
    omega
  rw [read16_eq, h0, h1, hor, hval]

/-- Reading a double word whose two words can be read, high word first. -/
theorem read32_of_words (m : Nat → Nat) (p w : Nat) (hw : w < 2 ^ 32)
    (hhi : read16 { mem := m, ptr := p } = ((w >>> 16) % 65536, { mem := m, ptr := p + 2 }))
    (hlo : read16 { mem := m, ptr := p + 2 } = (w % 65536, { mem := m, ptr := p + 4 })) :
    read32 { mem := m, ptr := p } = (w, { mem := m, ptr := p + 4 }) := by
  have hshift : (((w >>> 16) % 65536) <<< 16) % 2 ^ 32 = ((w >>> 16) % 65536) <<< 16 := by
    apply Nat.mod_eq_of_lt
    rw [Nat.shiftLeft_eq]
    have := Nat.mod_lt (w >>> 16) (by norm_num : 0 < 65536)
    omega
  have hor : (((w >>> 16) % 65536) <<< 16) ||| (w % 65536)
      = (w >>> 16) % 65536 * 2 ^ 16 + w % 65536 :=
    shiftLeft_lor _ _ 16 (Nat.mod_lt _ (by norm_num))
  have hval : (w >>> 16) % 65536 * 2 ^ 16 + w % 65536 = w := by
    rw [Nat.shiftRight_eq_div_pow]
    omega
  simp only [read32, hhi, hlo]
  rw [hshift, hor, hval]

/-- Reading a quad word whose two double words can be read, high one first. -/
theorem read64_of_dwords (m : Nat → Nat) (p w : Nat) (hw : w < 2 ^ 64)
    (hhi : read32 { mem := m, ptr := p }
      = ((w >>> 32) % 2 ^ 32, { mem := m, ptr := p + 4 }))
    (hlo : read32 { mem := m, ptr := p + 4 } = (w % 2 ^ 32, { mem := m, ptr := p + 8 })) :
    read64 { mem := m, ptr := p } = (w, { mem := m, ptr := p + 8 }) := by
  have hshift : (((w >>> 32) % 2 ^ 32) <<< 32) % 2 ^ 64 = ((w >>> 32) % 2 ^ 32) <<< 32 := by
    apply Nat.mod_eq_of_lt
    rw [Nat.shiftLeft_eq]
    have := Nat.mod_lt (w >>> 32) (by norm_num : 0 < 2 ^ 32)
    omega
  have hor : (((w >>> 32) % 2 ^ 32) <<< 32) ||| (w % 2 ^ 32)
      = (w >>> 32) % 2 ^ 32 * 2 ^ 32 + w % 2 ^ 32 :=
    shiftLeft_lor _ _ 32 (Nat.mod_lt _ (by norm_num))
  have hval : (w >>> 32) % 2 ^ 32 * 2 ^ 32 + w % 2 ^ 32 = w := by
    rw [Nat.shiftRight_eq_div_pow]
    omega
  simp only [read64, hhi, hlo]
  rw [hshift, hor, hval]

/-- Reading back what `write16` wrote, in any memory that holds its two
bytes. -/
theorem read16_written (m : Nat → Nat) (b : Buffer) (w : Nat) (hw : w < 2 ^ 16)
    (h0 : m b.ptr = (write16 b w).mem b.ptr)
    (h1 : m (b.ptr + 1) = (write16 b w).mem (b.ptr + 1)) :
    read16 { mem := m, ptr := b.ptr } = (w, { mem := m, ptr := b.ptr + 2 }) := by
  apply read16_of_bytes m b.ptr w hw
  · rw [h0, write16_mem, if_pos rfl]
  · rw [h1, write16_mem, if_neg (by omega), if_pos rfl]

/-- Reading back what `write32` wrote, in any memory that holds its four
bytes. -/
theorem read32_written (m : Nat → Nat) (b : Buffer) (w : Nat) (hw : w < 2 ^ 32)
    (h : ∀ k, k < 4 → m (b.ptr + k) = (write32 b w).mem (b.ptr + k)) :
    read32 { mem := m, ptr := b.ptr } = (w, { mem := m, ptr := b.ptr + 4 }) := by
  have e0 := h 0 (by norm_num)
  have e1 := h 1 (by norm_num)
  have e2 := h 2 (by norm_num)
  have e3 := h 3 (by norm_num)
  rw [write32_mem] at e0 e1 e2 e3
  simp only [Nat.add_zero, if_true] at e0
  rw [if_neg (by omega), if_pos rfl] at e1
  rw [if_neg (by omega), if_neg (by omega), if_pos rfl] at e2
  rw [if_neg (by omega), if_neg (by omega), if_neg (by omega), if_pos rfl] at e3
  apply read32_of_words m b.ptr w hw
  · apply read16_of_bytes m b.ptr _ (Nat.mod_lt _ (by norm_num))
    · rw [e0]
      simp only [Nat.shiftRight_eq_div_pow]
      omega
    · rw [e1]
      simp only [Nat.shiftRight_eq_div_pow]
      omega
  · apply read16_of_bytes m (b.ptr + 2) _ (Nat.mod_lt _ (by norm_num))
    · rw [e2]
      simp only [Nat.shiftRight_eq_div_pow]
      omega
    · rw [show b.ptr + 2 + 1 = b.ptr + 3 from rfl, e3]
      omega


/-- Reading back what `write64` wrote, in any memory that holds its eight
bytes. -/
theorem read64_written (m : Nat → Nat) (b : Buffer) (w : Nat) (hw : w < 2 ^ 64)
    (h : ∀ k, k < 8 → m (b.ptr + k) = (write64 b w).mem (b.ptr + k)) :
    read64 { mem := m, ptr := b.ptr } = (w, { mem := m, ptr := b.ptr + 8 }) := by
  have hbyte : ∀ k, k < 8 → m (b.ptr + k) = (w >>> (56 - 8 * k)) % 256 := by
    intro k hk
    rw [h k hk, write64_mem]
    interval_cases k <;> simp
  apply read64_of_dwords m b.ptr w hw
  · have h32 := read32_written m { mem := m, ptr := b.ptr } ((w >>> 32) % 2 ^ 32)
      (Nat.mod_lt _ (by norm_num)) (by
        intro k hk
        simp only [write32_mem]
        have hk8 : k < 8 := by omega
        rw [hbyte k hk8]
        interval_cases k <;> simp [Nat.shiftRight_eq_div_pow] <;> omega)
    exact h32
  · have h32 := read32_written m { mem := m, ptr := b.ptr + 4 } (w % 2 ^ 32)
      (Nat.mod_lt _ (by norm_num)) (by
        intro k hk
        simp only [write32_mem]
        have hk8 : 4 + k < 8 := by omega
        have hb := hbyte (4 + k) hk8
        rw [show b.ptr + 4 + k = b.ptr + (4 + k) by omega, hb]
        interval_cases k <;> simp [Nat.shiftRight_eq_div_pow] <;> omega)
    exact h32

/-- C16: the buffer codec round trip.  For every 16-, 32- and 64-bit value
`v`, reading with `read16`, `read32`, `read64` from the position at which
`write16`, `write32`, `write64` wrote `v` returns `v`; the write and the read
both advance the pointer by exactly 2, 4 and 8 bytes. -/
theorem read_write_roundtrip (b : Buffer) (v : Nat) :
    (v < 2 ^ 16 →
      read16 { mem := (write16 b v).mem, ptr := b.ptr }
        = (v, { mem := (write16 b v).mem, ptr := b.ptr + 2 }) ∧
      (write16 b v).ptr = b.ptr + 2) ∧
    (v < 2 ^ 32 →
      read32 { mem := (write32 b v).mem, ptr := b.ptr }
        = (v, { mem := (write32 b v).mem, ptr := b.ptr + 4 }) ∧
      (write32 b v).ptr = b.ptr + 4) ∧
    (v < 2 ^ 64 →
      read64 { mem := (write64 b v).mem, ptr := b.ptr }
        = (v, { mem := (write64 b v).mem, ptr := b.ptr + 8 }) ∧
      (write64 b v).ptr = b.ptr + 8) :=
  ⟨fun hv => ⟨read16_written _ b v hv rfl rfl, rfl⟩,
   fun hv => ⟨read32_written _ b v hv (fun _ _ => rfl), rfl⟩,
   fun hv => ⟨read64_written _ b v hv (fun _ _ => rfl), rfl⟩⟩

/-- C16 witness: the values `$1234`, `$12345678` and `$0123456789ABCDEF`
written at offset 10 of a zeroed buffer. -/
theorem read_write_roundtrip_witness :
    (read16 { mem := (write16 { mem := fun _ => 0, ptr := 10 } 0x1234).mem, ptr := 10 }).1
      = 0x1234 ∧
    (read32 { mem := (write32 { mem := fun _ => 0, ptr := 10 } 0x12345678).mem, ptr := 10 }).1
      = 0x12345678 ∧
    (read64 { mem := (write64 { mem := fun _ => 0, ptr := 10 } 0x0123456789ABCDEF).mem,
              ptr := 10 }).1 = 0x0123456789ABCDEF ∧
    (read64 { mem := (write64 { mem := fun _ => 0, ptr := 10 } 0x0123456789ABCDEF).mem,
              ptr := 10 }).2.ptr = 18 :=
  ⟨congrArg Prod.fst
      ((read_write_roundtrip { mem := fun _ => 0, ptr := 10 } 0x1234).1 (by norm_num)).1,
    congrArg Prod.fst
      ((read_write_roundtrip { mem := fun _ => 0, ptr := 10 } 0x12345678).2.1 (by norm_num)).1,
    congrArg Prod.fst
      ((read_write_roundtrip { mem := fun _ => 0, ptr := 10 } 0x0123456789ABCDEF).2.2
        (by norm_num)).1,
    congrArg (fun r => r.2.ptr)
      ((read_write_roundtrip { mem := fun _ => 0, ptr := 10 } 0x0123456789ABCDEF).2.2
        (by norm_num)).1⟩

/-- C17: the big-endian layout.  For every value `v`, byte `k` (counted from 0)
of what `write16`, `write32`, `write64` emit is `(v >> (N - 8 - 8k)) & 0xFF`
for `N` = 16, 32, 64: the most significant byte comes first. -/
theorem write_bigEndian (b : Buffer) (v : Nat) :
    (∀ k, k < 2 → (write16 b v).mem (b.ptr + k) = (v >>> (16 - 8 - 8 * k)) &&& 0xFF) ∧
    (∀ k, k < 4 → (write32 b v).mem (b.ptr + k) = (v >>> (32 - 8 - 8 * k)) &&& 0xFF) ∧
    (∀ k, k < 8 → (write64 b v).mem (b.ptr + k) = (v >>> (64 - 8 - 8 * k)) &&& 0xFF) := by
  refine ⟨?_, ?_, ?_⟩
  · intro k hk
    rw [write16_mem, land_ff]
    interval_cases k <;> simp
  · intro k hk
    rw [write32_mem, land_ff]
    interval_cases k <;> simp
  · intro k hk
    rw [write64_mem, land_ff]
    interval_cases k <;> simp

/-- C17 witness: `write32` of `$12345678` emits `$12`, `$34`, `$56`, `$78`. -/
theorem write_bigEndian_witness :
    (write32 { mem := fun _ => 0, ptr := 10 } 0x12345678).mem (10 + 0) = 0x12 ∧
    (write32 { mem := fun _ => 0, ptr := 10 } 0x12345678).mem (10 + 1) = 0x34 ∧
    (write32 { mem := fun _ => 0, ptr := 10 } 0x12345678).mem (10 + 2) = 0x56 ∧
    (write32 { mem := fun _ => 0, ptr := 10 } 0x12345678).mem (10 + 3) = 0x78 :=
  ⟨((write_bigEndian { mem := fun _ => 0, ptr := 10 } 0x12345678).2.1 0 (by norm_num)).trans
      (by decide),
    ((write_bigEndian { mem := fun _ => 0, ptr := 10 } 0x12345678).2.1 1 (by norm_num)).trans
      (by decide),
    ((write_bigEndian { mem := fun _ => 0, ptr := 10 } 0x12345678).2.1 2 (by norm_num)).trans
      (by decide),
    ((write_bigEndian { mem := fun _ => 0, ptr := 10 } 0x12345678).2.1 3 (by norm_num)).trans
      (by decide)⟩

/-! ## CPU snapshot: theorems -/

namespace CPU

/-- The search loop of `saveToBuffer` finds the first entry equal to `next`
when such an entry exists at a 16-bit index `j` that no `NULL` entry
precedes. -/
theorem saveToBufferLoop_first (callbacks : Nat → Nat) (next j : Nat) (hj16 : j < 65536)
    (hj : callbacks j = next) (hnull : ∀ k, k ≤ j → callbacks k ≠ 0) :
    ∀ fuel i, i ≤ j → j - i < fuel →
      ∃ r, saveToBufferLoop callbacks next fuel i = some r ∧ i ≤ r ∧ r ≤ j ∧
        callbacks r = next ∧ ∀ k, i ≤ k → k < r → callbacks k ≠ next := by
  intro fuel
  induction fuel with
  | zero => intro i _ hlt; omega
  | succ fuel ih =>
    intro i hi hlt
    simp only [saveToBufferLoop, if_neg (hnull i hi)]
    by_cases hnext : callbacks i = next
    · rw [if_pos hnext]
      exact ⟨i, rfl, le_refl i, hi, hnext, fun k h1 h2 => by omega⟩
    · rw [if_neg hnext]
      have hij : i ≠ j := fun h => hnext (h ▸ hj)
      have hwrap : (i + 1) % 2 ^ 16 = i + 1 := Nat.mod_eq_of_lt (by omega)
      rw [hwrap]
      obtain ⟨r, hr, h1, h2, h3, h4⟩ := ih (i + 1) (by omega) (by omega)
      refine ⟨r, hr, by omega, h2, h3, ?_⟩
      intro k hk1 hk2
      by_cases hki : k = i
      · rw [hki]; exact hnext
      · exact h4 k (by omega) hk2

/-- C15: the snapshot round trip of the micro-step pointer.  Let `next` occur
in the table `callbacks` at an index `j` that no `NULL` entry precedes (`j` a
16-bit index, as the loop counter is), and let the base class write
`baseSize` bytes and read as many.  Then `saveToBuffer` returns; after the
base state it writes the first index `i` with `callbacks[i] == next` as two
bytes, high byte first; it appends exactly 2 bytes, so that the pointer
advances by `stateSize()`, the base size plus 2; and `loadFromBuffer` on the
bytes produced restores the same `next`. -/
theorem snapshot_next_roundtrip (callbacks : Nat → Nat)
    (baseSave : Buffer → Buffer) (baseLoad : CPU → Buffer → CPU × Buffer) (baseSize : Nat)
    (c c0 : CPU) (buffer : Buffer) (j : Nat)
    (hj16 : j < 65536) (hj : callbacks j = c.next) (hnull : ∀ k, k ≤ j → callbacks k ≠ 0)
    (hsave : ∀ b, (baseSave b).ptr = b.ptr + baseSize)
    (hload : ∀ d b, (baseLoad d b).2 = { mem := b.mem, ptr := b.ptr + baseSize }) :
    ∃ i out, saveToBuffer callbacks baseSave c buffer = some out ∧
      callbacks i = c.next ∧ (∀ k, k < i → callbacks k ≠ c.next) ∧
      out = write16 (baseSave buffer) i ∧
      out.mem (buffer.ptr + baseSize) = (i >>> 8) &&& 0xFF ∧
      out.mem (buffer.ptr + baseSize + 1) = i &&& 0xFF ∧
      out.ptr = (baseSave buffer).ptr + 2 ∧
      out.ptr = buffer.ptr + stateSize baseSize ∧
      (loadFromBuffer callbacks baseLoad c0 { mem := out.mem, ptr := buffer.ptr }).1.next
        = c.next ∧
      (loadFromBuffer callbacks baseLoad c0 { mem := out.mem, ptr := buffer.ptr }).2.ptr
        = buffer.ptr + stateSize baseSize := by
  obtain ⟨i, hi, _, hij, hnext, hfirst⟩ :=
    saveToBufferLoop_first callbacks c.next j hj16 hj hnull 65536 0 (Nat.zero_le j) (by omega)
  have hi16 : i < 2 ^ 16 := by omega
  have hread : read16 { mem := (write16 (baseSave buffer) i).mem, ptr := buffer.ptr + baseSize }
      = (i, { mem := (write16 (baseSave buffer) i).mem, ptr := buffer.ptr + baseSize + 2 }) := by
    have h := read16_written (write16 (baseSave buffer) i).mem (baseSave buffer) i hi16 rfl rfl
    rw [hsave] at h
    exact h
  refine ⟨i, write16 (baseSave buffer) i, ?_, hnext, fun k hk => hfirst k (Nat.zero_le k) hk,
    rfl, ?_, ?_, rfl, ?_, ?_, ?_⟩
  · simp only [saveToBuffer, hi]
  · rw [write16_mem, hsave, if_pos rfl, land_ff]
  · rw [write16_mem, hsave, if_neg (by omega), if_pos rfl, land_ff]
  · rw [write16_ptr, hsave, stateSize]
    omega
  · simp only [loadFromBuffer, hload, hread]
    exact hnext
  · simp only [loadFromBuffer, hload, hread, stateSize]
    omega

/-- C15 witness: a table with the entries 11, 12, 13 and the terminator, a base
class that stores nothing, and `next = 13`, found at index 2. -/
theorem snapshot_next_roundtrip_witness :
    ∃ i out, saveToBuffer (fun k => if k < 3 then k + 11 else 0) (fun b => b)
        { cleared with next := 13 } { mem := fun _ => 0, ptr := 0 } = some out ∧
      (fun k => if k < 3 then k + 11 else 0) i = 13 ∧
      out.ptr = 0 + stateSize 0 ∧
      (loadFromBuffer (fun k => if k < 3 then k + 11 else 0)
        (fun d b => (d, { mem := b.mem, ptr := b.ptr + 0 }))
        cleared { mem := out.mem, ptr := 0 }).1.next = 13 := by
  obtain ⟨i, out, h1, h2, _, _, _, _, _, h3, h4, _⟩ :=
    snapshot_next_roundtrip (fun k => if k < 3 then k + 11 else 0) (fun b => b)
      (fun d b => (d, { mem := b.mem, ptr := b.ptr + 0 })) 0
      { cleared with next := 13 } cleared { mem := fun _ => 0, ptr := 0 } 2
      (by norm_num) (by decide) (by
        intro k hk
        have hk3 : k < 3 := by omega
        simp [hk3])
      (fun _ => rfl) (fun _ _ => rfl)
  exact ⟨i, out, h1, h2, h3, h4⟩

end CPU

/-! ## FNV-1a checksums: theorems -/

/-- The loop of `fnv_1a_32` folds the iteration over the bytes it visits. -/
theorem fnv_1a_32_loop_eq (addr : Nat → Nat) (n i hash : Nat) :
    fnv_1a_32_loop addr n i hash
      = ((List.range' i n).map addr).foldl
          (fun h b => ((h ^^^ b) * 0x1000193) % 2 ^ 32) hash := by
  induction n generalizing i hash with
  | zero => rfl
  | succ n ih =>
    rw [fnv_1a_32_loop, ih, List.range'_succ, List.map_cons, List.foldl_cons]
    rfl

/-- The loop of `fnv_1a_64` folds the iteration over the bytes it visits. -/
theorem fnv_1a_64_loop_eq (addr : Nat → Nat) (n i hash : Nat) :
    fnv_1a_64_loop addr n i hash
      = ((List.range' i n).map addr).foldl
          (fun h b => ((h ^^^ b) * 0x100000001b3) % 2 ^ 64) hash := by
  induction n generalizing i hash with
  | zero => rfl
  | succ n ih =>
    rw [fnv_1a_64_loop, ih, List.range'_succ, List.map_cons, List.foldl_cons]
    rfl

/-- The bytes of a buffer that starts at offset `start` of a memory. -/
theorem region_offset (mem : Nat → Nat) (start n : Nat) :
    region (fun i => mem (start + i)) 0 n = region mem start n := by
  simp only [region, Nat.zero_add]

/-- The code of `fnv_1a_64` on a non-empty buffer, against the specification. -/
theorem fnv_1a_64_eq_spec (addr : Nat → Nat) (size : Nat) (hsize : size ≠ 0) :
    fnv_1a_64 (some addr) size = fnv1a64Spec (region addr 0 size) := by
  simp only [fnv_1a_64, if_neg hsize, fnv_1a_64_loop_eq, fnv1a64Spec, region,
    List.range_eq_range', Nat.zero_add]
  rfl

/-- The code of `fnv_1a_32` on a non-empty buffer, against the specification. -/
theorem fnv_1a_32_eq_spec (addr : Nat → Nat) (size : Nat) (hsize : size ≠ 0) :
    fnv_1a_32 (some addr) size = fnv1a32Spec (region addr 0 size) := by
  simp only [fnv_1a_32, if_neg hsize, fnv_1a_32_loop_eq, fnv1a32Spec, region,
    List.range_eq_range', Nat.zero_add]
  rfl

/-- A byte sequence is the region that a buffer holding it spans. -/
theorem region_getD (bytes : List Nat) :
    region (fun i => bytes.getD i 0) 0 bytes.length = bytes := by
  apply List.ext_getElem
  · simp [region]
  · intro i h1 h2
    simp [region, h2]

/-- C18: for every non-empty byte sequence, `fnv_1a_64` of a buffer that holds
it equals the 64-bit FNV-1a hash of the sequence (seed `0xcbf29ce484222325`,
and `h := ((h XOR b) * 0x100000001b3) mod 2^64` for each byte `b` in order),
and `fnv_1a_32` equals the 32-bit hash (seed `0x811c9dc5`, prime `0x1000193`,
arithmetic modulo `2^32`). -/
theorem fnv_1a_spec (bytes : List Nat) (hne : bytes ≠ []) :
    fnv_1a_64 (some (fun i => bytes.getD i 0)) bytes.length = fnv1a64Spec bytes ∧
    fnv_1a_32 (some (fun i => bytes.getD i 0)) bytes.length = fnv1a32Spec bytes := by
  have hlen : bytes.length ≠ 0 := fun h => hne (List.length_eq_zero.mp h)
  rw [fnv_1a_64_eq_spec _ _ hlen, fnv_1a_32_eq_spec _ _ hlen, region_getD]
  exact ⟨rfl, rfl⟩

/-- C18 witness: the one-byte sequence `a` (`$61`), whose 64-bit hash is
`0xaf63dc4c8601ec8c` and whose 32-bit hash is `0xe40c292c`. -/
theorem fnv_1a_spec_witness :
    fnv_1a_64 (some (fun i => [0x61].getD i 0)) [0x61].length = fnv1a64Spec [0x61] ∧
    fnv_1a_32 (some (fun i => [0x61].getD i 0)) [0x61].length = fnv1a32Spec [0x61] ∧
    fnv1a64Spec [0x61] = 0xaf63dc4c8601ec8c ∧ fnv1a32Spec [0x61] = 0xe40c292c :=
  ⟨(fnv_1a_spec [0x61] (by decide)).1, (fnv_1a_spec [0x61] (by decide)).2,
    by decide, by decide⟩

/-! ## ROM fingerprints: theorems -/

namespace C64Memory

/-- The OR of two bytes is zero exactly when both are. -/
theorem lor_eq_zero_iff (a b : Nat) : a ||| b = 0 ↔ a = 0 ∧ b = 0 := by
  constructor
  · intro h
    have hbits : ∀ k, a.testBit k = false ∧ b.testBit k = false := by
      intro k
      have hk : (a ||| b).testBit k = false := by rw [h]; exact Nat.zero_testBit k
      rw [Nat.testBit_or] at hk
      simpa only [Bool.or_eq_false_iff] using hk
    constructor
    · apply Nat.eq_of_testBit_eq
      intro k
      rw [(hbits k).1, Nat.zero_testBit]
    · apply Nat.eq_of_testBit_eq
      intro k
      rw [(hbits k).2, Nat.zero_testBit]
  · rintro ⟨ha, hb⟩
    rw [ha, hb]
    rfl

/-- A guarded fingerprint: 0 when the first two bytes of the region are zero,
and the FNV-1a-64 hash of the region otherwise. -/
theorem fingerprint_eq (rom : Nat → Nat) (start n : Nat) (hn : n ≠ 0) :
    (if ((rom start ||| rom (start + 1)) != 0x00) = true
      then fnv_1a_64 (some (fun i => rom (start + i))) n else 0)
      = if rom start = 0 ∧ rom (start + 1) = 0 then 0
        else fnv1a64Spec (region rom start n) := by
  rw [fnv_1a_64_eq_spec _ _ hn, region_offset]
  by_cases h : rom start = 0 ∧ rom (start + 1) = 0
  · rw [if_pos h, if_neg]
    simp [(lor_eq_zero_iff _ _).mpr h]
  · rw [if_neg h, if_pos]
    simpa [lor_eq_zero_iff] using h

/-- Memories that agree on a region have the same bytes there. -/
theorem region_congr (rom1 rom2 : Nat → Nat) (start n : Nat)
    (h : ∀ a, start ≤ a → a < start + n → rom2 a = rom1 a) :
    region rom2 start n = region rom1 start n := by
  apply List.map_congr_left
  intro i hi
  rw [List.mem_range] at hi
  exact h (start + i) (by omega) (by omega)

/-- The Basic ROM fingerprint, in closed form. -/
theorem basicRomFingerprint_eq (m : C64Memory) :
    m.basicRomFingerprint = if m.rom 0xA000 = 0 ∧ m.rom 0xA001 = 0 then 0
      else fnv1a64Spec (region m.rom 0xA000 0x2000) :=
  fingerprint_eq m.rom 0xA000 0x2000 (by norm_num)

/-- The Character ROM fingerprint, in closed form. -/
theorem characterRomFingerprint_eq (m : C64Memory) :
    m.characterRomFingerprint = if m.rom 0xD000 = 0 ∧ m.rom 0xD001 = 0 then 0
      else fnv1a64Spec (region m.rom 0xD000 0x1000) :=
  fingerprint_eq m.rom 0xD000 0x1000 (by norm_num)

/-- The Kernal ROM fingerprint, in closed form. -/
theorem kernalRomFingerprint_eq (m : C64Memory) :
    m.kernalRomFingerprint = if m.rom 0xE000 = 0 ∧ m.rom 0xE001 = 0 then 0
      else fnv1a64Spec (region m.rom 0xE000 0x2000) :=
  fingerprint_eq m.rom 0xE000 0x2000 (by norm_num)

/-- C19: the ROM fingerprints.  Each of `basicRomFingerprint()`,
`characterRomFingerprint()` and `kernalRomFingerprint()` is 0 when the first
two bytes of its region are both zero, and otherwise the FNV-1a-64 hash of
exactly its region (`$A000` length `$2000`, `$D000` length `$1000`, `$E000`
length `$2000`); a memory that agrees with this one on a region has the same
fingerprint for it; and after `deleteBasicRom()` the Basic fingerprint is 0
while the bytes from `$D000` to `$FFFF`, and with them the Character and
Kernal fingerprints, are unchanged. -/
theorem romFingerprint_spec (m : C64Memory) :
    (m.rom 0xA000 = 0 ∧ m.rom 0xA001 = 0 → m.basicRomFingerprint = 0) ∧
    (m.rom 0xD000 = 0 ∧ m.rom 0xD001 = 0 → m.characterRomFingerprint = 0) ∧
    (m.rom 0xE000 = 0 ∧ m.rom 0xE001 = 0 → m.kernalRomFingerprint = 0) ∧
    (¬ (m.rom 0xA000 = 0 ∧ m.rom 0xA001 = 0) →
      m.basicRomFingerprint = fnv1a64Spec (region m.rom 0xA000 0x2000)) ∧
    (¬ (m.rom 0xD000 = 0 ∧ m.rom 0xD001 = 0) →
      m.characterRomFingerprint = fnv1a64Spec (region m.rom 0xD000 0x1000)) ∧
    (¬ (m.rom 0xE000 = 0 ∧ m.rom 0xE001 = 0) →
      m.kernalRomFingerprint = fnv1a64Spec (region m.rom 0xE000 0x2000)) ∧
    (∀ m2 : C64Memory, (∀ a, 0xA000 ≤ a → a < 0xA000 + 0x2000 → m2.rom a = m.rom a) →
      m2.basicRomFingerprint = m.basicRomFingerprint) ∧
    (∀ m2 : C64Memory, (∀ a, 0xD000 ≤ a → a < 0xD000 + 0x1000 → m2.rom a = m.rom a) →
      m2.characterRomFingerprint = m.characterRomFingerprint) ∧
    (∀ m2 : C64Memory, (∀ a, 0xE000 ≤ a → a < 0xE000 + 0x2000 → m2.rom a = m.rom a) →
      m2.kernalRomFingerprint = m.kernalRomFingerprint) ∧
    m.deleteBasicRom.basicRomFingerprint = 0 ∧
    (∀ a, 0xD000 ≤ a → a < 0x10000 → m.deleteBasicRom.rom a = m.rom a) ∧
    m.deleteBasicRom.characterRomFingerprint = m.characterRomFingerprint ∧
    m.deleteBasicRom.kernalRomFingerprint = m.kernalRomFingerprint := by
  have hdel : ∀ a, 0xC000 ≤ a → m.deleteBasicRom.rom a = m.rom a := by
    intro a ha
    simp only [deleteBasicRom, memset]
    rw [if_neg (by omega)]
  refine ⟨?_, ?_, ?_, ?_, ?_, ?_, ?_, ?_, ?_, ?_, ?_, ?_, ?_⟩
  · intro h
    rw [basicRomFingerprint_eq, if_pos h]
  · intro h
    rw [characterRomFingerprint_eq, if_pos h]
  · intro h
    rw [kernalRomFingerprint_eq, if_pos h]
  · intro h
    rw [basicRomFingerprint_eq, if_neg h]
  · intro h
    rw [characterRomFingerprint_eq, if_neg h]
  · intro h
    rw [kernalRomFingerprint_eq, if_neg h]
  · intro m2 h
    rw [basicRomFingerprint_eq, basicRomFingerprint_eq, region_congr m.rom m2.rom _ _ h,
      h 0xA000 (by norm_num) (by norm_num), h 0xA001 (by norm_num) (by norm_num)]
  · intro m2 h
    rw [characterRomFingerprint_eq, characterRomFingerprint_eq,
      region_congr m.rom m2.rom _ _ h,
      h 0xD000 (by norm_num) (by norm_num), h 0xD001 (by norm_num) (by norm_num)]
  · intro m2 h
    rw [kernalRomFingerprint_eq, kernalRomFingerprint_eq, region_congr m.rom m2.rom _ _ h,
      h 0xE000 (by norm_num) (by norm_num), h 0xE001 (by norm_num) (by norm_num)]
  · rw [basicRomFingerprint_eq, if_pos]
    constructor <;> simp [deleteBasicRom, memset]
  · intro a ha _
    exact hdel a (by omega)
  · rw [characterRomFingerprint_eq, characterRomFingerprint_eq,
      region_congr m.rom m.deleteBasicRom.rom _ _ (fun a ha _ => hdel a (by omega)),
      hdel 0xD000 (by norm_num), hdel 0xD001 (by norm_num)]
  · rw [kernalRomFingerprint_eq, kernalRomFingerprint_eq,
      region_congr m.rom m.deleteBasicRom.rom _ _ (fun a ha _ => hdel a (by omega)),
      hdel 0xE000 (by norm_num), hdel 0xE001 (by norm_num)]

/-- C19 witness: a memory without ROMs has the Basic fingerprint 0; a memory
whose ROM cells all hold `$94` has the hash of its Basic region as
fingerprint, shares it with a memory that differs in RAM only, and loses it
to `deleteBasicRom()`. -/
theorem romFingerprint_spec_witness :
    ({ ram := fun _ => 0, colorRam := fun _ => 0, rom := fun _ => 0 }
      : C64Memory).basicRomFingerprint = 0 ∧
    ({ ram := fun _ => 0, colorRam := fun _ => 0, rom := fun _ => 0x94 }
      : C64Memory).basicRomFingerprint
      = fnv1a64Spec (region (fun _ => 0x94) 0xA000 0x2000) ∧
    ({ ram := fun _ => 1, colorRam := fun _ => 0, rom := fun _ => 0x94 }
      : C64Memory).basicRomFingerprint
      = ({ ram := fun _ => 0, colorRam := fun _ => 0, rom := fun _ => 0x94 }
      : C64Memory).basicRomFingerprint ∧
    ({ ram := fun _ => 0, colorRam := fun _ => 0, rom := fun _ => 0x94 }
      : C64Memory).deleteBasicRom.basicRomFingerprint = 0 :=
  ⟨(romFingerprint_spec { ram := fun _ => 0, colorRam := fun _ => 0, rom := fun _ => 0 }).1
      ⟨rfl, rfl⟩,
    (romFingerprint_spec
      { ram := fun _ => 0, colorRam := fun _ => 0, rom := fun _ => 0x94 }).2.2.2.1
      (by decide),
    (romFingerprint_spec
      { ram := fun _ => 0, colorRam := fun _ => 0, rom := fun _ => 0x94 }).2.2.2.2.2.2.1
      { ram := fun _ => 1, colorRam := fun _ => 0, rom := fun _ => 0x94 }
      (fun _ _ _ => rfl),
    (romFingerprint_spec
      { ram := fun _ => 0, colorRam := fun _ => 0, rom := fun _ => 0x94 }).2.2.2.2.2.2.2.2.2.1⟩

end C64Memory

/-! ## VIC-II raster interrupt: theorems -/

namespace VIC

/-- Counting the raster interrupts after one more call. -/
theorem rasterIrqCount_call (v : VIC) (c : VICCall) :
    (v.call c).rasterIrqCount = v.rasterIrqCount + if c = .triggerIRQ 1 then 1 else 0 := by
  simp only [rasterIrqCount, call, List.count_append, List.count_singleton, beq_iff_eq]

/-- `cycle1pal` leaves `yCounter` alone. -/
theorem cycle1pal_yCounter (inp : VICInputs) (v : VIC) :
    (cycle1pal inp v).yCounter = v.yCounter := by
  simp only [cycle1pal, call]
  split_ifs <;> rfl

/-- `cycle1pal` latches whether `yCounter` matches the compare value. -/
theorem cycle1pal_latch (inp : VICInputs) (v : VIC) :
    (cycle1pal inp v).yCounterEqualsIrqRasterline
      = (v.yCounter == inp.rasterInterruptLine) := by
  simp only [cycle1pal, call]
  split_ifs <;> rfl

/-- `cycle1pal` raises the raster interrupt when the rasterline is not 0,
`yCounter` matches the compare value and the latch is clear. -/
theorem cycle1pal_count (inp : VICInputs) (v : VIC) :
    (cycle1pal inp v).rasterIrqCount = v.rasterIrqCount +
      if inp.rasterline ≠ 0 ∧ v.yCounter = inp.rasterInterruptLine ∧
        v.yCounterEqualsIrqRasterline = false then 1 else 0 := by
  by_cases h : inp.rasterline ≠ 0 ∧ v.yCounter = inp.rasterInterruptLine ∧
      v.yCounterEqualsIrqRasterline = false
  · rw [if_pos h]
    obtain ⟨h1, h2, h3⟩ := h
    by_cases hs : inp.verticalFrameFFsetCond = true <;>
      simp [cycle1pal, call, rasterIrqCount, List.count_append, List.count_cons, h1, h2, h3, hs]
  · rw [if_neg h]
    have hcond : ((inp.rasterline != 0) &&
        (v.yCounter == inp.rasterInterruptLine && !v.yCounterEqualsIrqRasterline)) = false := by
      by_contra hne
      rw [Bool.not_eq_false] at hne
      simp only [Bool.and_eq_true, bne_iff_ne, beq_iff_eq, Bool.not_eq_true'] at hne
      exact h hne
    by_cases hs : inp.verticalFrameFFsetCond = true <;>
      simp [cycle1pal, call, rasterIrqCount, List.count_append, List.count_cons, hcond, hs]

/-- `cycle2pal` resets `yCounter` on overflow and leaves it alone otherwise. -/
theorem cycle2pal_yCounter (inp : VICInputs) (v : VIC) :
    (cycle2pal inp v).yCounter = if inp.yCounterOverflow = true then 0 else v.yCounter := by
  simp only [cycle2pal, call]
  split_ifs <;> rfl

/-- `cycle2pal` does not write the latch. -/
theorem cycle2pal_latch (inp : VICInputs) (v : VIC) :
    (cycle2pal inp v).yCounterEqualsIrqRasterline = v.yCounterEqualsIrqRasterline := by
  simp only [cycle2pal, call]
  split_ifs <;> rfl

/-- `cycle2pal` raises the raster interrupt when `yCounter`, after the
overflow check, is 0 and matches the compare value, and the latch is clear. -/
theorem cycle2pal_count (inp : VICInputs) (v : VIC) :
    (cycle2pal inp v).rasterIrqCount = v.rasterIrqCount +
      if (if inp.yCounterOverflow = true then 0 else v.yCounter) = 0 ∧
        inp.rasterInterruptLine = 0 ∧ v.yCounterEqualsIrqRasterline = false then 1 else 0 := by
  by_cases ho : inp.yCounterOverflow = true
  · simp only [cycle2pal, ho, if_true, call, rasterIrqCount]
    by_cases hc : inp.rasterInterruptLine = 0
    · by_cases hl : v.yCounterEqualsIrqRasterline = false
      · simp [hc, hl, List.count_append, List.count_cons]
      · simp [hc, hl, List.count_append, List.count_cons]
    · have hc2 : ¬ 0 = inp.rasterInterruptLine := fun h => hc h.symm
      simp [hc, hc2, List.count_append, List.count_cons]
  · simp only [cycle2pal, ho, call, rasterIrqCount]
    by_cases hy : v.yCounter = 0
    · by_cases hc : inp.rasterInterruptLine = 0
      · by_cases hl : v.yCounterEqualsIrqRasterline = false
        · simp [hy, hc, hl, List.count_append, List.count_cons]
        · simp [hy, hc, hl, List.count_append, List.count_cons]
      · have hc2 : ¬ 0 = inp.rasterInterruptLine := fun h => hc h.symm
        simp [hy, hc, hc2, List.count_append, List.count_cons]
    · simp [hy, List.count_append, List.count_cons]

/-- Line 0 of a PAL frame: `yCounter` is reset to 0, the latch records whether
the old `yCounter` matched, and the raster interrupt is raised (in cycle 2)
exactly when the compare value is 0 and the old `yCounter` was not. -/
theorem palLine_zero (compare : Nat) (setCond : Bool) (v : VIC) :
    (palLine compare setCond 0 v).yCounter = 0 ∧
    (palLine compare setCond 0 v).yCounterEqualsIrqRasterline = (v.yCounter == compare) ∧
    (palLine compare setCond 0 v).rasterIrqCount
      = v.rasterIrqCount + if compare = 0 ∧ v.yCounter ≠ 0 then 1 else 0 := by
  refine ⟨?_, ?_, ?_⟩
  · simp [palLine, cycle2pal_yCounter]
  · simp [palLine, cycle2pal_latch, cycle1pal_latch]
  · simp only [palLine, if_true, cycle2pal_count, cycle1pal_count, cycle1pal_latch]
    by_cases hc : compare = 0
    · by_cases hy : v.yCounter = 0 <;> simp [hc, hy]
    · simp [hc]

/-- A later line of a PAL frame: `yCounter` advances by one, the latch records
whether the new `yCounter` matches, and the raster interrupt is raised (in
cycle 1) exactly when it matches and the latch was clear. -/
theorem palLine_succ (compare : Nat) (setCond : Bool) (line : Nat) (hline : line ≠ 0)
    (v : VIC) :
    (palLine compare setCond line v).yCounter = v.yCounter + 1 ∧
    (palLine compare setCond line v).yCounterEqualsIrqRasterline
      = (v.yCounter + 1 == compare) ∧
    (palLine compare setCond line v).rasterIrqCount
      = v.rasterIrqCount +
        if v.yCounter + 1 = compare ∧ v.yCounterEqualsIrqRasterline = false then 1 else 0 := by
  refine ⟨?_, ?_, ?_⟩
  · simp [palLine, cycle2pal_yCounter, cycle1pal_yCounter, hline]
  · simp [palLine, cycle2pal_latch, cycle1pal_latch, hline]
  · simp only [palLine, if_neg hline, cycle2pal_count, cycle1pal_count, cycle1pal_latch,
      cycle1pal_yCounter]
    simp [hline]
    rfl


/-- The state of the raster interrupt logic after the first `n` lines of a PAL
frame, for `n` at least 1, when the frame is not entered with `yCounter` equal
to a compare value of 0 or 1. -/
theorem palLines_raster (compare : Nat) (setCond : Nat → Bool) (v : VIC)
    (hstart : v.yCounter = compare → 2 ≤ compare) (n : Nat) (hn : 1 ≤ n) :
    (palLines compare setCond n v).yCounter = n - 1 ∧
    (palLines compare setCond n v).yCounterEqualsIrqRasterline
      = ((if n = 1 then v.yCounter else n - 1) == compare) ∧
    (palLines compare setCond n v).rasterIrqCount
      = v.rasterIrqCount + if compare < n then 1 else 0 := by
  induction n, hn using Nat.le_induction with
  | base =>
    obtain ⟨h1, h2, h3⟩ := palLine_zero compare (setCond 0) v
    refine ⟨h1, ?_, ?_⟩
    · show (palLine compare (setCond 0) 0 v).yCounterEqualsIrqRasterline = _
      rw [h2]
      rfl
    · show (palLine compare (setCond 0) 0 v).rasterIrqCount = _
      rw [h3]
      by_cases hc : compare = 0
      · have hy : v.yCounter ≠ 0 := fun h => by
          have := hstart (h.trans hc.symm)
          omega
        simp [hc, hy]
      · have hlt : ¬ compare < 1 := by omega
        simp [hc, hlt]
  | succ n hn ih =>
    obtain ⟨ihy, ihl, ihc⟩ := ih
    have hn0 : n ≠ 0 := by omega
    obtain ⟨h1, h2, h3⟩ := palLine_succ compare (setCond n) n hn0 (palLines compare setCond n v)
    have hy : n - 1 + 1 = n := by omega
    rw [ihy, hy] at h1 h2 h3
    rw [ihl, ihc] at h3
    refine ⟨?_, ?_, ?_⟩
    · show (palLine compare (setCond n) n (palLines compare setCond n v)).yCounter = _
      rw [h1]
      omega
    · show (palLine compare (setCond n) n
        (palLines compare setCond n v)).yCounterEqualsIrqRasterline = _
      rw [h2, if_neg (by omega : ¬ n + 1 = 1)]
      rfl
    · show (palLine compare (setCond n) n (palLines compare setCond n v)).rasterIrqCount = _
      rw [h3]
      by_cases hc : n = compare
      · subst hc
        have hprev : ¬ (if n = 1 then v.yCounter else n - 1) = n := by
          by_cases hn1 : n = 1
          · rw [if_pos hn1]
            intro hv
            have := hstart hv
            omega
          · rw [if_neg hn1]
            omega
        simp [hprev]
      · have hlt : compare < n + 1 ↔ compare < n := by omega
        simp [hc, hlt]

/-- The number of raster interrupts that a PAL frame adds: one for a compare
value below 312, none for a larger one. -/
theorem palFrame_rasterIrqCount (compare : Nat) (setCond : Nat → Bool) (v : VIC)
    (hstart : v.yCounter = compare → 2 ≤ compare) :
    (palFrame compare setCond v).rasterIrqCount
      = v.rasterIrqCount + if compare < 312 then 1 else 0 :=
  (palLines_raster compare setCond v hstart 312 (by norm_num)).2.2

/-- C20, as stated, fails for a compare value that no rasterline reaches: with
the compare value 400 (a 9-bit value, above the last PAL line 311), a frame
entered with `yCounter = 311` and an empty trace raises no raster interrupt
at all, not exactly one. -/
theorem raster_irq_counterexample :
    (palFrame 400 (fun _ => false)
      { yCounter := 311, yCounterEqualsIrqRasterline := false, verticalFrameFF := false,
        spriteDmaOnOff := 0, calls := [] }).rasterIrqCount = 0 ∧
    (palFrame 400 (fun _ => false)
      { yCounter := 311, yCounterEqualsIrqRasterline := false, verticalFrameFF := false,
        spriteDmaOnOff := 0, calls := [] }).rasterIrqCount ≠ 1 := by
  have h := palFrame_rasterIrqCount 400 (fun _ => false)
    { yCounter := 311, yCounterEqualsIrqRasterline := false, verticalFrameFF := false,
      spriteDmaOnOff := 0, calls := [] } (by intro _; norm_num)
  rw [if_neg (by norm_num)] at h
  have h0 : (palFrame 400 (fun _ => false)
      { yCounter := 311, yCounterEqualsIrqRasterline := false, verticalFrameFF := false,
        spriteDmaOnOff := 0, calls := [] }).rasterIrqCount = 0 := h
  exact ⟨h0, by rw [h0]; decide⟩

/-- C20, amended: over one PAL frame in which each rasterline runs `cycle1pal`
and then `cycle2pal` (`yCounter` advancing by one per line and being reset to 0
by the overflow check in cycle 2 of line 0), entered with a `yCounter` that
differs from the compare value when that value is 0 or 1, the raster interrupt
`triggerIRQ(1)` is raised exactly once for every fixed compare value from 0 to
311, and never for a compare value of 312 or more.  The frame ends with
`yCounter = 311`, so that the frame that follows is entered as required. -/
theorem raster_irq_once_per_frame (compare : Nat) (setCond : Nat → Bool) (v : VIC)
    (hstart : v.yCounter = compare → 2 ≤ compare) :
    (compare < 312 →
      (palFrame compare setCond v).rasterIrqCount = v.rasterIrqCount + 1) ∧
    (312 ≤ compare →
      (palFrame compare setCond v).rasterIrqCount = v.rasterIrqCount) ∧
    (palFrame compare setCond v).yCounter = 311 := by
  have h := palFrame_rasterIrqCount compare setCond v hstart
  refine ⟨?_, ?_, (palLines_raster compare setCond v hstart 312 (by norm_num)).1⟩
  · intro hlt
    rw [h, if_pos hlt]
  · intro hge
    rw [h, if_neg (by omega), Nat.add_zero]

/-- C20 witness: with the compare value 100, a frame entered with
`yCounter = 311` and an empty trace raises the raster interrupt once. -/
theorem raster_irq_once_per_frame_witness :
    (palFrame 100 (fun _ => false)
      { yCounter := 311, yCounterEqualsIrqRasterline := false, verticalFrameFF := false,
        spriteDmaOnOff := 0, calls := [] }).rasterIrqCount = 1 :=
  (raster_irq_once_per_frame 100 (fun _ => false)
    { yCounter := 311, yCounterEqualsIrqRasterline := false, verticalFrameFF := false,
      spriteDmaOnOff := 0, calls := [] } (by intro h; exact absurd h (by decide))).1
    (by norm_num)

/-- `cycle1ntsc` latches whether `yCounter` matches the compare value. -/
theorem cycle1ntsc_latch (inp : VICInputs) (v : VIC) :
    (cycle1ntsc inp v).yCounterEqualsIrqRasterline
      = (v.yCounter == inp.rasterInterruptLine) := by
  simp only [cycle1ntsc, call]
  split_ifs <;> rfl

/-- `cycle1ntsc` raises the raster interrupt when the rasterline is not 0,
`yCounter` matches the compare value and the latch is clear. -/
theorem cycle1ntsc_count (inp : VICInputs) (v : VIC) :
    (cycle1ntsc inp v).rasterIrqCount = v.rasterIrqCount +
      if inp.rasterline ≠ 0 ∧ v.yCounter = inp.rasterInterruptLine ∧
        v.yCounterEqualsIrqRasterline = false then 1 else 0 := by
  by_cases h : inp.rasterline ≠ 0 ∧ v.yCounter = inp.rasterInterruptLine ∧
      v.yCounterEqualsIrqRasterline = false
  · rw [if_pos h]
    obtain ⟨h1, h2, h3⟩ := h
    by_cases hs : inp.verticalFrameFFsetCond = true <;>
      simp [cycle1ntsc, call, rasterIrqCount, List.count_append, List.count_cons, h1, h2, h3,
        hs]
  · rw [if_neg h]
    have hcond : ((inp.rasterline != 0) &&
        (v.yCounter == inp.rasterInterruptLine && !v.yCounterEqualsIrqRasterline)) = false := by
      by_contra hne
      rw [Bool.not_eq_false] at hne
      simp only [Bool.and_eq_true, bne_iff_ne, beq_iff_eq, Bool.not_eq_true'] at hne
      exact h hne
    by_cases hs : inp.verticalFrameFFsetCond = true <;>
      simp [cycle1ntsc, call, rasterIrqCount, List.count_append, List.count_cons, hcond, hs]

/-- `cycle2ntsc` resets `yCounter` on overflow and leaves it alone otherwise. -/
theorem cycle2ntsc_yCounter (inp : VICInputs) (v : VIC) :
    (cycle2ntsc inp v).yCounter = if inp.yCounterOverflow = true then 0 else v.yCounter := by
  simp only [cycle2ntsc, call]
  split_ifs <;> rfl

/-- `cycle2ntsc` does not write the latch. -/
theorem cycle2ntsc_latch (inp : VICInputs) (v : VIC) :
    (cycle2ntsc inp v).yCounterEqualsIrqRasterline = v.yCounterEqualsIrqRasterline := by
  simp only [cycle2ntsc, call]
  split_ifs <;> rfl

/-- `cycle2ntsc` raises the raster interrupt when `yCounter`, after the
overflow check, is 0 and matches the compare value, and the latch is clear. -/
theorem cycle2ntsc_count (inp : VICInputs) (v : VIC) :
    (cycle2ntsc inp v).rasterIrqCount = v.rasterIrqCount +
      if (if inp.yCounterOverflow = true then 0 else v.yCounter) = 0 ∧
        inp.rasterInterruptLine = 0 ∧ v.yCounterEqualsIrqRasterline = false then 1 else 0 := by
  by_cases ho : inp.yCounterOverflow = true
  · simp only [cycle2ntsc, ho, if_true, call, rasterIrqCount]
    by_cases hc : inp.rasterInterruptLine = 0
    · by_cases hl : v.yCounterEqualsIrqRasterline = false
      · simp [hc, hl, List.count_append, List.count_cons]
      · simp [hc, hl, List.count_append, List.count_cons]
    · have hc2 : ¬ 0 = inp.rasterInterruptLine := fun h => hc h.symm
      simp [hc, hc2, List.count_append, List.count_cons]
  · simp only [cycle2ntsc, ho, call, rasterIrqCount]
    by_cases hy : v.yCounter = 0
    · by_cases hc : inp.rasterInterruptLine = 0
      · by_cases hl : v.yCounterEqualsIrqRasterline = false
        · simp [hy, hc, hl, List.count_append, List.count_cons]
        · simp [hy, hc, hl, List.count_append, List.count_cons]
      · have hc2 : ¬ 0 = inp.rasterInterruptLine := fun h => hc h.symm
        simp [hy, hc, hc2, List.count_append, List.count_cons]
    · simp [hy, List.count_append, List.count_cons]

/-- The trigger condition of cycle 2, in two equivalent forms. -/
theorem cycle2_cond_iff (y ril : Nat) (latch : Bool) :
    (y = 0 ∧ ril = 0 ∧ latch = false) ↔ (y = 0 ∧ y = ril ∧ latch = false) := by
  constructor
  · rintro ⟨h1, h2, h3⟩
    exact ⟨h1, h1.trans h2.symm, h3⟩
  · rintro ⟨h1, h2, h3⟩
    exact ⟨h1, h2.symm.trans h1, h3⟩

/-- C21: the raster IRQ edge and the special case of line 0.  In cycle 1 (PAL
and NTSC) `triggerIRQ(1)` is called, once, if and only if the current
rasterline is not 0, `yCounter` equals the raster interrupt line and the latch
`yCounterEqualsIrqRasterline` was false, and afterwards the latch is
`yCounter == rasterInterruptLine`.  In cycle 2 (PAL and NTSC) it is called,
once, if and only if `yCounter` after the overflow reset is 0, equals the
raster interrupt line, and the latch is false, and the latch is left as it
was.  Hence on rasterline 0 the compare never fires in cycle 1. -/
theorem raster_irq_edge (inp : VICInputs) (v : VIC) :
    ((cycle1pal inp v).rasterIrqCount = v.rasterIrqCount +
        (if inp.rasterline ≠ 0 ∧ v.yCounter = inp.rasterInterruptLine ∧
          v.yCounterEqualsIrqRasterline = false then 1 else 0) ∧
      (cycle1pal inp v).yCounterEqualsIrqRasterline
        = decide (v.yCounter = inp.rasterInterruptLine)) ∧
    ((cycle1ntsc inp v).rasterIrqCount = v.rasterIrqCount +
        (if inp.rasterline ≠ 0 ∧ v.yCounter = inp.rasterInterruptLine ∧
          v.yCounterEqualsIrqRasterline = false then 1 else 0) ∧
      (cycle1ntsc inp v).yCounterEqualsIrqRasterline
        = decide (v.yCounter = inp.rasterInterruptLine)) ∧
    ((cycle2pal inp v).yCounter = (if inp.yCounterOverflow = true then 0 else v.yCounter) ∧
      (cycle2pal inp v).rasterIrqCount = v.rasterIrqCount +
        (if (cycle2pal inp v).yCounter = 0 ∧
          (cycle2pal inp v).yCounter = inp.rasterInterruptLine ∧
          v.yCounterEqualsIrqRasterline = false then 1 else 0) ∧
      (cycle2pal inp v).yCounterEqualsIrqRasterline = v.yCounterEqualsIrqRasterline) ∧
    ((cycle2ntsc inp v).yCounter = (if inp.yCounterOverflow = true then 0 else v.yCounter) ∧
      (cycle2ntsc inp v).rasterIrqCount = v.rasterIrqCount +
        (if (cycle2ntsc inp v).yCounter = 0 ∧
          (cycle2ntsc inp v).yCounter = inp.rasterInterruptLine ∧
          v.yCounterEqualsIrqRasterline = false then 1 else 0) ∧
      (cycle2ntsc inp v).yCounterEqualsIrqRasterline = v.yCounterEqualsIrqRasterline) ∧
    (inp.rasterline = 0 →
      (cycle1pal inp v).rasterIrqCount = v.rasterIrqCount ∧
      (cycle1ntsc inp v).rasterIrqCount = v.rasterIrqCount) := by
  have hbeq : ∀ a b : Nat, (a == b) = decide (a = b) := by
    intro a b
    rw [Bool.eq_iff_iff]
    simp
  refine ⟨⟨cycle1pal_count inp v, ?_⟩, ⟨cycle1ntsc_count inp v, ?_⟩, ⟨cycle2pal_yCounter inp v, ?_,
    cycle2pal_latch inp v⟩, ⟨cycle2ntsc_yCounter inp v, ?_, cycle2ntsc_latch inp v⟩, ?_⟩
  · rw [cycle1pal_latch, hbeq]
  · rw [cycle1ntsc_latch, hbeq]
  · rw [cycle2pal_count, cycle2pal_yCounter]
    simp only [cycle2_cond_iff]
  · rw [cycle2ntsc_count, cycle2ntsc_yCounter]
    simp only [cycle2_cond_iff]
  · intro h0
    rw [cycle1pal_count, cycle1ntsc_count, if_neg (fun h => h.1 h0)]
    exact ⟨rfl, rfl⟩

/-- C21 witness: on rasterline 0 with `yCounter` equal to the compare value 311
and the latch clear, neither cycle 1 raises the raster interrupt. -/
theorem raster_irq_edge_witness :
    (cycle1pal
      { rasterline := 0, rasterInterruptLine := 311, yCounterOverflow := true,
        verticalFrameFFsetCond := false }
      { yCounter := 311, yCounterEqualsIrqRasterline := false, verticalFrameFF := false,
        spriteDmaOnOff := 0, calls := [] }).rasterIrqCount = 0 ∧
    (cycle1ntsc
      { rasterline := 0, rasterInterruptLine := 311, yCounterOverflow := true,
        verticalFrameFFsetCond := false }
      { yCounter := 311, yCounterEqualsIrqRasterline := false, verticalFrameFF := false,
        spriteDmaOnOff := 0, calls := [] }).rasterIrqCount = 0 :=
  (raster_irq_edge
    { rasterline := 0, rasterInterruptLine := 311, yCounterOverflow := true,
      verticalFrameFFsetCond := false }
    { yCounter := 311, yCounterEqualsIrqRasterline := false, verticalFrameFF := false,
      spriteDmaOnOff := 0, calls := [] }).2.2.2.2 rfl

/-- The BA requests of a trace made of two parts. -/
theorem baRequests_append (l1 l2 : List VICCall) :
    baRequests (l1 ++ l2) = baRequests l1 ++ baRequests l2 := by
  induction l1 with
  | nil => rfl
  | cons c cs ih => cases c <;> simp [baRequests, ih]

/-- The bits of the mask of a set of sprites, on top of a start value. -/
theorem testBit_foldl_mask (sprites : List Nat) (m k : Nat) :
    (sprites.foldl (fun m n => m ||| (1 <<< n)) m).testBit k
      = (m.testBit k || decide (k ∈ sprites)) := by
  induction sprites generalizing m with
  | nil => simp
  | cons n ns ih =>
    rw [List.foldl_cons, ih, Nat.testBit_or, Nat.one_shiftLeft, Nat.testBit_two_pow]
    by_cases hk : n = k
    · subst hk
      simp
    · have hk2 : ¬ k = n := fun h => hk h.symm
      simp [hk, hk2]

/-- Bit `k` of the mask of a set of sprites is set exactly for the members. -/
theorem testBit_spriteMask (sprites : List Nat) (k : Nat) :
    (spriteMask sprites).testBit k = decide (k ∈ sprites) := by
  rw [spriteMask, testBit_foldl_mask, Nat.zero_testBit, Bool.false_or]

/-- A masked value is non-zero exactly when a sprite of the set has its bit
set in the value. -/
theorem land_spriteMask_ne_zero (x : Nat) (sprites : List Nat) :
    x &&& spriteMask sprites ≠ 0 ↔ ∃ n, n ∈ sprites ∧ x.testBit n = true := by
  constructor
  · intro h
    obtain ⟨k, hk⟩ := Nat.ne_zero_implies_bit_true h
    rw [Nat.testBit_and, testBit_spriteMask] at hk
    simp only [Bool.and_eq_true, decide_eq_true_eq] at hk
    exact ⟨k, hk.2, hk.1⟩
  · rintro ⟨n, hn, hx⟩ h0
    have hbit : (x &&& spriteMask sprites).testBit n = true := by
      rw [Nat.testBit_and, testBit_spriteMask, hx]
      simp [hn]
    rw [h0, Nat.zero_testBit] at hbit
    exact Bool.false_ne_true hbit

/-- The BA request of `cycle1pal`. -/
theorem cycle1pal_baRequests (inp : VICInputs) (v : VIC) :
    baRequests (cycle1pal inp v).calls
      = baRequests v.calls ++ [v.spriteDmaOnOff &&& (SPR3 ||| SPR4)] := by
  simp only [cycle1pal, call]
  split_ifs <;> simp [baRequests_append, baRequests]

/-- The BA request of `cycle2pal`. -/
theorem cycle2pal_baRequests (inp : VICInputs) (v : VIC) :
    baRequests (cycle2pal inp v).calls
      = baRequests v.calls ++ [v.spriteDmaOnOff &&& (SPR3 ||| SPR4 ||| SPR5)] := by
  simp only [cycle2pal, call]
  split_ifs <;> simp [baRequests_append, baRequests]

/-- The BA request of `cycle3pal`. -/
theorem cycle3pal_baRequests (v : VIC) :
    baRequests (cycle3pal v).calls
      = baRequests v.calls ++ [v.spriteDmaOnOff &&& (SPR4 ||| SPR5)] := by
  simp [cycle3pal, call, baRequests_append, baRequests]

/-- The BA request of `cycle4pal`. -/
theorem cycle4pal_baRequests (v : VIC) :
    baRequests (cycle4pal v).calls
      = baRequests v.calls ++ [v.spriteDmaOnOff &&& (SPR4 ||| SPR5 ||| SPR6)] := by
  simp [cycle4pal, call, baRequests_append, baRequests]

/-- C22: the BA lead time in the PAL cycles 1 to 4.  With the pointer fetch of
sprite `n` in cycle `P(n) = 2n - 5`, the cycle function of cycle `c` makes one
BA request, `setBAlow(spriteDmaOnOff AND M(c))`, where `M(c)` is the mask of
exactly the sprites `n` with `P(n) - 3 <= c <= P(n) + 1`: sprites 3, 4 in
cycle 1, sprites 3, 4, 5 in cycle 2, sprites 4, 5 in cycle 3 and sprites 4, 5,
6 in cycle 4.  The value requested is non-zero if and only if a sprite of the
set is enabled in `spriteDmaOnOff`. -/
theorem ba_lead_time (inp : VICInputs) (v : VIC) (c : Nat) (h1 : 1 ≤ c) (h4 : c ≤ 4) :
    (∃ w, palCycle c inp v = some w ∧
      baRequests w.calls
        = baRequests v.calls ++ [v.spriteDmaOnOff &&& spriteMask (baSprites c)]) ∧
    (v.spriteDmaOnOff &&& spriteMask (baSprites c) ≠ 0 ↔
      ∃ n, n ∈ baSprites c ∧ v.spriteDmaOnOff.testBit n = true) ∧
    baSprites 1 = [3, 4] ∧ baSprites 2 = [3, 4, 5] ∧
    baSprites 3 = [4, 5] ∧ baSprites 4 = [4, 5, 6] := by
  refine ⟨?_, land_spriteMask_ne_zero _ _, by decide, by decide, by decide, by decide⟩
  have e1 : spriteMask (baSprites 1) = SPR3 ||| SPR4 := by decide
  have e2 : spriteMask (baSprites 2) = SPR3 ||| SPR4 ||| SPR5 := by decide
  have e3 : spriteMask (baSprites 3) = SPR4 ||| SPR5 := by decide
  have e4 : spriteMask (baSprites 4) = SPR4 ||| SPR5 ||| SPR6 := by decide
  interval_cases c
  · exact ⟨_, rfl, by rw [e1]; exact cycle1pal_baRequests inp v⟩
  · exact ⟨_, rfl, by rw [e2]; exact cycle2pal_baRequests inp v⟩
  · exact ⟨_, rfl, by rw [e3]; exact cycle3pal_baRequests v⟩
  · exact ⟨_, rfl, by rw [e4]; exact cycle4pal_baRequests v⟩

/-- C22 witness: in cycle 3, with the sprites 5 and 7 enabled, the request is
`setBAlow($20)`: sprite 5 is in the set of cycle 3. -/
theorem ba_lead_time_witness :
    ∃ w, palCycle 3
        { rasterline := 10, rasterInterruptLine := 0, yCounterOverflow := false,
          verticalFrameFFsetCond := false }
        { yCounter := 10, yCounterEqualsIrqRasterline := false, verticalFrameFF := false,
          spriteDmaOnOff := 0xA0, calls := [] } = some w ∧
      baRequests w.calls = [0x20] := by
  obtain ⟨⟨w, hw, hreq⟩, _⟩ := ba_lead_time
    { rasterline := 10, rasterInterruptLine := 0, yCounterOverflow := false,
      verticalFrameFFsetCond := false }
    { yCounter := 10, yCounterEqualsIrqRasterline := false, verticalFrameFF := false,
      spriteDmaOnOff := 0xA0, calls := [] } 3 (by norm_num) (by norm_num)
  exact ⟨w, hw, hreq.trans (by decide)⟩

end VIC

/-! ## Action Replay and Atomic Power: theorems -/

/-- A source that has been ORed into a line is asserted in it. -/
theorem lor_land_self (a b : Nat) : (a ||| b) &&& b = b := by
  apply Nat.eq_of_testBit_eq
  intro i
  simp only [Nat.testBit_and, Nat.testBit_or]
  cases a.testBit i <;> cases b.testBit i <;> rfl

/-- Masking with `$20` tests bit 5. -/
theorem land_0x20_ne_zero_iff (n : Nat) : n &&& 0x20 ≠ 0 ↔ n.testBit 5 = true := by
  constructor
  · intro h
    obtain ⟨i, hi⟩ := Nat.ne_zero_implies_bit_true h
    rw [Nat.testBit_and] at hi
    have h32 : (0x20 : Nat) = 2 ^ 5 := by norm_num
    rw [h32, Nat.testBit_two_pow] at hi
    simp only [Bool.and_eq_true, decide_eq_true_eq] at hi
    rw [hi.2]
    exact hi.1
  · intro h h0
    have h5 : (n &&& 0x20).testBit 5 = true := by
      rw [Nat.testBit_and, h]
      decide
    rw [h0] at h5
    simp at h5

namespace C64

/-- The call `pullDownNmiLine` with a non-zero source returns; it asserts the
source in the NMI line and leaves the IRQ line, the cycle counter and the
expansion port as they are. -/
theorem pullDownNmiLine_returns (c64 : C64) (source : Nat) (hs : source ≠ 0) :
    ∃ c1, c64.pullDownNmiLine source = some c1 ∧
      c1.expansionport = c64.expansionport ∧ c1.cycles = c64.cycles ∧
      c1.cpu.nmiLine = c64.cpu.nmiLine ||| source ∧ c1.cpu.irqLine = c64.cpu.irqLine := by
  rw [pullDownNmiLine, CPU.setNMILine_eq _ _ _ hs]
  exact ⟨_, rfl, rfl, rfl, rfl, rfl⟩

/-- The call `pullDownIrqLine` with a non-zero source returns; it asserts the
source in the IRQ line and leaves the NMI line, the cycle counter and the
expansion port as they are. -/
theorem pullDownIrqLine_returns (c64 : C64) (source : Nat) (hs : source ≠ 0) :
    ∃ c1, c64.pullDownIrqLine source = some c1 ∧
      c1.expansionport = c64.expansionport ∧ c1.cycles = c64.cycles ∧
      c1.cpu.irqLine = c64.cpu.irqLine ||| source ∧ c1.cpu.nmiLine = c64.cpu.nmiLine := by
  rw [pullDownIrqLine, CPU.pullDownIrqLine_eq _ _ _ hs]
  exact ⟨_, rfl, rfl, rfl, rfl, rfl⟩

end C64

namespace ActionReplay

/-- The freeze branch of `pressButton`. -/
theorem pressButton_one (cls : ActionReplayClass) (intsrc : Nat) (k : CartridgeWithRegister)
    (c64 : C64) : pressButton cls intsrc k c64 1 =
      match setControlReg cls intsrc k c64 0x23 with
      | none => none
      | some (k1, c1) =>
        match c1.pullDownNmiLine intsrc with
        | none => none
        | some c2 =>
          match c2.pullDownIrqLine intsrc with
          | none => none
          | some c3 => some (k1, c3) := rfl

/-- Writing `$23` to the control register passes the assertion, hands GAME = 0
and EXROM = 1 to the expansion port and releases no line. -/
theorem setControlReg_0x23 (cls : ActionReplayClass) (intsrc : Nat) (k : CartridgeWithRegister)
    (c64 : C64) : setControlReg cls intsrc k c64 0x23 =
      some (⟨0x23, k.calls ++ [CartridgeCall.bankInROML (bank 0x23) 0x2000 0] ++
      [CartridgeCall.bankInROMH (bank 0x23) 0x2000 0]⟩,
      { c64 with expansionport := c64.expansionport.setGameAndExrom false true }) := by
  have hg : vgame cls 0x23 = false := by cases cls <;> decide
  have he : vexrom cls 0x23 = true := by cases cls <;> decide
  have hv : ((0x23 : Nat) &&& 0x80) = 0 := by decide
  have hr : (resetFreezeMode 0x23 || disabled 0x23) = false := by decide
  simp only [setControlReg, if_pos hv, hr, hg, he]
  rfl

/-- The freeze branch of `ActionReplay3::pressButton`. -/
theorem pressButton3_one (intsrc : Nat) (k : CartridgeWithRegister) (c64 : C64) :
    ActionReplay3.pressButton intsrc k c64 1 =
      match c64.pullDownNmiLine intsrc with
      | none => none
      | some c1 =>
        match c1.pullDownIrqLine intsrc with
        | none => none
        | some c2 => some (ActionReplay3.setControlReg k c2 0) := rfl

/-- C23: the freeze button of the Action Replay cartridges.  With
`INTSRC_EXPANSION` a non-zero source mask, `pressButton(1)` returns from every
cartridge state; on an `ActionReplay` (of either class) it leaves `control` at
`$23`, on an `ActionReplay3` at 0; in both cases the expansion port is handed
GAME = 0 and EXROM = 1 in one call of `setGameAndExrom`, and the source is
asserted in the NMI line and in the IRQ line of the CPU afterwards. -/
theorem pressButton_freeze (cls : ActionReplayClass) (intsrc : Nat) (hs : intsrc ≠ 0)
    (k : CartridgeWithRegister) (c64 : C64) :
    (∃ k1 c1, pressButton cls intsrc k c64 1 = some (k1, c1) ∧
      k1.control = 0x23 ∧
      c1.expansionport.gameLine = false ∧ c1.expansionport.exromLine = true ∧
      c1.expansionport.calls =
        c64.expansionport.calls ++ [ExpansionPortCall.setGameAndExrom false true] ∧
      c1.cpu.nmiLine &&& intsrc = intsrc ∧ c1.cpu.irqLine &&& intsrc = intsrc) ∧
    (∃ k1 c1, ActionReplay3.pressButton intsrc k c64 1 = some (k1, c1) ∧
      k1.control = 0 ∧
      c1.expansionport.gameLine = false ∧ c1.expansionport.exromLine = true ∧
      c1.expansionport.calls =
        c64.expansionport.calls ++ [ExpansionPortCall.setGameAndExrom false true] ∧
      c1.cpu.nmiLine &&& intsrc = intsrc ∧ c1.cpu.irqLine &&& intsrc = intsrc) := by
  constructor
  · obtain ⟨c2, h2, he2, _, hn2, _⟩ := C64.pullDownNmiLine_returns
      { c64 with expansionport := c64.expansionport.setGameAndExrom false true } intsrc hs
    obtain ⟨c3, h3, he3, _, hi3, hn3⟩ := C64.pullDownIrqLine_returns c2 intsrc hs
    refine ⟨⟨0x23, k.calls ++ [CartridgeCall.bankInROML (bank 0x23) 0x2000 0] ++
      [CartridgeCall.bankInROMH (bank 0x23) 0x2000 0]⟩, c3, ?_, ?_⟩
    · rw [pressButton_one, setControlReg_0x23]
      dsimp only
      rw [h2]
      dsimp only
      rw [h3]
    · rw [he3, he2, hn3, hn2, hi3]
      exact ⟨rfl, rfl, rfl, rfl, lor_land_self _ _, lor_land_self _ _⟩
  · obtain ⟨c2, h2, he2, _, hn2, _⟩ := C64.pullDownNmiLine_returns c64 intsrc hs
    obtain ⟨c3, h3, he3, _, hi3, hn3⟩ := C64.pullDownIrqLine_returns c2 intsrc hs
    refine ⟨⟨0, k.calls⟩,
      { c3 with expansionport := c3.expansionport.setGameAndExrom false true }, ?_, ?_⟩
    · have hg : ActionReplay3.game 0 = false := by decide
      have he : ActionReplay3.exrom 0 = true := by decide
      rw [pressButton3_one, h2]
      dsimp only
      rw [h3]
      dsimp only [ActionReplay3.setControlReg]
      rw [hg, he]
    · dsimp only [ExpansionPort.setGameAndExrom]
      rw [he3, he2, hn3, hn2, hi3]
      exact ⟨rfl, rfl, rfl, rfl, lor_land_self _ _, lor_land_self _ _⟩

/-- C23 witness: the freeze button on a cartridge with `control = $44`, with
source mask `$08`, on a CPU whose lines are released. -/
theorem pressButton_freeze_witness :
    (∃ k1 c1, pressButton .actionReplay 0x08 ⟨0x44, []⟩ ⟨CPU.cleared, 100, ⟨true, false, []⟩⟩ 1
        = some (k1, c1) ∧
      k1.control = 0x23 ∧
      c1.expansionport.gameLine = false ∧ c1.expansionport.exromLine = true ∧
      c1.cpu.nmiLine &&& 0x08 = 0x08 ∧ c1.cpu.irqLine &&& 0x08 = 0x08) ∧
    (∃ k1 c1, ActionReplay3.pressButton 0x08 ⟨0x44, []⟩ ⟨CPU.cleared, 100, ⟨true, false, []⟩⟩ 1
        = some (k1, c1) ∧
      k1.control = 0 ∧
      c1.expansionport.gameLine = false ∧ c1.expansionport.exromLine = true ∧
      c1.cpu.nmiLine &&& 0x08 = 0x08 ∧ c1.cpu.irqLine &&& 0x08 = 0x08) := by
  obtain ⟨⟨k1, c1, h, hc, hg, he, _, hn, hi⟩, ⟨k3, c3, h3, hc3, hg3, he3, _, hn3, hi3⟩⟩ :=
    pressButton_freeze .actionReplay 0x08 (by decide) ⟨0x44, []⟩
      ⟨CPU.cleared, 100, ⟨true, false, []⟩⟩
  exact ⟨⟨k1, c1, h, hc, hg, he, hn, hi⟩, ⟨k3, c3, h3, hc3, hg3, he3, hn3, hi3⟩⟩

/-- C24: `ramIsEnabled(addr)` is true exactly when bit 5 (`$20`) of `control`
is set and `addr` lies in `$8000-$9FFF` or in `$DF00-$DFFF`. -/
theorem ramIsEnabled_iff (control addr : Nat) :
    ramIsEnabled control addr = true ↔
      control.testBit 5 = true ∧
        ((0x8000 ≤ addr ∧ addr ≤ 0x9FFF) ∨ (0xDF00 ≤ addr ∧ addr ≤ 0xDFFF)) := by
  unfold ramIsEnabled
  by_cases hb : control &&& 0x20 ≠ 0
  · have h5 := (land_0x20_ne_zero_iff control).1 hb
    rw [if_pos hb]
    by_cases hio : addr ≥ 0xDF00 ∧ addr ≤ 0xDFFF
    · rw [if_pos hio]
      exact ⟨fun _ => ⟨h5, Or.inr hio⟩, fun _ => rfl⟩
    · rw [if_neg hio, decide_eq_true_iff]
      constructor
      · intro h
        exact ⟨h5, Or.inl h⟩
      · rintro ⟨_, h | h⟩
        · exact h
        · exact absurd h hio
  · rw [if_neg hb]
    constructor
    · intro h
      cases h
    · rintro ⟨h5, _⟩
      exact absurd ((land_0x20_ne_zero_iff control).2 h5) hb

end ActionReplay

namespace AtomicPower

/-- The special mapping has the RAM enable bit set. -/
theorem specialMapping_ram (control : Nat) (h : control &&& 0xE7 = 0x22) :
    control &&& 0x20 ≠ 0 := by
  have h0 : (0xE7 : Nat) &&& 0x20 = 0x20 := by decide
  have h1 : (control &&& 0xE7) &&& 0x20 = control &&& 0x20 := by
    rw [Nat.land_assoc, h0]
  rw [h] at h1
  rw [← h1]
  decide

/-- C25: the special mapping of Atomic Power.  `specialMapping()` holds exactly
when `control AND $E7` is `$22`.  When it holds, `ramIsEnabled(addr)` is true
exactly for `addr` in `$A000-$BFFF` or `$DF00-$DFFF`, false on `$8000-$9FFF`,
and `game()` and `exrom()` are both 0.  When it does not hold, `game()`,
`exrom()` and `ramIsEnabled(addr)` are those of `ActionReplay`. -/
theorem specialMapping_spec (control : Nat) :
    (specialMapping control = true ↔ control &&& 0xE7 = 0x22) ∧
    (specialMapping control = true →
      (∀ addr, ramIsEnabled control addr = true ↔
        ((0xA000 ≤ addr ∧ addr ≤ 0xBFFF) ∨ (0xDF00 ≤ addr ∧ addr ≤ 0xDFFF))) ∧
      (∀ addr, 0x8000 ≤ addr → addr ≤ 0x9FFF → ramIsEnabled control addr = false) ∧
      game control = false ∧ exrom control = false) ∧
    (specialMapping control = false →
      game control = ActionReplay.game control ∧
      exrom control = ActionReplay.exrom control ∧
      ∀ addr, ramIsEnabled control addr = ActionReplay.ramIsEnabled control addr) := by
  have hiff : specialMapping control = true ↔ control &&& 0xE7 = 0x22 := by
    simp [specialMapping]
  have hram : specialMapping control = true → ∀ addr, ramIsEnabled control addr = true ↔
      ((0xA000 ≤ addr ∧ addr ≤ 0xBFFF) ∨ (0xDF00 ≤ addr ∧ addr ≤ 0xDFFF)) := by
    intro hsm addr
    have hb := specialMapping_ram control (hiff.1 hsm)
    unfold ramIsEnabled
    rw [if_pos hb]
    by_cases hio : addr ≥ 0xDF00 ∧ addr ≤ 0xDFFF
    · rw [if_pos hio]
      exact ⟨fun _ => Or.inr hio, fun _ => rfl⟩
    · rw [if_neg hio, if_pos hsm, decide_eq_true_iff]
      constructor
      · intro h
        exact Or.inl h
      · rintro (h | h)
        · exact h
        · exact absurd h hio
  refine ⟨hiff, fun hsm => ⟨hram hsm, ?_, ?_, ?_⟩, fun hsm => ⟨?_, ?_, ?_⟩⟩
  · intro addr h1 h2
    cases hr : ramIsEnabled control addr
    · rfl
    · rcases (hram hsm addr).1 hr with h | h <;> omega
  · simp [game, hsm]
  · simp [exrom, hsm]
  · simp [game, hsm]
  · simp [exrom, hsm]
  · intro addr
    simp [ramIsEnabled, ActionReplay.ramIsEnabled, hsm]

/-- C25 witness: `control = $22` is the special mapping, `control = $23` is
not. -/
theorem specialMapping_spec_witness :
    specialMapping 0x22 = true ∧
    ramIsEnabled 0x22 0xA000 = true ∧ ramIsEnabled 0x22 0x8000 = false ∧
    game 0x22 = false ∧ exrom 0x22 = false ∧
    specialMapping 0x23 = false ∧
    ramIsEnabled 0x23 0x8000 = ActionReplay.ramIsEnabled 0x23 0x8000 := by
  have h := (specialMapping_spec 0x22).2.1 (by decide)
  have h2 := (specialMapping_spec 0x23).2.2 (by decide)
  exact ⟨by decide, (h.1 0xA000).2 (Or.inl (by decide)),
    h.2.1 0x8000 (by decide) (by decide), h.2.2.1, h.2.2.2, by decide, h2.2.2 0x8000⟩

end AtomicPower

/-! ## Final Cartridge III: theorems -/

namespace ExpansionPort

/-- The GAME-line updates of a trace that is the concatenation of two. -/
theorem gameLineUpdates_append (xs ys : List ExpansionPortCall) :
    gameLineUpdates (xs ++ ys) = gameLineUpdates xs ++ gameLineUpdates ys := by
  induction xs with
  | nil => rfl
  | cons c cs ih => cases c <;> simp [gameLineUpdates, ih]

end ExpansionPort

namespace FinalIII

/-- With a non-zero source mask `updateNMI` returns, and it leaves the
expansion port as it is. -/
theorem updateNMI_spec (bits : FinalIIIBits) (intsrc : Nat) (hs : intsrc ≠ 0) (f : FinalIII)
    (c64 : C64) :
    ∃ c1, updateNMI bits intsrc f c64 = some c1 ∧ c1.expansionport = c64.expansionport := by
  unfold updateNMI
  split_ifs
  · exact ⟨_, rfl, rfl⟩
  · obtain ⟨c1, h1, he, _⟩ := C64.pullDownNmiLine_returns c64 intsrc hs
    exact ⟨c1, h1, he⟩

/-- While the freeze button is pressed and `qD` is false, `setControlReg`
returns, keeps both, and drives the GAME line to 0 once. -/
theorem setControlReg_pressed (bits : FinalIIIBits) (intsrc : Nat) (hs : intsrc ≠ 0)
    (f : FinalIII) (c64 : C64) (value : Nat) (hp : f.freeezeButtonIsPressed = true)
    (hq : f.qD = false) :
    ∃ f1 c1, setControlReg bits intsrc f c64 value = some (f1, c1) ∧
      f1.freeezeButtonIsPressed = true ∧ f1.qD = false ∧
      c1.expansionport.gameLine = false ∧
      ExpansionPort.gameLineUpdates c1.expansionport.calls =
        ExpansionPort.gameLineUpdates c64.expansionport.calls ++ [false] := by
  obtain ⟨c1, h1, he⟩ := updateNMI_spec bits intsrc hs { f with control := value } c64
  refine ⟨⟨value, f.freeezeButtonIsPressed, f.qD,
      f.calls ++ [CartridgeCall.bankIn (value &&& 0x03)]⟩,
    { c1 with expansionport :=
        (c1.expansionport.setGameLine false).setExromLine (bits.exrom value) }, ?_, hp, hq, rfl, ?_⟩
  · simp only [hq] at h1
    simp only [setControlReg, h1, updateGame, hq, Bool.and_false]
  · simp only [ExpansionPort.setGameLine, ExpansionPort.setExromLine, he,
      ExpansionPort.gameLineUpdates_append, ExpansionPort.gameLineUpdates, List.append_nil]

/-- While the freeze button is pressed and `qD` is false, every call returns,
keeps both, keeps the GAME line at 0 if it was 0, and makes no GAME-line
update other than to 0. -/
theorem step_pressed (bits : FinalIIIBits) (intsrc : Nat) (hs : intsrc ≠ 0)
    (f : FinalIII) (c64 : C64) (op : FinalIIIOp) (hp : f.freeezeButtonIsPressed = true)
    (hq : f.qD = false) (hg : c64.expansionport.gameLine = false) :
    ∃ f1 c1, step bits intsrc f c64 op = some (f1, c1) ∧
      f1.freeezeButtonIsPressed = true ∧ f1.qD = false ∧
      c1.expansionport.gameLine = false ∧
      ∃ l, ExpansionPort.gameLineUpdates c1.expansionport.calls =
        ExpansionPort.gameLineUpdates c64.expansionport.calls ++ l ∧ ∀ g ∈ l, g = false := by
  cases op with
  | nmiDidTrigger =>
    refine ⟨{ f with qD := false },
      { c64 with expansionport := c64.expansionport.setGameLine false }, ?_, hp, rfl, rfl,
      [false], ?_, ?_⟩
    · simp only [step, nmiDidTrigger, hp, if_true, updateGame, Bool.and_false]
    · simp only [ExpansionPort.setGameLine, ExpansionPort.gameLineUpdates_append,
        ExpansionPort.gameLineUpdates]
    · intro g hgl
      simpa using hgl
  | setControlReg value =>
    obtain ⟨f1, c1, h, hp1, hq1, hg1, hl⟩ := setControlReg_pressed bits intsrc hs f c64 value hp hq
    exact ⟨f1, c1, h, hp1, hq1, hg1, [false], hl, by simp⟩
  | pokeIO2 addr value =>
    by_cases hc : addr = 0xDFFF ∧ writeEnabled bits f = true
    · obtain ⟨f1, c1, h, hp1, hq1, hg1, hl⟩ :=
        setControlReg_pressed bits intsrc hs f c64 value hp hq
      refine ⟨f1, c1, ?_, hp1, hq1, hg1, [false], hl, by simp⟩
      simp only [step, pokeIO2, if_pos hc, h]
    · refine ⟨f, c64, ?_, hp, hq, hg, [], by simp, by simp⟩
      simp only [step, pokeIO2, if_neg hc]

/-- While the freeze button is pressed and `qD` is false, every sequence of
calls returns, keeps both, keeps the GAME line at 0, and makes no GAME-line
update other than to 0. -/
theorem run_pressed (bits : FinalIIIBits) (intsrc : Nat) (hs : intsrc ≠ 0)
    (ops : List FinalIIIOp) : ∀ (f : FinalIII) (c64 : C64),
    f.freeezeButtonIsPressed = true → f.qD = false → c64.expansionport.gameLine = false →
    ∃ f1 c1, run bits intsrc f c64 ops = some (f1, c1) ∧
      f1.freeezeButtonIsPressed = true ∧ f1.qD = false ∧
      c1.expansionport.gameLine = false ∧
      ∃ l, ExpansionPort.gameLineUpdates c1.expansionport.calls =
        ExpansionPort.gameLineUpdates c64.expansionport.calls ++ l ∧ ∀ g ∈ l, g = false := by
  induction ops with
  | nil =>
    intro f c64 hp hq hg
    exact ⟨f, c64, rfl, hp, hq, hg, [], by simp, by simp⟩
  | cons op ops ih =>
    intro f c64 hp hq hg
    obtain ⟨f1, c1, h1, hp1, hq1, hg1, l1, hl1, hf1⟩ := step_pressed bits intsrc hs f c64 op hp hq hg
    obtain ⟨f2, c2, h2, hp2, hq2, hg2, l2, hl2, hf2⟩ := ih f1 c1 hp1 hq1 hg1
    refine ⟨f2, c2, ?_, hp2, hq2, hg2, l1 ++ l2, ?_, ?_⟩
    · simp only [run, h1, h2]
    · rw [hl2, hl1, List.append_assoc]
    · intro g hgl
      rcases List.mem_append.1 hgl with h | h
      · exact hf1 g h
      · exact hf2 g h

/-- C26: the `qD` flip-flop of the Final Cartridge III, with
`INTSRC_EXPANSION` a non-zero source mask.  While the freeze button is pressed,
`nmiDidTrigger()` sets `qD` to false and drives the GAME line to 0; every
sequence of `nmiDidTrigger`, `setControlReg` and `pokeIO2` calls that follows
while the button stays pressed returns, leaves `qD` false and the GAME line
at 0, and every GAME-line update it makes drives 0.  `releaseButton(1)` returns,
sets `qD` to true and drives the GAME line to `game()`.  With the button not
pressed `nmiDidTrigger()` changes nothing. -/
theorem qD_flipflop (bits : FinalIIIBits) (intsrc : Nat) (hs : intsrc ≠ 0) (f : FinalIII)
    (c64 : C64) :
    (f.freeezeButtonIsPressed = true →
      (nmiDidTrigger bits f c64).1.qD = false ∧
      (nmiDidTrigger bits f c64).1.freeezeButtonIsPressed = true ∧
      (nmiDidTrigger bits f c64).2.expansionport.gameLine = false ∧
      (nmiDidTrigger bits f c64).2.expansionport.calls =
        c64.expansionport.calls ++ [ExpansionPortCall.setGameLine false] ∧
      ∀ ops : List FinalIIIOp, ∃ f1 c1,
        run bits intsrc (nmiDidTrigger bits f c64).1 (nmiDidTrigger bits f c64).2 ops
          = some (f1, c1) ∧
        f1.qD = false ∧ f1.freeezeButtonIsPressed = true ∧
        c1.expansionport.gameLine = false ∧
        ∃ l, ExpansionPort.gameLineUpdates c1.expansionport.calls =
          ExpansionPort.gameLineUpdates (nmiDidTrigger bits f c64).2.expansionport.calls ++ l ∧
          ∀ g ∈ l, g = false) ∧
    (∃ f1 c1, releaseButton bits intsrc f c64 1 = some (f1, c1) ∧
      f1.qD = true ∧ f1.freeezeButtonIsPressed = false ∧ f1.control = f.control ∧
      c1.expansionport.gameLine = bits.game f.control ∧
      c1.expansionport.calls =
        c64.expansionport.calls ++ [ExpansionPortCall.setGameLine (bits.game f.control)]) ∧
    (f.freeezeButtonIsPressed = false → nmiDidTrigger bits f c64 = (f, c64)) := by
  refine ⟨fun hp => ?_, ?_, fun hp => ?_⟩
  · have hn : nmiDidTrigger bits f c64 = ({ f with qD := false },
        { c64 with expansionport := c64.expansionport.setGameLine false }) := by
      simp only [nmiDidTrigger, hp, if_true, updateGame, Bool.and_false]
    rw [hn]
    refine ⟨rfl, hp, rfl, rfl, fun ops => ?_⟩
    obtain ⟨f1, c1, h, hp1, hq1, hg1, hl⟩ := run_pressed bits intsrc hs ops { f with qD := false }
      { c64 with expansionport := c64.expansionport.setGameLine false } hp rfl rfl
    exact ⟨f1, c1, h, hq1, hp1, hg1, hl⟩
  · obtain ⟨c1, h1, he⟩ := updateNMI_spec bits intsrc hs
      { f with freeezeButtonIsPressed := false, qD := true } c64
    have h2 : (1 : Nat) ≤ numButtons := by decide
    refine ⟨{ f with freeezeButtonIsPressed := false, qD := true },
      { c1 with expansionport := c1.expansionport.setGameLine (bits.game f.control) },
      ?_, rfl, rfl, rfl, rfl, ?_⟩
    · simp only [releaseButton, if_pos h2, h1, Option.map_some', updateGame, Bool.and_true]
    · simp only [ExpansionPort.setGameLine, he]
  · simp only [nmiDidTrigger, hp]
    rfl

/-- C26 witness: a cartridge whose `game()` is bit 5 of the register, with
`control = $20`, the button pressed and `qD` true; an NMI, a write of `$FF`
to `$DFFF`, a second NMI, then the release of the button. -/
theorem qD_flipflop_witness :
    (∃ f1 c1,
      run ⟨fun c => c.testBit 7, fun c => c.testBit 6, fun c => c.testBit 5,
          fun c => c.testBit 4⟩ 0x08
        (nmiDidTrigger ⟨fun c => c.testBit 7, fun c => c.testBit 6, fun c => c.testBit 5,
          fun c => c.testBit 4⟩ ⟨0x20, true, true, []⟩
          ⟨CPU.cleared, 100, ⟨true, true, []⟩⟩).1
        (nmiDidTrigger ⟨fun c => c.testBit 7, fun c => c.testBit 6, fun c => c.testBit 5,
          fun c => c.testBit 4⟩ ⟨0x20, true, true, []⟩
          ⟨CPU.cleared, 100, ⟨true, true, []⟩⟩).2
        [FinalIIIOp.pokeIO2 0xDFFF 0xFF, FinalIIIOp.nmiDidTrigger] = some (f1, c1) ∧
      f1.qD = false ∧ c1.expansionport.gameLine = false) ∧
    (∃ f1 c1,
      releaseButton ⟨fun c => c.testBit 7, fun c => c.testBit 6, fun c => c.testBit 5,
          fun c => c.testBit 4⟩ 0x08 ⟨0x20, true, true, []⟩
          ⟨CPU.cleared, 100, ⟨true, true, []⟩⟩ 1 = some (f1, c1) ∧
      f1.qD = true ∧ c1.expansionport.gameLine = true) := by
  obtain ⟨h1, ⟨f2, c2, h2, hq2, _, _, hg2, _⟩, _⟩ :=
    qD_flipflop ⟨fun c => c.testBit 7, fun c => c.testBit 6, fun c => c.testBit 5,
      fun c => c.testBit 4⟩ 0x08 (by decide) ⟨0x20, true, true, []⟩
      ⟨CPU.cleared, 100, ⟨true, true, []⟩⟩
  obtain ⟨_, _, _, _, hrun⟩ := h1 rfl
  obtain ⟨f1, c1, hr, hq1, _, hg1, _⟩ :=
    hrun [FinalIIIOp.pokeIO2 0xDFFF 0xFF, FinalIIIOp.nmiDidTrigger]
  exact ⟨⟨f1, c1, hr, hq1, hg1⟩, ⟨f2, c2, h2, hq2, hg2.trans (by decide)⟩⟩

end FinalIII

/-! ## T64 archives: theorems -/

/-- Two bytes combined by `LO_HI` are the little-endian 16-bit value. -/
theorem LO_HI_eq (x y : Nat) (hx : x < 256) (hy : y < 256) : LO_HI x y = x + 256 * y := by
  unfold LO_HI
  rw [shiftLeft_lor y x 8 (by omega)]
  omega

/-- Four bytes combined by `LO_LO_HI_HI` are the little-endian 32-bit value. -/
theorem LO_LO_HI_HI_eq (x y z w : Nat) (hx : x < 256) (hy : y < 256) (hz : z < 256)
    (hw : w < 256) :
    LO_LO_HI_HI x y z w = x + 256 * y + 65536 * z + 16777216 * w := by
  unfold LO_LO_HI_HI
  have h1 : w <<< 24 ||| z <<< 16 = w * 2 ^ 24 + z * 2 ^ 16 := by
    rw [Nat.shiftLeft_eq z 16]
    exact shiftLeft_lor w (z * 2 ^ 16) 24 (by omega)
  have h2 : w <<< 24 ||| z <<< 16 ||| y <<< 8 = w * 2 ^ 24 + z * 2 ^ 16 + y * 2 ^ 8 := by
    have e : w * 2 ^ 24 + z * 2 ^ 16 = (w * 2 ^ 8 + z) <<< 16 := by
      rw [Nat.shiftLeft_eq]
      ring
    rw [h1, e, Nat.shiftLeft_eq y 8, shiftLeft_lor _ (y * 2 ^ 8) 16 (by omega)]
    simp only [Nat.shiftLeft_eq]
  have h3 : w <<< 24 ||| z <<< 16 ||| y <<< 8 ||| x =
      w * 2 ^ 24 + z * 2 ^ 16 + y * 2 ^ 8 + x := by
    have e : w * 2 ^ 24 + z * 2 ^ 16 + y * 2 ^ 8 = (w * 2 ^ 16 + z * 2 ^ 8 + y) <<< 8 := by
      rw [Nat.shiftLeft_eq]
      ring
    rw [h2, e, shiftLeft_lor _ x 8 (by omega)]
    simp only [Nat.shiftLeft_eq]
  rw [h3]
  omega

/-- A `size_t` value below `2^64` survives the conversion from `long`. -/
theorem toU64_natCast (k : Nat) (hk : k < 2 ^ 64) : toU64 (k : Int) = k := by
  unfold toU64
  omega

/-- Converting a `size_t` to `long` and back gives the value again. -/
theorem toU64_toI64 (m : Nat) : toU64 (toI64 m) = m % 2 ^ 64 := by
  unfold toU64 toI64
  split_ifs <;> omega


namespace T64File

/-- The loop of `matchingBufferHeader` over the three magic bytes. -/
theorem matchingBufferHeaderLoop_magic (b : Nat → Nat) :
    matchingBufferHeaderLoop b magicBytes 3 0 =
      decide (b 0 = 0x43 ∧ b 1 = 0x36 ∧ b 2 = 0x34) := by
  have m0 : magicBytes 0 = 0x43 := rfl
  have m1 : magicBytes 1 = 0x36 := rfl
  have m2 : magicBytes 2 = 0x34 := rfl
  simp only [matchingBufferHeaderLoop, m0, m1, m2]
  by_cases h0 : b 0 = 0x43 <;> by_cases h1 : b 1 = 0x36 <;> by_cases h2 : b 2 = 0x34 <;>
    simp [h0, h1, h2, eq_comm]

/-- C27: `isT64Buffer(buffer, length)` returns false for every length below
`$40`; for a length of at least `$40` it returns, and returns true exactly
when the buffer is not recognised as a TAP image and its first three bytes
are `$43 $36 $34`. -/
theorem isT64Buffer_spec (isTAPBuffer : Option (Nat → Nat) → Nat → Bool)
    (buffer : Nat → Nat) (length : Nat) :
    (∀ b : Option (Nat → Nat), length < 0x40 →
      isT64Buffer isTAPBuffer b length = some false) ∧
    (0x40 ≤ length →
      ∃ r, isT64Buffer isTAPBuffer (some buffer) length = some r ∧
        (r = true ↔ isTAPBuffer (some buffer) length = false ∧
          buffer 0 = 0x43 ∧ buffer 1 = 0x36 ∧ buffer 2 = 0x34)) := by
  constructor
  · intro b h
    simp only [isT64Buffer, if_pos h]
  · intro h
    have hl : ¬ length < 0x40 := by omega
    cases ht : isTAPBuffer (some buffer) length
    · refine ⟨decide (buffer 0 = 0x43 ∧ buffer 1 = 0x36 ∧ buffer 2 = 0x34), ?_, ?_⟩
      · simp only [isT64Buffer, if_neg hl, ht, matchingBufferHeader,
          matchingBufferHeaderLoop_magic]
        rfl
      · simp
    · refine ⟨false, ?_, ?_⟩
      · simp only [isT64Buffer, if_neg hl, ht, if_true]
      · simp

/-- C27 witness: a buffer of `$3F` bytes is refused whatever it holds, and the
`$60` bytes of a file that starts with `C64` are accepted when they are not a
TAP image. -/
theorem isT64Buffer_spec_witness :
    isT64Buffer (fun _ _ => false) (some t64Truncated) 0x3F = some false ∧
    ∃ r, isT64Buffer (fun _ _ => false) (some t64Truncated) 0x60 = some r ∧ r = true := by
  have h := isT64Buffer_spec (fun _ _ => false) t64Truncated
  obtain ⟨r, hr, hiff⟩ := (h 0x60).2 (by decide)
  exact ⟨(h 0x3F).1 _ (by decide), r, hr, hiff.2 (by decide)⟩

/-- The number of items is below `2^16`. -/
theorem numberOfItems_lt (t : T64File) : t.numberOfItems < 2 ^ 16 := by
  unfold numberOfItems LO_HI
  omega

/-- What `selectItem` does for an item of the directory. -/
theorem selectItem_eq (t : T64File) (n : Nat) (hn : n < t.numberOfItems) :
    t.selectItem n =
      if toU64 (LO_LO_HI_HI (t.data (0x48 + n * 0x20)) (t.data (0x48 + n * 0x20 + 1))
            (t.data (0x48 + n * 0x20 + 2)) (t.data (0x48 + n * 0x20 + 3)) : Nat) > t.size ∨
          toU64 (toI64 ((toU64 (LO_LO_HI_HI (t.data (0x48 + n * 0x20))
            (t.data (0x48 + n * 0x20 + 1)) (t.data (0x48 + n * 0x20 + 2))
            (t.data (0x48 + n * 0x20 + 3)) : Nat) +
            getSizeOfItem { t with selectedItem := (n : Int) }) % 2 ^ 64)) > t.size
      then none
      else some
        { data := t.data, size := t.size, selectedItem := (n : Int)
          iFp := (LO_LO_HI_HI (t.data (0x48 + n * 0x20)) (t.data (0x48 + n * 0x20 + 1))
            (t.data (0x48 + n * 0x20 + 2)) (t.data (0x48 + n * 0x20 + 3)) : Nat)
          iEof := toI64 ((toU64 (LO_LO_HI_HI (t.data (0x48 + n * 0x20))
            (t.data (0x48 + n * 0x20 + 1)) (t.data (0x48 + n * 0x20 + 2))
            (t.data (0x48 + n * 0x20 + 3)) : Nat) +
            getSizeOfItem { t with selectedItem := (n : Int) }) % 2 ^ 64) } := by
  have h16 := numberOfItems_lt t
  have hge : ¬ n ≥ t.numberOfItems := by omega
  have hi : (0x48 + n * 0x20) % 2 ^ 32 = 0x48 + n * 0x20 := by omega
  simp only [selectItem, if_neg hge, hi]
  rfl

/-- C28: T64 directory decoding, for an archive whose bytes are below 256.
`numberOfItems()` is the little-endian 16-bit value at `$24/$25`.  For every
`n < numberOfItems()` for which `selectItem(n)` returns: the data and the size
are unchanged and item `n` is selected; `getDestinationAddrOfItem()` is the
little-endian 16-bit value at `$42 + 32n`; `getSizeOfItem()` is the end
address at `$44 + 32n` minus that start address whenever end is at least
start; `iFp` is the little-endian 32-bit value at `$48 + 32n`; `iEof` is
`iFp + getSizeOfItem()` in 64-bit arithmetic, and exactly so when end is at
least start; `getNameOfItem()` is the C string in the 16 bytes at
`$50 + 32n` when the file holds all of them (`size >= $60 + 32n`), and the
empty string otherwise. -/
theorem directory_decoding (t : T64File) (hb : ∀ a, t.data a < 256) (n : Nat)
    (hn : n < t.numberOfItems) (t1 : T64File) (hsel : t.selectItem n = some t1) :
    t.numberOfItems = t.data 0x24 + 256 * t.data 0x25 ∧
    t1.data = t.data ∧ t1.size = t.size ∧ t1.selectedItem = (n : Int) ∧
    t1.getDestinationAddrOfItem = t.data (0x42 + 32 * n) + 256 * t.data (0x43 + 32 * n) ∧
    (t.data (0x42 + 32 * n) + 256 * t.data (0x43 + 32 * n) ≤
        t.data (0x44 + 32 * n) + 256 * t.data (0x45 + 32 * n) →
      t1.getSizeOfItem = t.data (0x44 + 32 * n) + 256 * t.data (0x45 + 32 * n) -
        (t.data (0x42 + 32 * n) + 256 * t.data (0x43 + 32 * n))) ∧
    t1.iFp = ((t.data (0x48 + 32 * n) + 256 * t.data (0x49 + 32 * n) +
      65536 * t.data (0x4A + 32 * n) + 16777216 * t.data (0x4B + 32 * n) : Nat) : Int) ∧
    toU64 t1.iEof = (toU64 t1.iFp + t1.getSizeOfItem) % 2 ^ 64 ∧
    (t.data (0x42 + 32 * n) + 256 * t.data (0x43 + 32 * n) ≤
        t.data (0x44 + 32 * n) + 256 * t.data (0x45 + 32 * n) →
      t1.iEof = t1.iFp + (t1.getSizeOfItem : Int)) ∧
    (0x60 + 32 * n ≤ t.size →
      t1.getNameOfItem =
        some (cString ((List.range 16).map (fun j => t.data (0x50 + 32 * n + j))))) ∧
    (t.size < 0x60 + 32 * n → t1.getNameOfItem = some []) := by
  have h16 := numberOfItems_lt t
  have hnum : t.numberOfItems = t.data 0x24 + 256 * t.data 0x25 :=
    LO_HI_eq _ _ (hb _) (hb _)
  -- the state after the call
  rw [selectItem_eq t n hn] at hsel
  split_ifs at hsel with hc
  have ht1 := (Option.some.inj hsel).symm
  have hdata : t1.data = t.data := by rw [ht1]
  have hsize : t1.size = t.size := by rw [ht1]
  have hselected : t1.selectedItem = (n : Int) := by rw [ht1]
  have hfp : t1.iFp = ((t.data (0x48 + 32 * n) + 256 * t.data (0x49 + 32 * n) +
      65536 * t.data (0x4A + 32 * n) + 16777216 * t.data (0x4B + 32 * n) : Nat) : Int) := by
    rw [ht1]
    show ((LO_LO_HI_HI _ _ _ _ : Nat) : Int) = _
    rw [LO_LO_HI_HI_eq _ _ _ _ (hb _) (hb _) (hb _) (hb _)]
    have e0 : 0x48 + n * 0x20 = 0x48 + 32 * n := by omega
    have e1 : 0x48 + n * 0x20 + 1 = 0x49 + 32 * n := by omega
    have e2 : 0x48 + n * 0x20 + 2 = 0x4A + 32 * n := by omega
    have e3 : 0x48 + n * 0x20 + 3 = 0x4B + 32 * n := by omega
    rw [e1, e2, e3, e0]
  have hsz : t1.getSizeOfItem =
      toU64 (((t.data (0x44 + 32 * n) + 256 * t.data (0x45 + 32 * n) : Nat) : Int) -
        ((t.data (0x42 + 32 * n) + 256 * t.data (0x43 + 32 * n) : Nat) : Int)) := by
    have hneg : ¬ ((n : Int) < 0) := by omega
    have e0 : 0x42 + (n : Int).toNat * 0x20 = 0x42 + 32 * n := by omega
    have e1 : 0x42 + 32 * n + 1 = 0x43 + 32 * n := by omega
    have e2 : 0x42 + 32 * n + 2 = 0x44 + 32 * n := by omega
    have e3 : 0x42 + 32 * n + 3 = 0x45 + 32 * n := by omega
    simp only [getSizeOfItem, hselected, hdata, if_neg hneg, e0, e1, e2, e3]
    rw [LO_HI_eq _ _ (hb _) (hb _), LO_HI_eq _ _ (hb _) (hb _)]
  have heof : t1.iEof = toI64 ((toU64 t1.iFp + t1.getSizeOfItem) % 2 ^ 64) := by
    have hs1 : getSizeOfItem { t with selectedItem := (n : Int) } = t1.getSizeOfItem := by
      rw [ht1]
      rfl
    rw [← hs1, ht1]
  have hb2 := hb (0x42 + 32 * n)
  have hb3 := hb (0x43 + 32 * n)
  have hb4 := hb (0x44 + 32 * n)
  have hb5 := hb (0x45 + 32 * n)
  refine ⟨hnum, hdata, hsize, hselected, ?_, ?_, hfp, ?_, ?_, ?_, ?_⟩
  · have e0 : (0x42 + (n : Int) * 0x20).toNat = 0x42 + 32 * n := by omega
    have e1 : (0x42 + (n : Int) * 0x20 + 1).toNat = 0x43 + 32 * n := by omega
    simp only [getDestinationAddrOfItem, hselected, hdata, e0, e1]
    exact LO_HI_eq _ _ (hb _) (hb _)
  · intro hle
    rw [hsz]
    unfold toU64
    omega
  · rw [heof, toU64_toI64]
    exact Nat.mod_mod _ _
  · intro hle
    have hb8 := hb (0x48 + 32 * n)
    have hb9 := hb (0x49 + 32 * n)
    have hbA := hb (0x4A + 32 * n)
    have hbB := hb (0x4B + 32 * n)
    have hs2 : t1.getSizeOfItem = t.data (0x44 + 32 * n) + 256 * t.data (0x45 + 32 * n) -
        (t.data (0x42 + 32 * n) + 256 * t.data (0x43 + 32 * n)) := by
      rw [hsz]
      unfold toU64
      omega
    rw [heof, hfp, hs2]
    unfold toI64 toU64
    split_ifs <;> omega
  · intro hle
    have hne : (n : Int) ≠ -1 := by omega
    have hlast : ¬ t.size < toU64 (0x60 + (n : Int) * 0x20) := by
      unfold toU64
      omega
    simp only [getNameOfItem, hselected, hdata, hsize, if_pos hne, if_neg hlast]
    congr 2
    apply List.map_congr_left
    intro j _
    have e : (0x50 + (n : Int) * 0x20 + (j : Int)).toNat = 0x50 + 32 * n + j := by omega
    simp only [e]
    split_ifs with h32
    · exact h32.symm
    · rfl
  · intro hlt
    have hne : (n : Int) ≠ -1 := by omega
    have hlast : t.size < toU64 (0x60 + (n : Int) * 0x20) := by
      unfold toU64
      omega
    simp only [getNameOfItem, hselected, hsize, if_pos hne, if_pos hlast]

/-- C28 witness: the archive `t64ShortDirectory` stretched to `$60` bytes;
item 0 is selected and its name is the byte `$41`. -/
theorem directory_decoding_witness :
    ∃ t1, T64File.selectItem { t64ShortDirectory with size := 0x60 } 0 = some t1 ∧
      t1.iFp = 0 ∧ t1.getNameOfItem = some [0x41] := by
  have hb : ∀ a, ({ t64ShortDirectory with size := 0x60 } : T64File).data a < 256 := by
    intro a
    show (if a = 0x24 then 1 else if a = 0x50 then 0x41 else 0) < 256
    split_ifs <;> omega
  have hsome : (T64File.selectItem { t64ShortDirectory with size := 0x60 } 0).isSome = true := by
    decide
  obtain ⟨t1, ht1⟩ := Option.isSome_iff_exists.1 hsome
  have h := directory_decoding { t64ShortDirectory with size := 0x60 } hb 0 (by decide) t1 ht1
  exact ⟨t1, ht1, h.2.2.2.2.2.2.1, (h.2.2.2.2.2.2.2.2.2.1 (by decide)).trans (by decide)⟩

/-- C28 counterexample: in the archive `t64ShortDirectory` of `$58` bytes item 0
can be selected, and its name is empty although the name field starts with
the byte `$41`: the name is not always taken from the 16 bytes at
`$50 + 32n`. -/
theorem getNameOfItem_counterexample :
    ¬ ∀ (t : T64File) (n : Nat) (t1 : T64File), (∀ a, t.data a < 256) →
      n < t.numberOfItems → t.selectItem n = some t1 →
      t1.getNameOfItem =
        some (cString ((List.range 16).map (fun j => t.data (0x50 + 32 * n + j)))) := by
  intro h
  have hb : ∀ a, t64ShortDirectory.data a < 256 := by
    intro a
    show (if a = 0x24 then 1 else if a = 0x50 then 0x41 else 0) < 256
    split_ifs <;> omega
  have hsome : (t64ShortDirectory.selectItem 0).isSome = true := by decide
  obtain ⟨t1, ht1⟩ := Option.isSome_iff_exists.1 hsome
  have hname : (t64ShortDirectory.selectItem 0).map (fun t => t.getNameOfItem)
      = some (some []) := by decide
  rw [ht1] at hname
  have h1 := h t64ShortDirectory 0 t1 hb (by decide) ht1
  have h2 : t1.getNameOfItem = some [] := Option.some.inj hname
  rw [h2] at h1
  exact absurd h1 (by decide)

/-- C29: a file that `readFromBuffer` accepts and whose item cannot be selected.
For the truncated file `t64Truncated` of `$60` bytes `repair()` succeeds,
`readFromBuffer` returns true, the archive has one item, and `selectItem(0)`
reaches `assert(false)`, with `iEof = $1040` behind the end of the file.  For
`t64BadOffset`, `repair()` fails, `readFromBuffer` returns true all the same,
and `selectItem(0)` reaches `assert(false)`, with `iFp = $1000`. -/
theorem readFromBuffer_selectItem_fails :
    ((readFromBufferBase create t64Truncated 0x60).1.repair.map (fun r => r.2) = some true ∧
      (create.readFromBuffer t64Truncated 0x60).map
        (fun r => (r.2, r.1.numberOfItems, (r.1.selectItem 0).isSome)) = some (true, 1, false)) ∧
    ((readFromBufferBase create t64BadOffset 0x60).1.repair.map (fun r => r.2) = some false ∧
      (create.readFromBuffer t64BadOffset 0x60).map
        (fun r => (r.2, r.1.numberOfItems, (r.1.selectItem 0).isSome)) = some (true, 1, false)) := by
  decide

/-- C30: `selectItem(item)` with `item >= numberOfItems()` returns; it sets
`iFp` to -1 and leaves `selectedItem`, `iEof`, the data and the size as they
are. -/
theorem selectItem_invalid (t : T64File) (item : Nat) (hi : item ≥ t.numberOfItems) :
    ∃ t1, t.selectItem item = some t1 ∧ t1.iFp = -1 ∧
      t1.selectedItem = t.selectedItem ∧ t1.iEof = t.iEof ∧
      t1.data = t.data ∧ t1.size = t.size := by
  refine ⟨{ t with iFp := -1 }, ?_, rfl, rfl, rfl, rfl, rfl⟩
  simp only [selectItem, if_pos hi]

/-- C30 witness: item 1 of the archive `t64ShortDirectory`, which has one
item. -/
theorem selectItem_invalid_witness :
    ∃ t1, t64ShortDirectory.selectItem 1 = some t1 ∧ t1.iFp = -1 ∧
      t1.selectedItem = -1 ∧ t1.iEof = -1 := by
  obtain ⟨t1, h, h1, h2, h3, _⟩ := selectItem_invalid t64ShortDirectory 1 (by decide)
  exact ⟨t1, h, h1, h2, h3⟩

end T64File


/-! ## Character conversion: theorems -/

/-- C32: `ascii2pet(c)` for every byte `c`.  It is 0 for `c = 0`, the
upper-case letter `c - $20` for the lower-case letters `$61..$7A`, `c` itself
for `c` in `$20..$5D`, and `$20` for every other byte; so the result is 0 or in
`$20..$5D`, and converting twice is converting once. -/
theorem ascii2pet_spec (c : Nat) (hc : c < 256) :
    (c = 0 → ascii2pet c = 0) ∧
    (0x61 ≤ c ∧ c ≤ 0x7A → ascii2pet c = c - 0x20) ∧
    (0x20 ≤ c ∧ c ≤ 0x5D → ascii2pet c = c) ∧
    (c ≠ 0 ∧ ¬ (0x61 ≤ c ∧ c ≤ 0x7A) ∧ ¬ (0x20 ≤ c ∧ c ≤ 0x5D) → ascii2pet c = 0x20) ∧
    (ascii2pet c = 0 ∨ (0x20 ≤ ascii2pet c ∧ ascii2pet c ≤ 0x5D)) ∧
    ascii2pet (ascii2pet c) = ascii2pet c := by
  interval_cases c <;> decide

/-- C32 witness: the bytes 0, `a`, `A`, `~` and `$C1`. -/
theorem ascii2pet_spec_witness :
    ascii2pet 0 = 0 ∧ ascii2pet 0x61 = 0x41 ∧ ascii2pet 0x41 = 0x41 ∧
      ascii2pet 0x7E = 0x20 ∧ ascii2pet 0xC1 = 0x20 :=
  ⟨(ascii2pet_spec 0 (by decide)).1 rfl,
    (ascii2pet_spec 0x61 (by decide)).2.1 (by decide),
    (ascii2pet_spec 0x41 (by decide)).2.2.1 (by decide),
    (ascii2pet_spec 0x7E (by decide)).2.2.2.1 (by decide),
    (ascii2pet_spec 0xC1 (by decide)).2.2.2.1 (by decide)⟩

/-! ## T64 archives: `repair` -/

namespace T64File

/-- The model function `directoryItemIsPresent` decides `slotPresent`. -/
theorem directoryItemIsPresent_iff (t : T64File) (i : Nat) :
    t.directoryItemIsPresent i = true ↔ slotPresent t i := by
  unfold directoryItemIsPresent slotPresent
  have e1 : 0x60 + i * 0x20 = 0x60 + 32 * i := by omega
  have e2 : 0x40 + i * 0x20 = 0x40 + 32 * i := by omega
  simp only [e1, e2]
  by_cases h : 0x60 + 32 * i < t.size
  · simp only [if_pos h, List.any_eq_true, List.mem_range, bne_iff_ne, ne_eq, true_and]
    exact ⟨fun hk => ⟨h, hk⟩, fun hk => hk.2⟩
  · simp [h]

/-- The counting loop ends at the first slot that is not present, when there is
one below `2^16`. -/
theorem repairCount_eq (t : T64File) (c : Nat) (hc : c < 2 ^ 16)
    (hnot : t.directoryItemIsPresent c = false) :
    ∀ fuel n, n ≤ c → c - n < fuel →
      (∀ j, n ≤ j → j < c → t.directoryItemIsPresent j = true) →
      t.repairCount fuel n = some c := by
  intro fuel
  induction fuel with
  | zero =>
    intro n _ hf
    omega
  | succ fuel ih =>
    intro n hn hf hall
    rcases Nat.lt_or_ge n c with hlt | hge
    · have hp := hall n (Nat.le_refl n) hlt
      have hmod : (n + 1) % 2 ^ 16 = n + 1 := by omega
      simp only [repairCount, hp, if_true, hmod]
      exact ih (n + 1) (by omega) (by omega) (fun j hj1 hj2 => hall j (by omega) hj2)
    · have hnc : n = c := by omega
      subst hnc
      simp only [repairCount, hnot]
      rfl

/-- The counting loop never ends when all `2^16` slots are present. -/
theorem repairCount_none (t : T64File)
    (hall : ∀ j, j < 2 ^ 16 → t.directoryItemIsPresent j = true) :
    ∀ fuel n, n < 2 ^ 16 → t.repairCount fuel n = none := by
  intro fuel
  induction fuel with
  | zero =>
    intro n _
    rfl
  | succ fuel ih =>
    intro n hn
    simp only [repairCount, hall n hn, if_true]
    exact ih _ (Nat.mod_lt _ (by norm_num))

/-- The counting loop, started below `2^16`, ends below `2^16`, at a slot that
is not present, after slots that are present. -/
theorem repairCount_some (t : T64File) :
    ∀ fuel n c, n < 2 ^ 16 → t.repairCount fuel n = some c →
      c < 2 ^ 16 ∧ t.directoryItemIsPresent c = false := by
  intro fuel
  induction fuel with
  | zero =>
    intro n c _ h
    cases h
  | succ fuel ih =>
    intro n c hn h
    by_cases hp : t.directoryItemIsPresent n = true
    · simp only [repairCount, hp, if_true] at h
      exact ih _ c (Nat.mod_lt _ (by norm_num)) h
    · simp only [repairCount, hp] at h
      cases h
      exact ⟨hn, by simpa using hp⟩

/-- A 16-bit value is recovered from its two bytes. -/
theorem LO_HI_bytes (c : Nat) (hc : c < 2 ^ 16) : LO_HI (LO_BYTE c) (HI_BYTE c) = c := by
  have h1 : LO_BYTE c = c % 256 := by
    unfold LO_BYTE
    rw [land_ff]
    omega
  have h2 : HI_BYTE c = c / 256 := by
    unfold HI_BYTE
    rw [Nat.shiftRight_eq_div_pow]
    omega
  rw [h1, h2, LO_HI_eq _ _ (by omega) (by omega)]
  omega

/-- A round of the second loop that leaves through `return false`. -/
theorem repairItems_fail (size n i : Nat) (data : Nat → Nat) (hi : i < 2 ^ 16)
    (h : repairStartInContainer data i ≥ size) :
    repairItems size (n + 1) i data = (data, false) := by
  have e : (0x48 + i * 0x20) % 2 ^ 32 = 0x48 + i * 0x20 := by omega
  unfold repairStartInContainer at h
  simp only [repairItems, e, if_pos h]

/-- A round of the second loop that stores a fixed end address. -/
theorem repairItems_fix (size n i : Nat) (data : Nat → Nat) (hi : i < 2 ^ 16)
    (h : ¬ repairStartInContainer data i ≥ size) (he : repairEndInMemory data i = 0xC3C6) :
    repairItems size (n + 1) i data = repairItems size n (i + 1) (repairStoreEnd size data i) := by
  have e : (0x48 + i * 0x20) % 2 ^ 32 = 0x48 + i * 0x20 := by omega
  have e2 : (0x42 + i * 0x20) % 2 ^ 32 = 0x42 + i * 0x20 := by omega
  have e4 : (0x44 + i * 0x20) % 2 ^ 32 = 0x44 + i * 0x20 := by omega
  unfold repairStartInContainer at h
  unfold repairEndInMemory at he
  simp only [repairItems, e, e2, e4, if_neg h, if_pos he]
  rfl

/-- A round of the second loop that stores nothing. -/
theorem repairItems_skip (size n i : Nat) (data : Nat → Nat) (hi : i < 2 ^ 16)
    (h : ¬ repairStartInContainer data i ≥ size) (he : repairEndInMemory data i ≠ 0xC3C6) :
    repairItems size (n + 1) i data = repairItems size n (i + 1) data := by
  have e : (0x48 + i * 0x20) % 2 ^ 32 = 0x48 + i * 0x20 := by omega
  have e4 : (0x44 + i * 0x20) % 2 ^ 32 = 0x44 + i * 0x20 := by omega
  unfold repairStartInContainer at h
  unfold repairEndInMemory at he
  simp only [repairItems, e, e4, if_neg h, if_neg he]

/-- The second loop, from item `i` on, stores nothing below `$44 + 32i`. -/
theorem repairItems_frame (size : Nat) :
    ∀ n i (data : Nat → Nat) a, i + n ≤ 2 ^ 16 → a < 0x44 + 32 * i →
      (repairItems size n i data).1 a = data a := by
  intro n
  induction n with
  | zero =>
    intro i data a _ _
    rfl
  | succ n ih =>
    intro i data a hin ha
    have hi : i < 2 ^ 16 := by omega
    by_cases h : repairStartInContainer data i ≥ size
    · rw [repairItems_fail size n i data hi h]
    · by_cases he : repairEndInMemory data i = 0xC3C6
      · rw [repairItems_fix size n i data hi h he, ih (i + 1) _ a (by omega) (by omega)]
        have h1 : a ≠ 0x44 + i * 0x20 + 1 := by omega
        have h2 : a ≠ 0x44 + i * 0x20 := by omega
        simp only [repairStoreEnd, if_neg h1, if_neg h2]
      · rw [repairItems_skip size n i data hi h he]
        exact ih (i + 1) data a (by omega) (by omega)

/-- The second loop leaves data alone that it has already repaired: if `data2`
agrees, from the directory entry of item `i` on, with what the loop makes of
`data`, then the loop stores nothing new in `data2` and gives the same
result. -/
theorem repairItems_idem (size : Nat) :
    ∀ n i (data data2 : Nat → Nat), i + n ≤ 2 ^ 16 →
      (∀ a, 0x42 + 32 * i ≤ a → data2 a = (repairItems size n i data).1 a) →
      repairItems size n i data2 = (data2, (repairItems size n i data).2) := by
  intro n
  induction n with
  | zero =>
    intro i data data2 _ _
    rfl
  | succ n ih =>
    intro i data data2 hin hagree
    have hi : i < 2 ^ 16 := by omega
    by_cases h : repairStartInContainer data i ≥ size
    · -- the first run left at this item
      rw [repairItems_fail size n i data hi h] at hagree ⊢
      have h2 : repairStartInContainer data2 i ≥ size := by
        unfold repairStartInContainer at h ⊢
        rw [hagree _ (by omega), hagree _ (by omega), hagree _ (by omega),
          hagree _ (by omega)]
        exact h
      rw [repairItems_fail size n i data2 hi h2]
    · by_cases he : repairEndInMemory data i = 0xC3C6
      · -- the first run stored a fixed end address
        rw [repairItems_fix size n i data hi h he] at hagree ⊢
        have hslot : ∀ a, 0x42 + 32 * i ≤ a → a < 0x44 + 32 * (i + 1) →
            data2 a = repairStoreEnd size data i a := by
          intro a h1 h2
          rw [hagree a h1]
          exact repairItems_frame size n (i + 1) _ a (by omega) h2
        have hsame : ∀ a, 0x42 + 32 * i ≤ a → a < 0x44 + 32 * (i + 1) →
            a ≠ 0x44 + i * 0x20 + 1 → a ≠ 0x44 + i * 0x20 → data2 a = data a := by
          intro a h1 h2 h3 h4
          rw [hslot a h1 h2]
          simp only [repairStoreEnd, if_neg h3, if_neg h4]
        have hsac : repairStartInContainer data2 i = repairStartInContainer data i := by
          unfold repairStartInContainer
          rw [hsame _ (by omega) (by omega) (by omega) (by omega),
            hsame _ (by omega) (by omega) (by omega) (by omega),
            hsame _ (by omega) (by omega) (by omega) (by omega),
            hsame _ (by omega) (by omega) (by omega) (by omega)]
        have hstart : repairStartInMemory data2 i = repairStartInMemory data i := by
          unfold repairStartInMemory
          rw [hsame _ (by omega) (by omega) (by omega) (by omega),
            hsame _ (by omega) (by omega) (by omega) (by omega)]
        have hlo : data2 (0x44 + i * 0x20) = LO_BYTE (repairFixedEnd size data i) := by
          rw [hslot _ (by omega) (by omega)]
          have h1 : 0x44 + i * 0x20 ≠ 0x44 + i * 0x20 + 1 := by omega
          simp only [repairStoreEnd, if_neg h1, if_true]
        have hhi : data2 (0x44 + i * 0x20 + 1) = HI_BYTE (repairFixedEnd size data i) := by
          rw [hslot _ (by omega) (by omega)]
          simp only [repairStoreEnd, if_true]
        have hfix : repairFixedEnd size data2 i = repairFixedEnd size data i := by
          unfold repairFixedEnd
          rw [hsac, hstart]
        have hend : repairEndInMemory data2 i = repairFixedEnd size data i := by
          unfold repairEndInMemory
          rw [hlo, hhi]
          exact LO_HI_bytes _ (Nat.mod_lt _ (by norm_num))
        have h2 : ¬ repairStartInContainer data2 i ≥ size := by
          rw [hsac]
          exact h
        have hrest := ih (i + 1) (repairStoreEnd size data i) data2 (by omega)
          (fun a ha => hagree a (by omega))
        by_cases he2 : repairEndInMemory data2 i = 0xC3C6
        · have hstore : repairStoreEnd size data2 i = data2 := by
            funext a
            unfold repairStoreEnd
            rw [hfix]
            split_ifs with h1 h3
            · rw [h1, hhi]
            · rw [h3, hlo]
            · rfl
          rw [repairItems_fix size n i data2 hi h2 he2, hstore]
          exact hrest
        · rw [repairItems_skip size n i data2 hi h2 he2]
          exact hrest
      · -- the first run stored nothing for this item
        rw [repairItems_skip size n i data hi h he] at hagree ⊢
        have hslot : ∀ a, 0x42 + 32 * i ≤ a → a < 0x44 + 32 * (i + 1) → data2 a = data a := by
          intro a h1 h2
          rw [hagree a h1]
          exact repairItems_frame size n (i + 1) _ a (by omega) h2
        have h2 : ¬ repairStartInContainer data2 i ≥ size := by
          unfold repairStartInContainer at h ⊢
          rw [hslot _ (by omega) (by omega), hslot _ (by omega) (by omega),
            hslot _ (by omega) (by omega), hslot _ (by omega) (by omega)]
          exact h
        have he2 : repairEndInMemory data2 i ≠ 0xC3C6 := by
          unfold repairEndInMemory at he ⊢
          rw [hslot _ (by omega) (by omega), hslot _ (by omega) (by omega)]
          exact he
        rw [repairItems_skip size n i data2 hi h2 he2]
        exact ih (i + 1) data data2 (by omega) (fun a ha => hagree a (by omega))

/-- What `repair` does when the header states a number of items other than
zero. -/
theorem repair_of_ne_zero (t : T64File) (h : t.numberOfItems ≠ 0) :
    t.repair = some ({ t with data := (repairItems t.size t.numberOfItems 0 t.data).1 },
      (repairItems t.size t.numberOfItems 0 t.data).2) := by
  have hm : t.numberOfItems % 2 ^ 16 = t.numberOfItems := Nat.mod_eq_of_lt (numberOfItems_lt t)
  simp only [repair, hm, if_neg h]

/-- What `repair` does when the header states zero items and the counting loop
ends at `c`. -/
theorem repair_of_zero (t : T64File) (h : t.numberOfItems = 0) (c : Nat)
    (hc : t.repairCount 65536 0 = some c) :
    t.repair = some
      ({ t with data := (repairItems t.size c 0 (repairStoreCount t.data c)).1 },
        (repairItems t.size c 0 (repairStoreCount t.data c)).2) := by
  have hc16 := (repairCount_some t 65536 0 c (by norm_num) hc).1
  by_cases h0 : c = 0
  · subst h0
    have hd : repairStoreCount t.data 0 = t.data := by
      simp only [repairStoreCount, if_true]
    simp only [repair, h, Nat.zero_mod, if_true, hc, ne_eq, not_true_eq_false, if_false, hd]
  · have hd : repairStoreCount t.data c = fun a => if a = 0x25 then HI_BYTE c
        else (fun a => if a = 0x24 then LO_BYTE c else t.data a) a := by
      simp only [repairStoreCount, if_neg h0]
    have hnum : numberOfItems { t with data := repairStoreCount t.data c } = c := by
      rw [hd]
      show LO_HI (LO_BYTE c) (HI_BYTE c) = c
      exact LO_HI_bytes c hc16
    rw [hd] at hnum
    simp only [repair, h, Nat.zero_mod, if_true, hc, ne_eq, h0, not_false_eq_true, hnum, hd]

/-- The second loop does not touch the number of items in the header. -/
theorem numberOfItems_repairItems (t : T64File) (size n : Nat) (data : Nat → Nat)
    (hn : n ≤ 2 ^ 16) :
    numberOfItems { t with data := (repairItems size n 0 data).1 }
      = LO_HI (data 0x24) (data 0x25) := by
  show LO_HI ((repairItems size n 0 data).1 0x24) ((repairItems size n 0 data).1 0x25) = _
  rw [repairItems_frame size n 0 data 0x24 (by omega) (by omega),
    repairItems_frame size n 0 data 0x25 (by omega) (by omega)]

/-- The number of items in the header after the counted number has been
stored. -/
theorem numberOfItems_repairStoreCount (t : T64File) (h : t.numberOfItems = 0) (c : Nat)
    (hc : c < 2 ^ 16) :
    LO_HI (repairStoreCount t.data c 0x24) (repairStoreCount t.data c 0x25) = c := by
  by_cases h0 : c = 0
  · subst h0
    simp only [repairStoreCount, if_true]
    exact h
  · simp only [repairStoreCount, if_neg h0]
    exact LO_HI_bytes c hc

/-- A second run of `repair` on an archive whose data is what the second loop
made of some data, for the number of items that the header states. -/
theorem repair_second (t1 : T64File) (data : Nat → Nat)
    (h0 : t1.numberOfItems ≠ 0)
    (hd : t1.data = (repairItems t1.size t1.numberOfItems 0 data).1) :
    t1.repair = some (t1, (repairItems t1.size t1.numberOfItems 0 data).2) := by
  have hlt := numberOfItems_lt t1
  have hidem := repairItems_idem t1.size t1.numberOfItems 0 data t1.data (by omega)
    (fun a _ => by rw [← hd])
  rw [repair_of_ne_zero t1 h0, hidem]

/-- When the header states zero items and a slot below `2^16` is not present,
`repair` returns, and afterwards the header states the number of leading
slots that are present. -/
theorem repair_counts_slots (t : T64File) (h0 : t.numberOfItems = 0) (c : Nat)
    (hc : c < 2 ^ 16) (hall : ∀ i, i < c → slotPresent t i) (hnot : ¬ slotPresent t c) :
    ∃ t1 r, t.repair = some (t1, r) ∧ t1.numberOfItems = c := by
  have hcount : t.repairCount 65536 0 = some c := by
    apply repairCount_eq t c hc _ 65536 0 (Nat.zero_le c) (by omega)
    · intro j _ hj
      exact (directoryItemIsPresent_iff t j).2 (hall j hj)
    · cases hp : t.directoryItemIsPresent c
      · rfl
      · exact absurd ((directoryItemIsPresent_iff t c).1 hp) hnot
  refine ⟨_, _, repair_of_zero t h0 c hcount, ?_⟩
  rw [numberOfItems_repairItems t t.size c _ (by omega)]
  exact numberOfItems_repairStoreCount t h0 c hc

/-- If `repair` returns, with the archive `t1` and the result `r`, then a second
`repair`, on `t1`, returns too, leaves `t1` as it is, and has the same result
`r`. -/
theorem repair_again (t t1 : T64File) (r : Bool) (h : t.repair = some (t1, r)) :
    t1.repair = some (t1, r) := by
  have hlt := numberOfItems_lt t
  by_cases h0 : t.numberOfItems = 0
  · cases hc : t.repairCount 65536 0 with
    | none =>
      simp only [repair, h0, Nat.zero_mod, if_true, hc] at h
      cases h
    | some c =>
      have hc16 := (repairCount_some t 65536 0 c (by norm_num) hc).1
      rw [repair_of_zero t h0 c hc] at h
      have ht1 := (Prod.mk.inj (Option.some.inj h)).1
      have hr := (Prod.mk.inj (Option.some.inj h)).2
      have hnum : t1.numberOfItems = c := by
        rw [← ht1, numberOfItems_repairItems t t.size c _ (by omega)]
        exact numberOfItems_repairStoreCount t h0 c hc16
      have hsize : t1.size = t.size := by rw [← ht1]
      by_cases hc0 : c = 0
      · -- nothing was counted and nothing was stored
        subst hc0
        have ht : t1 = t := by
          rw [← ht1]
          rfl
        have hrt : r = true := by
          rw [← hr]
          rfl
        rw [ht, hrt, repair_of_zero t h0 0 hc]
        rfl
      · have hd : t1.data
            = (repairItems t1.size t1.numberOfItems 0 (repairStoreCount t.data c)).1 := by
          rw [hnum, hsize, ← ht1]
        have h2 := repair_second t1 (repairStoreCount t.data c) (by omega) hd
        rw [h2, hnum, hsize, hr]
  · rw [repair_of_ne_zero t h0] at h
    have ht1 := (Prod.mk.inj (Option.some.inj h)).1
    have hr := (Prod.mk.inj (Option.some.inj h)).2
    have hnum : t1.numberOfItems = t.numberOfItems := by
      rw [← ht1, numberOfItems_repairItems t t.size _ _ (by omega)]
      rfl
    have hsize : t1.size = t.size := by rw [← ht1]
    have hd : t1.data = (repairItems t1.size t1.numberOfItems 0 t.data).1 := by
      rw [hnum, hsize, ← ht1]
    have h2 := repair_second t1 t.data (by omega) hd
    rw [h2, hnum, hsize, hr]

/-- Every slot of `t64AllSlots` below `2^16` is present. -/
theorem t64AllSlots_present (i : Nat) (hi : i < 2 ^ 16) : slotPresent t64AllSlots i := by
  refine ⟨?_, 0, by norm_num, ?_⟩
  · show 0x60 + 32 * i < 0x200060
    omega
  · show (if 0x40 + 32 * i + 0 = 0 then 0x43 else if 0x40 + 32 * i + 0 = 1 then 0x36
      else if 0x40 + 32 * i + 0 = 2 then 0x34 else if 0x40 + 32 * i + 0 = 0x24 then 0
      else if 0x40 + 32 * i + 0 = 0x25 then 0 else 1) ≠ 0
    have h0 : ¬ 0x40 + 32 * i + 0 = 0 := by omega
    have h1 : ¬ 0x40 + 32 * i + 0 = 1 := by omega
    have h2 : ¬ 0x40 + 32 * i + 0 = 2 := by omega
    have h3 : ¬ 0x40 + 32 * i + 0 = 0x24 := by omega
    have h4 : ¬ 0x40 + 32 * i + 0 = 0x25 := by omega
    rw [if_neg h0, if_neg h1, if_neg h2, if_neg h3, if_neg h4]
    decide

/-- When the header states zero items and the counting loop does not end,
`repair` does not return. -/
theorem repair_of_count_none (t : T64File) (h : t.numberOfItems = 0)
    (hc : t.repairCount 65536 0 = none) : t.repair = none := by
  simp only [repair, h, Nat.zero_mod, if_true, hc]

/-- C33: a buffer whose header states zero items and on which `repair` does not
terminate.  In `t64AllSlots` every directory slot 0..65535 ends before the end
of the file and holds a non-zero byte, so the 16-bit counter of the loop
`while (directoryItemIsPresent(noOfItems)) noOfItems++` wraps from 65535 to
0 and the loop starts over: however many rounds it is given, it has not ended,
and `repair` does not return. -/
theorem repair_count_never_ends :
    t64AllSlots.numberOfItems = 0 ∧
    (∀ i, i < 2 ^ 16 → slotPresent t64AllSlots i) ∧
    (∀ fuel, t64AllSlots.repairCount fuel 0 = none) ∧
    t64AllSlots.repair = none := by
  have hnum : t64AllSlots.numberOfItems = 0 := by decide
  have hall : ∀ j, j < 2 ^ 16 → t64AllSlots.directoryItemIsPresent j = true :=
    fun j hj => (directoryItemIsPresent_iff _ j).2 (t64AllSlots_present j hj)
  have hnone := repairCount_none t64AllSlots hall
  exact ⟨hnum, t64AllSlots_present, fun fuel => hnone fuel 0 (by norm_num),
    repair_of_count_none t64AllSlots hnum (hnone 65536 0 (by norm_num))⟩

/-- The counting loop ends when some slot below `2^16` is not present. -/
theorem repairCount_returns (t : T64File)
    (h : ∃ c, c < 2 ^ 16 ∧ t.directoryItemIsPresent c = false) :
    ∃ c, t.repairCount 65536 0 = some c := by
  obtain ⟨hc, hnot⟩ := Nat.find_spec h
  refine ⟨Nat.find h, repairCount_eq t (Nat.find h) hc hnot 65536 0 (Nat.zero_le _) (by omega) ?_⟩
  intro j _ hj
  cases hp : t.directoryItemIsPresent j
  · exact absurd ⟨by omega, hp⟩ (Nat.find_min h hj)
  · rfl

/-- C39: `repair` twice and `repair` once.  Whenever the header states a number
of items other than zero, or some directory slot below `2^16` is not present
(as in every file of at most `$200040` bytes), `repair` returns, with an
archive `t1` and a result `r`, and a second `repair`, on `t1`, returns too,
leaves every byte of `t1` as it is and has the same result `r`.  When the
header states zero items and all `2^16` slots are present, as in
`t64AllSlots`, the first `repair` does not return. -/
theorem repair_twice :
    (∀ t : T64File,
      (t.numberOfItems ≠ 0 ∨ ∃ c, c < 2 ^ 16 ∧ ¬ slotPresent t c) →
      ∃ t1 r, t.repair = some (t1, r) ∧ t1.repair = some (t1, r)) ∧
    (∀ t : T64File,
      (t.numberOfItems = 0 ∧ ∀ c, c < 2 ^ 16 → slotPresent t c) → t.repair = none) ∧
    t64AllSlots.repair = none := by
  have hnever : ∀ t : T64File,
      (t.numberOfItems = 0 ∧ ∀ c, c < 2 ^ 16 → slotPresent t c) → t.repair = none := by
    rintro t ⟨h0, hall⟩
    exact repair_of_count_none t h0
      (repairCount_none t (fun j hj => (directoryItemIsPresent_iff t j).2 (hall j hj))
        65536 0 (by norm_num))
  refine ⟨?_, hnever, hnever t64AllSlots ⟨by decide, t64AllSlots_present⟩⟩
  intro t hret
  have hsome : ∃ x, t.repair = some x := by
    by_cases h0 : t.numberOfItems = 0
    · rcases hret with h | ⟨c, hc, hnot⟩
      · exact absurd h0 h
      · have hb : t.directoryItemIsPresent c = false := by
          cases hp : t.directoryItemIsPresent c
          · rfl
          · exact absurd ((directoryItemIsPresent_iff t c).1 hp) hnot
        obtain ⟨n, hn⟩ := repairCount_returns t ⟨c, hc, hb⟩
        exact ⟨_, repair_of_zero t h0 n hn⟩
    · exact ⟨_, repair_of_ne_zero t h0⟩
  obtain ⟨x, hx⟩ := hsome
  exact ⟨x.1, x.2, hx, repair_again t x.1 x.2 hx⟩

/-- C39 witness: the archive `t64Convc64`, whose slot 1 is not present; the
first `repair` counts one item and stores the end address `$0821`, and the
second changes nothing. -/
theorem repair_twice_witness :
    ∃ t1 r, t64Convc64.repair = some (t1, r) ∧ t1.numberOfItems = 1 ∧
      t1.data 0x44 = 0x21 ∧ t1.data 0x45 = 0x08 ∧ t1.repair = some (t1, r) := by
  have hslot : ¬ slotPresent t64Convc64 1 := by
    rintro ⟨h, _⟩
    exact absurd h (by decide)
  obtain ⟨t1, r, h1, h2⟩ := repair_twice.1 t64Convc64 (Or.inr ⟨1, by norm_num, hslot⟩)
  have hnum : t64Convc64.repair.map
      (fun y => (y.1.numberOfItems, y.1.data 0x44, y.1.data 0x45)) = some (1, 0x21, 0x08) := by
    decide
  rw [h1] at hnum
  have hnum2 := Option.some.inj hnum
  exact ⟨t1, r, h1, (Prod.mk.inj hnum2).1, (Prod.mk.inj (Prod.mk.inj hnum2).2).1,
    (Prod.mk.inj (Prod.mk.inj hnum2).2).2, h2⟩

end T64File

/-! ## Action Replay: on-board RAM and control register -/

namespace ActionReplay

/-- The low byte of an address in I/O space 2. -/
theorem io2_offset (o : Nat) (ho : o ≤ 0xFF) : (0xDF00 + o) &&& 0xFF = o := by
  rw [land_ff]
  omega

/-- The RAM cell behind an address in the top page of ROML. -/
theorem roml_top_offset (o : Nat) (ho : o ≤ 0xFF) : (0x9F00 + o) &&& 0x1FFF = 0x1F00 + o := by
  rw [show (0x1FFF : Nat) = 2 ^ 13 - 1 from rfl, Nat.and_pow_two_sub_one_eq_mod]
  omega

/-- C34: the RAM mirror of the Action Replay.  With bit 5 of `control` set, for
every offset `o` in `0..$FF` and every byte `v`: `pokeIO2($DF00 + o, v)`
returns and `peek($9F00 + o)` then yields `v`; and after
`poke($9F00 + o, v)`, `peekIO2($DF00 + o)` returns `v`.  Both address the
cell `$1F00 + o` of the on-board RAM, and neither write changes the
cartridge. -/
theorem ram_mirror (k : CartridgeWithRegister) (externalRam : Nat → Nat)
    (cartridgePeek chipLPeek : Nat → Nat) (o v : Nat)
    (hb : k.control &&& 0x20 ≠ 0) (ho : o ≤ 0xFF) :
    (∃ ram1, pokeIO2 .actionReplay k externalRam (0xDF00 + o) v = some (k, ram1) ∧
      ram1 (0x1F00 + o) = v ∧
      peek .actionReplay cartridgePeek k ram1 (0x9F00 + o) = v) ∧
    (∃ ram1, poke .actionReplay k externalRam (0x9F00 + o) v = (k, ram1) ∧
      ram1 (0x1F00 + o) = v ∧
      peekIO2 .actionReplay chipLPeek k ram1 (0xDF00 + o) = some v) := by
  have hio : ramIsEnabled k.control (0xDF00 + o) = true := by
    rw [ramIsEnabled_iff]
    exact ⟨(land_0x20_ne_zero_iff _).1 hb, Or.inr ⟨by omega, by omega⟩⟩
  have hroml : ramIsEnabled k.control (0x9F00 + o) = true := by
    rw [ramIsEnabled_iff]
    exact ⟨(land_0x20_ne_zero_iff _).1 hb, Or.inl ⟨by omega, by omega⟩⟩
  have hr : 0xDF00 + o ≥ 0xDF00 ∧ 0xDF00 + o ≤ 0xDFFF := ⟨by omega, by omega⟩
  constructor
  · refine ⟨pokeRAM externalRam (0x1F00 + o) v, ?_, ?_, ?_⟩
    · simp only [pokeIO2, if_pos hr, vramIsEnabled, hio, if_true, io2_offset o ho]
    · simp [pokeRAM]
    · simp only [peek, vramIsEnabled, hroml, if_true, roml_top_offset o ho, peekRAM]
      simp [pokeRAM]
  · refine ⟨pokeRAM externalRam (0x1F00 + o) v, ?_, ?_, ?_⟩
    · simp only [poke, vramIsEnabled, hroml, if_true, roml_top_offset o ho]
    · simp [pokeRAM]
    · simp only [peekIO2, if_pos hr, vramIsEnabled, hio, if_true, io2_offset o ho, peekRAM]
      simp [pokeRAM]

/-- C34 witness: with `control = $20`, offset `$42` and the byte `$5A`. -/
theorem ram_mirror_witness :
    (∃ ram1, pokeIO2 .actionReplay ⟨0x20, []⟩ (fun _ => 0) 0xDF42 0x5A
        = some (⟨0x20, []⟩, ram1) ∧
      peek .actionReplay (fun _ => 0xFF) ⟨0x20, []⟩ ram1 0x9F42 = 0x5A) ∧
    (∃ ram1, poke .actionReplay ⟨0x20, []⟩ (fun _ => 0) 0x9F42 0x5A = (⟨0x20, []⟩, ram1) ∧
      peekIO2 .actionReplay (fun _ => 0xFF) ⟨0x20, []⟩ ram1 0xDF42 = some 0x5A) := by
  obtain ⟨⟨r1, h1, _, h2⟩, ⟨r2, h3, _, h4⟩⟩ :=
    ram_mirror ⟨0x20, []⟩ (fun _ => 0) (fun _ => 0xFF) (fun _ => 0xFF) 0x42 0x5A
      (by decide) (by decide)
  exact ⟨⟨r1, h1, h2⟩, ⟨r2, h3, h4⟩⟩

/-- A write to I/O space 1 of a cartridge that is not disabled, with bit 7 of
the value set, fails the assertion of `setControlReg`. -/
theorem pokeIO1_bit7 (cls : ActionReplayClass) (intsrc : Nat) (k : CartridgeWithRegister)
    (c64 : C64) (addr value : Nat) (hd : k.control &&& 0x04 = 0) (hv : value &&& 0x80 ≠ 0) :
    pokeIO1 cls intsrc k c64 addr value = none := by
  have hdis : disabled k.control = false := by simp [disabled, hd]
  simp only [pokeIO1, hdis, Bool.not_false, if_true, setControlReg, if_neg hv]

/-- C35: a call of `setControlReg` that fails its assertion.  On an Action
Replay with `control = 0`, which is not disabled, the guest write
`pokeIO1(addr, $80)` reaches `setControlReg($80)`, and the assertion
`(value & 0x80) == 0` fails, whatever the class, the address and the state of
the machine.  The calls made by `reset()` and `pressButton(1)` pass it. -/
theorem pokeIO1_assertion_fails :
    (∀ (cls : ActionReplayClass) (intsrc : Nat) (calls : List CartridgeCall) (c64 : C64)
        (addr : Nat), pokeIO1 cls intsrc ⟨0, calls⟩ c64 addr 0x80 = none) ∧
    (∀ (cls : ActionReplayClass) (intsrc : Nat) (k : CartridgeWithRegister) (c64 : C64),
        (reset cls intsrc k c64).isSome = true) ∧
    (∀ (cls : ActionReplayClass) (k : CartridgeWithRegister) (c64 : C64),
        (pressButton cls 0x08 k c64 1).isSome = true) := by
  refine ⟨?_, ?_, ?_⟩
  · intro cls intsrc calls c64 addr
    have hd : (⟨0, calls⟩ : CartridgeWithRegister).control &&& 0x04 = 0 := by
      show (0 : Nat) &&& 0x04 = 0
      decide
    exact pokeIO1_bit7 cls intsrc ⟨0, calls⟩ c64 addr 0x80 hd (by decide)
  · intro cls intsrc k c64
    have hv : ((0 : Nat) &&& 0x80) = 0 := by decide
    have hr : (resetFreezeMode 0 || disabled 0) = false := by decide
    simp only [reset, setControlReg, if_pos hv, hr]
    rfl
  · intro cls k c64
    obtain ⟨c2, h2, _⟩ := C64.pullDownNmiLine_returns
      { c64 with expansionport := c64.expansionport.setGameAndExrom false true } 0x08
      (by decide)
    obtain ⟨c3, h3, _⟩ := C64.pullDownIrqLine_returns c2 0x08 (by decide)
    rw [pressButton_one, setControlReg_0x23]
    dsimp only
    rw [h2]
    dsimp only
    rw [h3]
    rfl


end ActionReplay

/-! ## T64 archives: creation from another archive -/

namespace T64File

/-- A round of the size loop stops the run: the new archive has no data. -/
theorem makeT64SizeLoop_succ (otherArchive : AnyArchive) (n i : Nat) (archive : T64File) :
    makeT64SizeLoop otherArchive (n + 1) i archive = none := rfl

/-- The function returns exactly when the source archive has no items. -/
theorem makeT64Archive_isSome (a : AnyArchive) :
    (makeT64ArchiveWithAnyArchive (some a)).isSome = decide (a.numberOfItems % 2 ^ 32 = 0) := by
  by_cases h : a.numberOfItems % 2 ^ 32 = 0
  · simp only [makeT64ArchiveWithAnyArchive, h, makeT64SizeLoop]
    rfl
  · obtain ⟨n, hn⟩ := Nat.exists_eq_succ_of_ne_zero h
    simp only [makeT64ArchiveWithAnyArchive, hn, Nat.succ_eq_add_one, makeT64SizeLoop_succ]
    simp

set_option maxRecDepth 100000 in
/-- For the archive without items the function allocates 1024 bytes and makes
all its stores inside them. -/
theorem emptyArchive_stores_inside :
    (makeT64ArchiveWithAnyArchive (some emptyArchive)).map
      (Option.map (fun r => (r.size, r.writes.all (fun w => decide (w.1 < r.size)))))
        = some (some (1024, true)) := by
  decide

/-- C36: `makeT64ArchiveWithAnyArchive` stops in its size loop.  The loop calls
`archive->selectItem(i)` on the new archive, before `archive->data` is
allocated, so for every source archive with at least one item the run stops
in the first round, and nothing is allocated and nothing is stored; the
function returns exactly for the source archives without items.  For
`twoItemArchive` it does not return; for `emptyArchive` it allocates
`64 + 32 * 30 = 1024` bytes and makes all its stores inside them. -/
theorem makeT64Archive_stops :
    (∀ a : AnyArchive,
      (makeT64ArchiveWithAnyArchive (some a)).isSome = decide (a.numberOfItems % 2 ^ 32 = 0)) ∧
    (makeT64ArchiveWithAnyArchive (some twoItemArchive)).isNone = true ∧
    (makeT64ArchiveWithAnyArchive (some emptyArchive)).map
      (Option.map (fun r => (r.size, r.writes.all (fun w => decide (w.1 < r.size)))))
        = some (some (1024, true)) :=
  ⟨makeT64Archive_isSome, by decide, emptyArchive_stores_inside⟩

end T64File

/-! ## Flash ROM: erase sub-states -/

namespace FlashRom

/-- In an erase sub-state a write that passes the assertion changes nothing. -/
theorem poke_erase_state (f : FlashRom)
    (he : f.state ∈ [FLASH_ERASE_MAGIC_1, FLASH_ERASE_MAGIC_2, FLASH_ERASE_SELECT,
      FLASH_SECTOR_ERASE_TIMEOUT, FLASH_SECTOR_ERASE, FLASH_SECTOR_ERASE_SUSPEND,
      FLASH_CHIP_ERASE]) (addr value : Nat) (ha : addr < f.size) :
    f.poke addr value = some f := by
  simp only [List.mem_cons, List.mem_singleton, List.not_mem_nil, or_false] at he
  simp only [poke, if_pos ha]
  rcases he with h | h | h | h | h | h | h <;> rw [h]

/-- In an erase sub-state a sequence of writes that pass the assertion changes
nothing. -/
theorem pokeSeq_erase_state (f : FlashRom)
    (he : f.state ∈ [FLASH_ERASE_MAGIC_1, FLASH_ERASE_MAGIC_2, FLASH_ERASE_SELECT,
      FLASH_SECTOR_ERASE_TIMEOUT, FLASH_SECTOR_ERASE, FLASH_SECTOR_ERASE_SUSPEND,
      FLASH_CHIP_ERASE]) (ps : List (Nat × Nat)) (hps : ∀ p ∈ ps, p.1 < f.size) :
    f.pokeSeq ps = some f := by
  induction ps with
  | nil => rfl
  | cons p ps ih =>
    have hp : p.1 < f.size := hps p (List.mem_cons_self _ _)
    have ih2 := ih (fun q hq => hps q (List.mem_cons_of_mem _ hq))
    simp only [pokeSeq, poke_erase_state f he p.1 p.2 hp, Option.some_bind, ih2]

/-- C37: the erase sub-states are absorbing under writes.  In each of the seven
states a `poke(a, v)` with `a < size` returns and leaves the chip as it is (and
no `poke` that returns changes it), and so does every sequence of them.  From
the state `FLASH_READ` the prefix `($5555,$AA)`, `($2AAA,$55)`, `($5555,$80)`
leads to `FLASH_ERASE_MAGIC_1`, changing only `state`, and whatever writes
follow, the `$F0` command included, the chip stays as the prefix left it;
`reset()` then brings `state` back to `FLASH_READ`. -/
theorem erase_states_absorbing (f : FlashRom) :
    (f.state ∈ [FLASH_ERASE_MAGIC_1, FLASH_ERASE_MAGIC_2, FLASH_ERASE_SELECT,
        FLASH_SECTOR_ERASE_TIMEOUT, FLASH_SECTOR_ERASE, FLASH_SECTOR_ERASE_SUSPEND,
        FLASH_CHIP_ERASE] →
      (∀ addr value, addr < f.size → f.poke addr value = some f) ∧
      (∀ addr value g, f.poke addr value = some g →
        g.state = f.state ∧ g.baseState = f.baseState ∧ g.rom = f.rom) ∧
      (∀ ps, (∀ p ∈ ps, p.1 < f.size) → f.pokeSeq ps = some f)) ∧
    (f.state = FLASH_READ → 0x5555 < f.size →
      ∀ ps, (∀ p ∈ ps, p.1 < f.size) →
        f.pokeSeq ([(0x5555, 0xAA), (0x2AAA, 0x55), (0x5555, 0x80)] ++ ps)
          = some { f with state := FLASH_ERASE_MAGIC_1 } ∧
        ({ f with state := FLASH_ERASE_MAGIC_1 } : FlashRom).reset.state = FLASH_READ) := by
  constructor
  · intro he
    refine ⟨fun addr value ha => poke_erase_state f he addr value ha, ?_,
      fun ps hps => pokeSeq_erase_state f he ps hps⟩
    intro addr value g hg
    by_cases ha : addr < f.size
    · rw [poke_erase_state f he addr value ha] at hg
      cases hg
      exact ⟨rfl, rfl, rfl⟩
    · simp [poke, ha] at hg
  · intro h0 hs ps hps
    have h1 : (0x5555 : Nat) < f.size := hs
    have h2 : (0x2AAA : Nat) < f.size := by omega
    have hp1 : f.poke 0x5555 0xAA = some { f with state := FLASH_MAGIC_1 } := by
      simp [poke, h1, h0]
    have hp2 : ({ f with state := FLASH_MAGIC_1 } : FlashRom).poke 0x2AAA 0x55
        = some { f with state := FLASH_MAGIC_2 } := by
      simp [poke, h2]
    have hp3 : ({ f with state := FLASH_MAGIC_2 } : FlashRom).poke 0x5555 0x80
        = some { f with state := FLASH_ERASE_MAGIC_1 } := by
      simp [poke, h1]
    have hrest := pokeSeq_erase_state { f with state := FLASH_ERASE_MAGIC_1 }
      (by simp) ps hps
    refine ⟨?_, rfl⟩
    simp only [List.cons_append, pokeSeq, hp1, hp2, hp3, Option.some_bind]
    exact hrest

/-- C37 witness: a write of the reset command `$F0` in the state
`FLASH_CHIP_ERASE` changes nothing; and on a new chip the erase prefix
followed by `$F0` and a program attempt leaves the array as it was, in the
state `FLASH_ERASE_MAGIC_1`. -/
theorem erase_states_absorbing_witness :
    ({ create with state := FLASH_CHIP_ERASE } : FlashRom).poke 0x5555 0xF0
      = some { create with state := FLASH_CHIP_ERASE } ∧
    create.pokeSeq ([(0x5555, 0xAA), (0x2AAA, 0x55), (0x5555, 0x80)] ++
        [(0x5555, 0xF0), (0x1234, 0x00)])
      = some { create with state := FLASH_ERASE_MAGIC_1 } :=
  ⟨((erase_states_absorbing { create with state := FLASH_CHIP_ERASE }).1 (by decide)).1
      0x5555 0xF0 (by decide),
    ((erase_states_absorbing create).2 rfl (by decide) [(0x5555, 0xF0), (0x1234, 0x00)]
      (by decide)).1⟩

end FlashRom

/-! ## VIC-II sprite schedule: theorems -/

namespace VIC

/-- The sprite schedule of a trace made of two parts. -/
theorem spriteSchedule_append (l1 l2 : List VICCall) :
    spriteSchedule (l1 ++ l2) = spriteSchedule l1 ++ spriteSchedule l2 := by
  induction l1 with
  | nil => rfl
  | cons c cs ih => cases c <;> simp [spriteSchedule, ih]

/-- C40: the NTSC sprite schedule is the PAL schedule shifted by one cycle.
For k = 1, 2, 3 the fetch actions of Phi1, the BA request and the fetch action
of Phi2 that NTSC cycle k adds to the trace are those that PAL cycle k+1
adds. -/
theorem ntsc_schedule_shift (inp inp2 : VICInputs) (v : VIC) :
    (spriteSchedule (cycle1ntsc inp v).calls = spriteSchedule v.calls ++
        [.sSecondAccess 3, .setBAlow (v.spriteDmaOnOff &&& (SPR3 ||| SPR4 ||| SPR5)),
          .sThirdAccess 3] ∧
      spriteSchedule (cycle2pal inp2 v).calls = spriteSchedule (cycle1ntsc inp v).calls) ∧
    (spriteSchedule (cycle2ntsc inp v).calls = spriteSchedule v.calls ++
        [.sFinalize 3, .loadShiftRegister 3, .pAccess 4,
          .setBAlow (v.spriteDmaOnOff &&& (SPR4 ||| SPR5)), .sFirstAccess 4] ∧
      spriteSchedule (cycle3pal v).calls = spriteSchedule (cycle2ntsc inp v).calls) ∧
    (spriteSchedule (cycle3ntsc v).calls = spriteSchedule v.calls ++
        [.sSecondAccess 4, .setBAlow (v.spriteDmaOnOff &&& (SPR4 ||| SPR5 ||| SPR6)),
          .sThirdAccess 4] ∧
      spriteSchedule (cycle4pal v).calls = spriteSchedule (cycle3ntsc v).calls) := by
  have h1 : spriteSchedule (cycle1ntsc inp v).calls = spriteSchedule v.calls ++
      [.sSecondAccess 3, .setBAlow (v.spriteDmaOnOff &&& (SPR3 ||| SPR4 ||| SPR5)),
        .sThirdAccess 3] := by
    simp only [cycle1ntsc, call]
    split_ifs <;> simp [spriteSchedule_append, spriteSchedule]
  have h2 : spriteSchedule (cycle2pal inp2 v).calls = spriteSchedule v.calls ++
      [.sSecondAccess 3, .setBAlow (v.spriteDmaOnOff &&& (SPR3 ||| SPR4 ||| SPR5)),
        .sThirdAccess 3] := by
    simp only [cycle2pal, call]
    split_ifs <;> simp [spriteSchedule_append, spriteSchedule]
  have h3 : spriteSchedule (cycle2ntsc inp v).calls = spriteSchedule v.calls ++
      [.sFinalize 3, .loadShiftRegister 3, .pAccess 4,
        .setBAlow (v.spriteDmaOnOff &&& (SPR4 ||| SPR5)), .sFirstAccess 4] := by
    simp only [cycle2ntsc, call]
    split_ifs <;> simp [spriteSchedule_append, spriteSchedule]
  have h4 : spriteSchedule (cycle3pal v).calls = spriteSchedule v.calls ++
      [.sFinalize 3, .loadShiftRegister 3, .pAccess 4,
        .setBAlow (v.spriteDmaOnOff &&& (SPR4 ||| SPR5)), .sFirstAccess 4] := by
    simp [cycle3pal, call, spriteSchedule_append, spriteSchedule]
  have h5 : spriteSchedule (cycle3ntsc v).calls = spriteSchedule v.calls ++
      [.sSecondAccess 4, .setBAlow (v.spriteDmaOnOff &&& (SPR4 ||| SPR5 ||| SPR6)),
        .sThirdAccess 4] := by
    simp [cycle3ntsc, call, spriteSchedule_append, spriteSchedule]
  have h6 : spriteSchedule (cycle4pal v).calls = spriteSchedule v.calls ++
      [.sSecondAccess 4, .setBAlow (v.spriteDmaOnOff &&& (SPR4 ||| SPR5 ||| SPR6)),
        .sThirdAccess 4] := by
    simp [cycle4pal, call, spriteSchedule_append, spriteSchedule]
  exact ⟨⟨h1, h2.trans h1.symm⟩, ⟨h3, h4.trans h3.symm⟩, ⟨h5, h6.trans h5.symm⟩⟩

end VIC

end VirtualC64
